import Mathlib

/-!
Firmata protocol engine (`ofArduino.cpp`).

A shallow embedding of the host-side Firmata codec: the inbound byte framer
(`processData`), the message decoders (`processDigitalPort`,
`processSysExData`), the bounded histories and the outbound encoder
(`sendDigital`, `sendValueAsTwo7bitBytes`, ...).

Conventions of the embedding

* a C++ `int` is an `Int`; where the source applies a bit operation to an
  `int` that may be negative the 32-bit two's-complement pattern is taken
  explicitly (`bits32` / `sint32`);
* an `unsigned char` is a `Nat` reduced `% 256` where the source converts;
* an `int` that is only used as a table index (pin, port, channel) is a `Nat`;
* the fixed tables indexed by pin / port / channel are total functions on
  `Nat` (the source indexes them unchecked);
* `std::list` / `std::vector` / `std::string` are `List`s, a string being the
  list of its character codes;
* events published through `ofNotifyEvent` and bytes written through
  `sendByte` are returned, in order, next to the new state;
* a read through an iterator that is not dereferenceable (at or past
  `end()`, or `front()` of an empty vector) has no defined result: the
  function returns `none`.
-/

/-! ## Constants of `ofArduino.h` -/

/-- Modelled from the spec: the header `ofArduino.h` is not among the sources;
digital-port message command byte of the Firmata protocol (high nibble). -/
def FIRMATA_DIGITAL_MESSAGE : Nat := 0x90

/-- Modelled from the spec: the header `ofArduino.h` is not among the sources;
analog-channel message command byte of the Firmata protocol (high nibble). -/
def FIRMATA_ANALOG_MESSAGE : Nat := 0xE0

/-- Modelled from the spec: the header `ofArduino.h` is not among the sources;
analog reporting command of the Firmata protocol. -/
def FIRMATA_REPORT_ANALOG : Nat := 0xC0

/-- Modelled from the spec: the header `ofArduino.h` is not among the sources;
digital port reporting command of the Firmata protocol. -/
def FIRMATA_REPORT_DIGITAL : Nat := 0xD0

/-- Modelled from the spec: the header `ofArduino.h` is not among the sources;
set-pin-mode command of the Firmata protocol. -/
def FIRMATA_SET_PIN_MODE : Nat := 0xF4

/-- Modelled from the spec: the header `ofArduino.h` is not among the sources;
protocol-version report byte of the Firmata protocol. -/
def FIRMATA_REPORT_VERSION : Nat := 0xF9

/-- Modelled from the spec: the header `ofArduino.h` is not among the sources;
system reset byte of the Firmata protocol. -/
def FIRMATA_SYSTEM_RESET : Nat := 0xFF

/-- Modelled from the spec: the header `ofArduino.h` is not among the sources;
start-of-SysEx marker (`0xF0` in the firmware scenario of the spec). -/
def FIRMATA_START_SYSEX : Nat := 0xF0

/-- Modelled from the spec: the header `ofArduino.h` is not among the sources;
end-of-SysEx marker (`0xF7` in the firmware scenario of the spec). -/
def FIRMATA_END_SYSEX : Nat := 0xF7

/-- Modelled from the spec: the header `ofArduino.h` is not among the sources;
report-firmware sub-command (`0x79` in the firmware scenario of the spec). -/
def FIRMATA_SYSEX_REPORT_FIRMWARE : Nat := 0x79

/-- Modelled from the spec: the header `ofArduino.h` is not among the sources;
string sub-command of the Firmata protocol. -/
def FIRMATA_SYSEX_FIRMATA_STRING : Nat := 0x71

/-- Modelled from the spec: the header `ofArduino.h` is not among the sources;
I2C request sub-command of the Firmata protocol. -/
def I2C_REQUEST : Nat := 0x76

/-- Modelled from the spec: the header `ofArduino.h` is not among the sources;
I2C reply sub-command of the Firmata protocol. -/
def I2C_REPLY : Nat := 0x77

/-- Modelled from the spec: the header `ofArduino.h` is not among the sources;
I2C configuration sub-command of the Firmata protocol. -/
def I2C_CONFIG : Nat := 0x78

/-- Modelled from the spec: the header `ofArduino.h` is not among the sources;
stepper sub-command of the configurable Firmata protocol. -/
def STEPPER_DATA : Nat := 0x72

/-- Modelled from the spec: the header `ofArduino.h` is not among the sources;
pin mode "input". -/
def ARD_INPUT : Int := 0x00

/-- Modelled from the spec: the header `ofArduino.h` is not among the sources;
pin mode "output". -/
def ARD_OUTPUT : Int := 0x01

/-- Modelled from the spec: the header `ofArduino.h` is not among the sources;
pin mode "analog input". -/
def ARD_ANALOG : Int := 0x02

/-- Modelled from the spec: the header `ofArduino.h` is not among the sources;
pin mode "PWM". -/
def ARD_PWM : Int := 0x03

/-- Modelled from the spec: the header `ofArduino.h` is not among the sources;
pin mode "servo". -/
def ARD_SERVO : Int := 0x04

/-- Modelled from the spec: the header `ofArduino.h` is not among the sources;
pin mode "input with pull-up". -/
def ARD_INPUT_PULLUP : Int := 0x0B

/-- Modelled from the spec: the header `ofArduino.h` is not among the sources;
reporting switched on. -/
def ARD_ON : Int := 1

/-- Modelled from the spec: the header `ofArduino.h` is not among the sources;
reporting switched off. -/
def ARD_OFF : Int := 0

/-! ## Machine integers -/

/-- The 32-bit two's-complement bit pattern of a C++ `int`. -/
def bits32 (v : Int) : Nat := (v % 4294967296).toNat

/-- The C++ `int` whose 32-bit two's-complement bit pattern is `n % 2^32`. -/
def sint32 (n : Nat) : Int :=
  if n % 4294967296 < 2147483648 then ((n % 4294967296 : Nat) : Int)
  else ((n % 4294967296 : Nat) : Int) - 4294967296

/-- Table assignment `t[i] = v`. -/
def setAt {α : Type} (t : Nat → α) (i : Nat) (v : α) : Nat → α :=
  fun j => if j = i then v else t j

/-- The bounded push used for every history: `push_front(v)` followed by one
`pop_back()` when the size then exceeds the configured length. -/
def pushFront {α : Type} (h : List α) (v : α) (len : Int) : List α :=
  if ((v :: h).length : Int) > len then (v :: h).dropLast else v :: h

/-! ## Events and engine state -/

/-- The record carried by the I2C event (`I2C_Data`). -/
structure I2C_Data where
  address : Int
  reg : Int
  data : List Nat
deriving DecidableEq

/-- The notifications published through `ofNotifyEvent`, with their payload. -/
inductive Event where
  | EProtocolVersionReceived (majorVersion : Int)
  | EFirmwareVersionReceived (majorVersion : Int)
  | EInitialized (majorVersion : Int)
  | EAnalogPinChanged (pin : Nat)
  | EDigitalPinChanged (pin : Nat)
  | EStringReceived (str : List Nat)
  | ESysExReceived (data : List Nat)
  | EI2CDataRecieved (reply : I2C_Data)
  | EStepperIsDone (stepperNumber : Int)
deriving DecidableEq

/-- The order in which a build evaluates the two operands of a `|` that both
go through the same iterator (`*it` or `*++it` on either side), which C++
leaves open; the iterator being of class type, its `operator++` and
`operator*` calls do not overlap but may come in any order that keeps each
operand's increment before its own read. `leftFirst`
and `rightFirst` evaluate one operand wholly before the other, `interleaved`
runs every increment before any read. -/
inductive OperandOrder where
  | leftFirst
  | rightFirst
  | interleaved
deriving DecidableEq

/-- The member variables of the `ofArduino` class (the serial port object and
the floating-point connect time apart). The last three fields are not data
members: they record, for the three expressions of `processSysExData` whose
value depends on it, the operand order chosen by the build that runs the
object; no function writes them. -/
structure ofArduino where
  _i2cConfigured : Bool
  _portStatus : Int
  _waitForData : Int
  _executeMultiByteCommand : Nat
  _multiByteChannel : Nat
  _storedInputData : Nat → Nat
  _sysExData : List Nat
  _majorProtocolVersion : Int
  _minorProtocolVersion : Int
  _majorFirmwareVersion : Int
  _minorFirmwareVersion : Int
  _firmwareName : List Nat
  _digitalPortValue : Nat → Int
  _digitalPortReporting : Nat → Int
  _digitalPinValue : Nat → Int
  _digitalPinMode : Nat → Int
  _digitalPinReporting : Nat → Int
  _analogPinReporting : Nat → Int
  _servoValue : Nat → Int
  _analogHistory : Nat → List Int
  _digitalHistory : Nat → List Int
  _stringHistory : List (List Nat)
  _sysExHistory : List (List Nat)
  _analogHistoryLength : Int
  _digitalHistoryLength : Int
  _stringHistoryLength : Int
  _sysExHistoryLength : Int
  _initialized : Bool
  connected : Bool
  bUseDelay : Bool
  addressOrder : OperandOrder
  registerOrder : OperandOrder
  stepperOrder : OperandOrder

namespace ofArduino

/-! ## Outbound encoder -/

/-- `sendByte(unsigned char)`: the byte handed to the transport. -/
def sendByte (byte : Nat) : List Nat := [byte % 256]

/-- `sendValueAsTwo7bitBytes(int value)`: `value & 0x7F`, then
`value >> 7 & 127`. -/
def sendValueAsTwo7bitBytes (value : Int) : List Nat :=
  sendByte (bits32 value &&& 0x7F) ++ sendByte ((bits32 value >>> 7) &&& 127)

/-- `getValueFromTwo7bitBytes(unsigned char lsb, unsigned char msb)`. -/
def getValueFromTwo7bitBytes (lsb msb : Nat) : Int :=
  ((((msb % 256) <<< 7) ||| (lsb % 256) : Nat) : Int)

/-- `sendFirmwareVersionRequest()`. -/
def sendFirmwareVersionRequest : List Nat :=
  sendByte FIRMATA_START_SYSEX ++ sendByte FIRMATA_SYSEX_REPORT_FIRMWARE
    ++ sendByte FIRMATA_END_SYSEX

/-- The constructor `ofArduino::ofArduino()`, run over the indeterminate
object memory `raw`: members it does not assign keep their `raw` value,
containers are default-constructed empty. The three table sizes come from the
missing header and are parameters. Returns the bytes of the firmware request
it sends. -/
def construct (raw : ofArduino) (TOTAL_PORTS TOTAL_DIGITAL_PINS TOTAL_ANALOG_PINS : Nat) :
    ofArduino × List Nat :=
  ({ raw with
      _i2cConfigured := false
      _portStatus := -1
      _waitForData := 0
      _analogHistoryLength := 2
      _digitalHistoryLength := 2
      _stringHistoryLength := 1
      _sysExHistoryLength := 1
      _majorProtocolVersion := 0
      _minorProtocolVersion := 0
      _majorFirmwareVersion := 0
      _minorFirmwareVersion := 0
      _firmwareName := [85, 110, 107, 110, 111, 119, 110]
      _digitalPortValue := fun i => if i < TOTAL_PORTS then 0 else raw._digitalPortValue i
      _digitalPortReporting := fun i =>
        if i < TOTAL_PORTS then ARD_OFF else raw._digitalPortReporting i
      _digitalPinValue := fun i =>
        if i < TOTAL_ANALOG_PINS then -1
        else if i < TOTAL_DIGITAL_PINS then -1 else raw._digitalPinValue i
      _digitalPinMode := fun i =>
        if i < TOTAL_ANALOG_PINS then ARD_ANALOG
        else if i < TOTAL_DIGITAL_PINS then ARD_OUTPUT else raw._digitalPinMode i
      _digitalPinReporting := fun i =>
        if i < TOTAL_DIGITAL_PINS then ARD_OFF else raw._digitalPinReporting i
      _analogPinReporting := fun i =>
        if i < TOTAL_ANALOG_PINS then ARD_OFF else raw._analogPinReporting i
      _servoValue := fun i => if i < TOTAL_DIGITAL_PINS then -1 else raw._servoValue i
      _sysExData := []
      _analogHistory := fun _ => []
      _digitalHistory := fun _ => []
      _stringHistory := []
      _sysExHistory := []
      bUseDelay := true },
   sendFirmwareVersionRequest)

/-- `setDigitalHistoryLength(int length)`. -/
def setDigitalHistoryLength (s : ofArduino) (length : Int) : ofArduino :=
  if length ≥ 2 then { s with _digitalHistoryLength := length } else s

/-- `setAnalogHistoryLength(int length)`. -/
def setAnalogHistoryLength (s : ofArduino) (length : Int) : ofArduino :=
  if length ≥ 2 then { s with _analogHistoryLength := length } else s

/-- `setSysExHistoryLength(int length)`. -/
def setSysExHistoryLength (s : ofArduino) (length : Int) : ofArduino :=
  if length ≥ 1 then { s with _sysExHistoryLength := length } else s

/-- `setStringHistoryLength(int length)`. -/
def setStringHistoryLength (s : ofArduino) (length : Int) : ofArduino :=
  if length ≥ 1 then { s with _stringHistoryLength := length } else s

/-- `getAnalog(int pin)`. -/
def getAnalog (s : ofArduino) (pin : Nat) : Int :=
  match s._analogHistory pin with
  | v :: _ => v
  | [] => -1

/-- `getDigital(int pin)`. -/
def getDigital (s : ofArduino) (pin : Nat) : Int :=
  if s._digitalPinMode pin = ARD_INPUT ∨ s._digitalPinMode pin = ARD_INPUT_PULLUP then
    match s._digitalHistory pin with
    | v :: _ => v
    | [] => if s._digitalPinMode pin = ARD_OUTPUT then s._digitalPinValue pin else -1
  else if s._digitalPinMode pin = ARD_OUTPUT then s._digitalPinValue pin
  else -1

/-- `getMajorProtocolVersion()`. -/
def getMajorProtocolVersion (s : ofArduino) : Int := s._majorFirmwareVersion

/-- `getMinorProtocolVersion()`. -/
def getMinorProtocolVersion (s : ofArduino) : Int := s._minorFirmwareVersion

/-- `getMajorFirmwareVersion()`. -/
def getMajorFirmwareVersion (s : ofArduino) : Int := s._majorFirmwareVersion

/-- `getMinorFirmwareVersion()`. -/
def getMinorFirmwareVersion (s : ofArduino) : Int := s._minorFirmwareVersion

/-- `getFirmwareName()`. -/
def getFirmwareName (s : ofArduino) : List Nat := s._firmwareName

/-- `isInitialized()`. -/
def isInitialized (s : ofArduino) : Bool := s._initialized

/-- `sendDigital(int pin, int value, bool force)`: the new state and the bytes
written. -/
def sendDigital (s : ofArduino) (pin : Nat) (value : Int) (force : Bool) :
    ofArduino × List Nat :=
  if (s._digitalPinMode pin = ARD_INPUT ∨ s._digitalPinMode pin = ARD_INPUT_PULLUP
        ∨ s._digitalPinMode pin = ARD_OUTPUT)
      ∧ (s._digitalPinValue pin ≠ value ∨ force = true) then
    let port := (pin >>> 3) &&& 0x0F
    let pv0 := s._digitalPortValue port
    -- set the bit
    let pv1 := if value = 1 then sint32 (bits32 pv0 ||| (1 <<< (pin &&& 0x07))) else pv0
    -- clear the bit: `&= ~(1 << (pin & 0x07))`, the complement taken on 32 bits
    let pv2 :=
      if value = 0 then sint32 (bits32 pv1 &&& (4294967295 ^^^ (1 <<< (pin &&& 0x07))))
      else pv1
    ({ s with
        _digitalPinValue := setAt s._digitalPinValue pin value
        _digitalPortValue := setAt s._digitalPortValue port pv2 },
     sendByte (FIRMATA_DIGITAL_MESSAGE ||| port) ++ sendValueAsTwo7bitBytes pv2)
  else (s, [])

/-! ## Message decoder -/

/-- One iteration of the loop of `processDigitalPort`, for bit `i` of the
port. `front()` of an empty list has no defined result. -/
def processDigitalPin (s : ofArduino) (port value i : Nat) :
    Option (ofArduino × List Event) :=
  let pin := i + port * 8
  if s._digitalPinMode pin = ARD_INPUT ∨ s._digitalPinMode pin = ARD_INPUT_PULLUP then
    let previous : Int :=
      match s._digitalHistory pin with
      | v :: _ => v
      | [] => 0
    let mask := (1 <<< i) % 256
    let h := pushFront (s._digitalHistory pin) (((value &&& mask) >>> i : Nat) : Int)
      s._digitalHistoryLength
    let s1 := { s with _digitalHistory := setAt s._digitalHistory pin h }
    match h with
    | [] => none
    | front :: _ =>
      -- trigger an event if the pin has changed value
      if front ≠ previous then some (s1, [Event.EDigitalPinChanged pin]) else some (s1, [])
  else some (s, [])

/-- The `for` loop of `processDigitalPort` over the listed bit indices. -/
def processDigitalPortLoop (port value : Nat) :
    List Nat → ofArduino → Option (ofArduino × List Event)
  | [], s => some (s, [])
  | i :: rest, s =>
    match processDigitalPin s port value i with
    | none => none
    | some (s1, e1) =>
      match processDigitalPortLoop port value rest s1 with
      | none => none
      | some (s2, e2) => some (s2, e1 ++ e2)

/-- `processDigitalPort(int port, unsigned char value)`. -/
def processDigitalPort (s : ofArduino) (port value : Nat) :
    Option (ofArduino × List Event) :=
  processDigitalPortLoop port (value % 256) (List.range 8) s

/-- The pair loop of the report-firmware and I2C-reply decoders:
`buffer = *it; it++; buffer += *it << 7; it++;` until `it == end()`, the
second read being unguarded. -/
def decodePairs : List Nat → Option (List Nat)
  | [] => some []
  | [_] => none
  | lo :: hi :: rest =>
    match decodePairs rest with
    | none => none
    | some out => some (((lo + (hi <<< 7)) % 256) :: out)

/-- The pair loop of the string decoder, whose second read is guarded by
`it != data.end()`. -/
def decodePairsLenient : List Nat → List Nat
  | [] => []
  | [lo] => [lo % 256]
  | lo :: hi :: rest => ((lo + (hi <<< 7)) % 256) :: decodePairsLenient rest

/-- `(*it & 0x7F) | ((*++it & 0x7F) << 7)` with the iterator on `x0` and `x1`
after it: the right operand reads `x1`; the left operand reads `x0` when it is
evaluated first and `x1` when the increment of the right operand comes before
it. The iterator is left on `x1`. -/
def joinAtIterator (order : OperandOrder) (x0 x1 : Nat) : Nat :=
  match order with
  | OperandOrder.leftFirst => (x0 &&& 0x7F) ||| ((x1 &&& 0x7F) <<< 7)
  | OperandOrder.rightFirst => (x1 &&& 0x7F) ||| ((x1 &&& 0x7F) <<< 7)
  | OperandOrder.interleaved => (x1 &&& 0x7F) ||| ((x1 &&& 0x7F) <<< 7)

/-- `(*++it & 0x7F) | ((*++it & 0x7F) << 7)` with `x1` and `x2` after the
iterator: the operand whose increment comes first reads `x1` unless the other
increment also precedes its read. The iterator is left on `x2`. -/
def joinAfterIterator (order : OperandOrder) (x1 x2 : Nat) : Nat :=
  match order with
  | OperandOrder.leftFirst => (x1 &&& 0x7F) ||| ((x2 &&& 0x7F) <<< 7)
  | OperandOrder.rightFirst => (x2 &&& 0x7F) ||| ((x1 &&& 0x7F) <<< 7)
  | OperandOrder.interleaved => (x2 &&& 0x7F) ||| ((x2 &&& 0x7F) <<< 7)

/-- `processSysExData(vector<unsigned char> data)`. The value of the three
expressions of the I2C and stepper branches that read and advance the iterator
on both sides of `|` follows the operand order of the build. -/
def processSysExData (s : ofArduino) (data : List Nat) : Option (ofArduino × List Event) :=
  match data with
  | [] => none
  | cmd :: rest =>
    if cmd = FIRMATA_SYSEX_REPORT_FIRMWARE then
      match rest with
      | major :: minor :: name =>
        match decodePairs name with
        | none => none
        | some str =>
          some ({ s with
                  _majorFirmwareVersion := (major : Int)
                  _minorFirmwareVersion := (minor : Int)
                  _firmwareName := str
                  _initialized := true },
                [Event.EFirmwareVersionReceived (major : Int), Event.EInitialized (major : Int)])
      | _ => none
    else if cmd = FIRMATA_SYSEX_FIRMATA_STRING then
      let str := decodePairsLenient rest
      some ({ s with _stringHistory := pushFront s._stringHistory str s._stringHistoryLength },
            [Event.EStringReceived str])
    else if cmd = I2C_REPLY then
      match rest with
      | a0 :: a1 :: r0 :: r1 :: more =>
        -- the iterator still points at `r1` when the data loop starts
        match decodePairs (r1 :: more) with
        | none => none
        | some bytes =>
          some (s, [Event.EI2CDataRecieved
            { address := ((joinAtIterator s.addressOrder a0 a1 : Nat) : Int)
              reg := ((joinAfterIterator s.registerOrder r0 r1 : Nat) : Int)
              data := bytes }])
      | _ => none
    else if cmd = STEPPER_DATA then
      if data.length > 2 then
        match rest with
        | b1 :: b2 :: _ =>
          some (s, [Event.EStepperIsDone ((joinAtIterator s.stepperOrder b1 b2 : Nat) : Int)])
        | _ => none
      else
        match rest with
        | b1 :: _ => some (s, [Event.EStepperIsDone ((b1 &&& 0x7F : Nat) : Int)])
        | [] => none
    else
      -- the message isn't in Firmata's extended command set
      some ({ s with _sysExHistory := pushFront s._sysExHistory data s._sysExHistoryLength },
            [Event.ESysExReceived data])

/-! ## Byte framer -/

/-- `processData(unsigned char inputData)`: the new state and the events
published while the byte is processed. -/
def processData (s : ofArduino) (inputData : Nat) : Option (ofArduino × List Event) :=
  let inputData := inputData % 256
  -- we have command data
  if s._waitForData > 0 ∧ inputData < 128 then
    let w := s._waitForData - 1
    let s1 := { s with
                _waitForData := w
                _storedInputData := setAt s._storedInputData w.toNat inputData }
    -- we have all data executeMultiByteCommand
    if w = 0 then
      let payload := ((s1._storedInputData 0) <<< 7) ||| (s1._storedInputData 1)
      if s1._executeMultiByteCommand = FIRMATA_DIGITAL_MESSAGE then
        processDigitalPort s1 s1._multiByteChannel payload
      else if s1._executeMultiByteCommand = FIRMATA_REPORT_VERSION then
        let s2 := { s1 with
                    _majorProtocolVersion := ((s1._storedInputData 1 : Nat) : Int)
                    _minorProtocolVersion := ((s1._storedInputData 0 : Nat) : Int) }
        some (s2, [Event.EProtocolVersionReceived s2._majorProtocolVersion])
      else if s1._executeMultiByteCommand = FIRMATA_ANALOG_MESSAGE then
        let ch := s1._multiByteChannel
        match s1._analogHistory ch with
        | previous :: _ =>
          let h := pushFront (s1._analogHistory ch) (payload : Int) s1._analogHistoryLength
          let s2 := { s1 with _analogHistory := setAt s1._analogHistory ch h }
          match h with
          | [] => none
          | front :: _ =>
            -- trigger an event if the pin has changed value
            if front ≠ previous then some (s2, [Event.EAnalogPinChanged ch]) else some (s2, [])
        | [] =>
          let h := pushFront (s1._analogHistory ch) (payload : Int) s1._analogHistoryLength
          some ({ s1 with _analogHistory := setAt s1._analogHistory ch h }, [])
      else some (s1, [])
    else some (s1, [])
  -- we have SysEx command data
  else if s._waitForData < 0 then
    -- we have all sysex data
    if inputData = FIRMATA_END_SYSEX then
      let s1 := { s with _waitForData := 0 }
      match processSysExData s1 s1._sysExData with
      | none => none
      | some (s2, ev) => some ({ s2 with _sysExData := [] }, ev)
    -- still have data, collect it
    else some ({ s with _sysExData := s._sysExData ++ [inputData] }, [])
  -- we have a command
  else
    -- extract the command and channel info from a byte if it is less than 0xF0
    let command := if inputData < 0xF0 then inputData &&& 0xF0 else inputData
    let s1 := if inputData < 0xF0 then { s with _multiByteChannel := inputData &&& 0x0F } else s
    if command = FIRMATA_REPORT_VERSION ∨ command = FIRMATA_DIGITAL_MESSAGE
        ∨ command = FIRMATA_ANALOG_MESSAGE then
      some ({ s1 with _waitForData := 2, _executeMultiByteCommand := command }, [])
    else if command = FIRMATA_START_SYSEX then
      some ({ s1 with _sysExData := [], _waitForData := -1, _executeMultiByteCommand := command },
            [])
    else some (s1, [])

/-- Feeding a sequence of bytes through `processData`, one call per byte, and
collecting the published events in order. -/
def feed : ofArduino → List Nat → Option (ofArduino × List Event)
  | s, [] => some (s, [])
  | s, b :: rest =>
    match processData s b with
    | none => none
    | some (s1, e1) =>
      match feed s1 rest with
      | none => none
      | some (s2, e2) => some (s2, e1 ++ e2)

/-- The loop of `update()` with `budget = 512 - dataRead` reads left; `port` is
the transport's pending input, `readByte()` returning `-1` when it is empty.
Returns the state, the input left in the transport and the events. -/
def updateLoop : Nat → ofArduino → List Nat → Option (ofArduino × List Nat × List Event)
  | 0, s, port => some (s, port, [])
  | _ + 1, s, [] => some (s, [], [])
  | budget + 1, s, byte :: port =>
    match processData s byte with
    | none => none
    | some (s1, e1) =>
      match updateLoop budget s1 port with
      | none => none
      | some (s2, left, e2) => some (s2, left, e1 ++ e2)

/-- `update()`: one poll call. -/
def update (s : ofArduino) (port : List Nat) : Option (ofArduino × List Nat × List Event) :=
  updateLoop 512 s port

/-- One poll call per arriving byte: each byte is put into the transport and
`update()` is called before the next byte arrives. -/
def pollEach : ofArduino → List Nat → Option (ofArduino × List Event)
  | s, [] => some (s, [])
  | s, b :: rest =>
    match update s [b] with
    | none => none
    | some (s1, _, e1) =>
      match pollEach s1 rest with
      | none => none
      | some (s2, e2) => some (s2, e1 ++ e2)

/-! ## Auxiliary definitions for the statements -/

/-- Object memory filled with zero bytes and empty containers, in a build that
evaluates the left operand of `|` first. -/
def zeroed : ofArduino :=
  { _i2cConfigured := false, _portStatus := 0, _waitForData := 0, _executeMultiByteCommand := 0,
    _multiByteChannel := 0, _storedInputData := fun _ => 0, _sysExData := [],
    _majorProtocolVersion := 0, _minorProtocolVersion := 0, _majorFirmwareVersion := 0,
    _minorFirmwareVersion := 0, _firmwareName := [], _digitalPortValue := fun _ => 0,
    _digitalPortReporting := fun _ => 0, _digitalPinValue := fun _ => 0,
    _digitalPinMode := fun _ => 0, _digitalPinReporting := fun _ => 0,
    _analogPinReporting := fun _ => 0, _servoValue := fun _ => 0, _analogHistory := fun _ => [],
    _digitalHistory := fun _ => [], _stringHistory := [], _sysExHistory := [],
    _analogHistoryLength := 0, _digitalHistoryLength := 0, _stringHistoryLength := 0,
    _sysExHistoryLength := 0, _initialized := false, connected := false, bUseDelay := false,
    addressOrder := OperandOrder.leftFirst, registerOrder := OperandOrder.leftFirst,
    stepperOrder := OperandOrder.leftFirst }

/-- A freshly constructed engine (zeroed memory, 16 ports, 128 pins, 16 analog
channels). -/
def fresh : ofArduino := (construct zeroed 16 128 16).1

/-- The events a completed analog message for channel `c` with sample `v`
publishes, `old` being the channel's history before the push. -/
def analogEvents (old : List Int) (c : Nat) (v : Int) : List Event :=
  match old with
  | previous :: _ => if v ≠ previous then [Event.EAnalogPinChanged c] else []
  | [] => []

/-- The three bytes of an inbound analog-channel message. -/
def analogFrame (c d1 d2 : Nat) : List Nat := [FIRMATA_ANALOG_MESSAGE ||| c, d1, d2]

/-- 513 pending bytes: 510 stray zero bytes, then a protocol-version message. -/
def bulk513 : List Nat := List.replicate 510 0 ++ [FIRMATA_REPORT_VERSION, 1, 2]

/-- The value `processDigitalPort` extracts for bit `i` of the port byte:
`(value & mask) >> i` with `mask = 1 << i` as an `unsigned char`. -/
def portBit (value i : Nat) : Int := (((value &&& ((1 <<< i) % 256)) >>> i : Nat) : Int)

/-- The history of pin `i + port * 8` after the loop iteration for bit `i`. -/
def digitalPinHistory (s : ofArduino) (port value i : Nat) : List Int :=
  if s._digitalPinMode (i + port * 8) = ARD_INPUT
      ∨ s._digitalPinMode (i + port * 8) = ARD_INPUT_PULLUP then
    pushFront (s._digitalHistory (i + port * 8)) (portBit value i) s._digitalHistoryLength
  else s._digitalHistory (i + port * 8)

/-- The events of the loop iteration for bit `i`. -/
def digitalPinEvents (s : ofArduino) (port value i : Nat) : List Event :=
  if s._digitalPinMode (i + port * 8) = ARD_INPUT
      ∨ s._digitalPinMode (i + port * 8) = ARD_INPUT_PULLUP then
    if portBit value i ≠ (s._digitalHistory (i + port * 8)).headD 0 then
      [Event.EDigitalPinChanged (i + port * 8)]
    else []
  else []

/-- The state after the loop iteration for bit `i`. -/
def digitalPinAfter (port value : Nat) (s : ofArduino) (i : Nat) : ofArduino :=
  { s with _digitalHistory :=
      setAt s._digitalHistory (i + port * 8) (digitalPinHistory s port value i) }

/-- The events of the loop iterations for the listed bits. -/
def digitalPortEvents (port value : Nat) : List Nat → ofArduino → List Event
  | [], _ => []
  | i :: rest, s =>
    digitalPinEvents s port value i
      ++ digitalPortEvents port value rest (digitalPinAfter port value s i)

/-- The framer state when a two-byte message for `cmd` / `channel` with data
bytes `d1`, `d2` has been assembled from the idle state. -/
def assembled (s : ofArduino) (cmd channel d1 d2 : Nat) : ofArduino :=
  { s with
    _multiByteChannel := channel
    _waitForData := 0
    _executeMultiByteCommand := cmd
    _storedInputData := setAt (setAt s._storedInputData 1 d1) 0 d2 }

/-- The port aggregate `sendDigital(pin, value, _)` stores when it writes: the
old aggregate with the pin's bit set (`value == 1`), cleared (`value == 0`)
or untouched (any other value). -/
def portValueAfter (s : ofArduino) (pin : Nat) (value : Int) : Int :=
  let pv0 := s._digitalPortValue ((pin >>> 3) &&& 0x0F)
  let pv1 := if value = 1 then sint32 (bits32 pv0 ||| (1 <<< (pin &&& 0x07))) else pv0
  if value = 0 then sint32 (bits32 pv1 &&& (4294967295 ^^^ (1 <<< (pin &&& 0x07)))) else pv1

/-- The three bytes of the digital-port frame for `port` carrying `pv`. -/
def digitalFrame (port : Nat) (pv : Int) : List Nat :=
  [FIRMATA_DIGITAL_MESSAGE ||| port, bits32 pv &&& 0x7F, (bits32 pv >>> 7) &&& 127]

/-- The state after a complete analog message `[cmd | c, d1, d2]` fed from the
idle framer state. -/
def analogAfter (s : ofArduino) (c d1 d2 : Nat) : ofArduino :=
  { assembled s FIRMATA_ANALOG_MESSAGE c d1 d2 with
    _analogHistory := setAt s._analogHistory c
      (pushFront (s._analogHistory c) (((d2 <<< 7) ||| d1 : Nat) : Int)
        s._analogHistoryLength) }

/-- A fresh engine whose pins have all been put in input mode. -/
def inputPins : ofArduino := { fresh with _digitalPinMode := fun _ => ARD_INPUT }

/-- A fresh engine whose pins have all been put in output mode. -/
def outputPins : ofArduino := { fresh with _digitalPinMode := fun _ => ARD_OUTPUT }

/-- The sample carried by the data bytes `(d1, d2)` of an analog message. -/
def sample (m : Nat × Nat) : Int := (((m.2 <<< 7) ||| m.1 : Nat) : Int)

/-- The bytes of a sequence of complete analog messages for channel `c`, the
data bytes of each message given as a pair. -/
def analogFrames (c : Nat) : List (Nat × Nat) → List Nat
  | [] => []
  | m :: rest => analogFrame c m.1 m.2 ++ analogFrames c rest

/-- The states reachable from the constructor by `setAnalogHistoryLength`
calls and complete inbound analog-channel messages. Two ghost values are kept
next to the state: the largest analog retention length configured so far, and
whether some call has lowered the configured length. -/
inductive AnalogReach : Int → Bool → ofArduino → Prop where
  | init (raw : ofArduino) (ports pins channels : Nat) :
      AnalogReach 2 false (construct raw ports pins channels).1
  | setLength (m : Int) (low : Bool) (s : ofArduino) (n : Int) :
      AnalogReach m low s →
      AnalogReach (max m (setAnalogHistoryLength s n)._analogHistoryLength)
        (low || decide ((setAnalogHistoryLength s n)._analogHistoryLength
                  < s._analogHistoryLength))
        (setAnalogHistoryLength s n)
  | message (m : Int) (low : Bool) (s : ofArduino) (c d1 d2 : Nat) (s' : ofArduino)
      (ev : List Event) :
      AnalogReach m low s → c < 16 → d1 < 128 → d2 < 128 →
      feed s (analogFrame c d1 d2) = some (s', ev) →
      AnalogReach m low s'

/-- The state after: construction, `setAnalogHistoryLength(3)`, three analog
messages for channel 0, `setAnalogHistoryLength(2)`. -/
def shrunk : ofArduino :=
  setAnalogHistoryLength
    (analogAfter (analogAfter (analogAfter (setAnalogHistoryLength fresh 3) 0 1 0) 0 2 0) 0 3 0)
    2

/-- The firmware report of the spec's scenario:
`[0xF0, 0x79, 0x02, 0x04, 'A', 0, 'B', 0, 0xF7]`. -/
def firmwareScenario : List Nat := [0xF0, 0x79, 0x02, 0x04, 65, 0, 66, 0, 0xF7]

/-- The engine states that can exist: the constructor's state and every state
obtained from it by the retention-length setters, inbound bytes and digital
writes. -/
inductive Constructed : ofArduino → Prop where
  | init (raw : ofArduino) (ports pins channels : Nat) :
      Constructed (construct raw ports pins channels).1
  | setAnalog (s : ofArduino) (n : Int) : Constructed s → Constructed (setAnalogHistoryLength s n)
  | setDigital (s : ofArduino) (n : Int) :
      Constructed s → Constructed (setDigitalHistoryLength s n)
  | setString (s : ofArduino) (n : Int) : Constructed s → Constructed (setStringHistoryLength s n)
  | setSysEx (s : ofArduino) (n : Int) : Constructed s → Constructed (setSysExHistoryLength s n)
  | data (s : ofArduino) (b : Nat) (s' : ofArduino) (ev : List Event) :
      Constructed s → processData s b = some (s', ev) → Constructed s'
  | digitalWrite (s : ofArduino) (pin : Nat) (value : Int) (force : Bool) :
      Constructed s → Constructed (sendDigital s pin value force).1

/-! ## Further constants of `ofArduino.h` -/

/-- Modelled from the spec: the header `ofArduino.h` is not among the sources;
I2C request mode "write" of the Firmata protocol. -/
def WRITE : Nat := 0

/-- Modelled from the spec: the header `ofArduino.h` is not among the sources;
I2C request mode "read once" of the Firmata protocol. -/
def READ : Nat := 1

/-- Modelled from the spec: the header `ofArduino.h` is not among the sources;
I2C request mode "read continuously" of the Firmata protocol. -/
def CONTINUOUS_READ : Nat := 2

/-- Modelled from the spec: the header `ofArduino.h` is not among the sources;
servo attach sub-command. -/
def SYSEX_SERVO_ATTACH : Nat := 0x00

/-- Modelled from the spec: the header `ofArduino.h` is not among the sources;
servo detach sub-command. -/
def SYSEX_SERVO_DETACH : Nat := 0x01

/-- Modelled from the spec: the header `ofArduino.h` is not among the sources;
servo write sub-command. -/
def SYSEX_SERVO_WRITE : Nat := 0x02

/-- Modelled from the spec: the header `ofArduino.h` is not among the sources;
stepper configuration sub-command. -/
def STEPPER_CONFIG : Nat := 0

/-- Modelled from the spec: the header `ofArduino.h` is not among the sources;
stepper interface "driver" (two wires). -/
def DRIVER : Nat := 1

/-- Modelled from the spec: the header `ofArduino.h` is not among the sources;
stepper interface "four wire". -/
def FOUR_WIRE : Nat := 4

/-! ## Further operations of the outbound encoder -/

/-- `sendByte` applied to an `int` or `char` argument: the conversion to
`unsigned char` keeps the low byte of the two's-complement pattern. -/
def sendInt (v : Int) : List Nat := sendByte (bits32 v)

/-- A loop `for (i = 0; i < length; i++) sendValueAsTwo7bitBytes(bytes[i])`. -/
def sendValues : List Int → List Nat
  | [] => []
  | v :: rest => sendValueAsTwo7bitBytes v ++ sendValues rest

/-- The characters `strlen` counts: those before the first NUL of the buffer
(a `char*` argument is the list of the `char`s of its buffer, a terminating
NUL following them). -/
def cString (bytes : List Int) : List Int := bytes.takeWhile (fun c => c ≠ 0)

/-- `connect(string device, int baud)`; `setupOk` is what `_port.setup`
returns. -/
def connect (s : ofArduino) (setupOk : Bool) : ofArduino :=
  { s with _initialized := false, connected := setupOk }

/-- `setUseDelay(bool bDelay)`. -/
def setUseDelay (s : ofArduino) (bDelay : Bool) : ofArduino := { s with bUseDelay := bDelay }

/-- `getSysEx()`: `_sysExHistory.front()`, undefined on an empty history. -/
def getSysEx (s : ofArduino) : Option (List Nat) := s._sysExHistory.head?

/-- `getString()`: `_stringHistory.front()`, undefined on an empty history. -/
def getString (s : ofArduino) : Option (List Nat) := s._stringHistory.head?

/-- `sendPwm(int pin, int value, bool force)`. -/
def sendPwm (s : ofArduino) (pin : Nat) (value : Int) (force : Bool) : ofArduino × List Nat :=
  if s._digitalPinMode pin = ARD_PWM ∧ (s._digitalPinValue pin ≠ value ∨ force = true) then
    ({ s with _digitalPinValue := setAt s._digitalPinValue pin value },
     sendByte (FIRMATA_ANALOG_MESSAGE ||| (pin &&& 0x0F)) ++ sendValueAsTwo7bitBytes value)
  else if s._digitalPinMode pin = ARD_SERVO ∧ (s._servoValue pin ≠ value ∨ force = true) then
    ({ s with _servoValue := setAt s._servoValue pin value },
     sendByte (FIRMATA_ANALOG_MESSAGE ||| (pin &&& 0x0F)) ++ sendValueAsTwo7bitBytes value)
  else (s, [])

/-- `sendAnalogPinReporting(int pin, int mode)`. -/
def sendAnalogPinReporting (s : ofArduino) (pin : Nat) (mode : Int) : ofArduino × List Nat :=
  ({ s with _analogPinReporting := setAt s._analogPinReporting pin mode },
   sendByte (FIRMATA_REPORT_ANALOG ||| pin) ++ sendInt mode)

/-- `sendDigitalPortReporting(int port, int mode)`. -/
def sendDigitalPortReporting (s : ofArduino) (port : Nat) (mode : Int) : ofArduino × List Nat :=
  ({ s with _digitalPortReporting := setAt s._digitalPortReporting port mode },
   sendByte (FIRMATA_REPORT_DIGITAL ||| port) ++ sendInt mode)

/-- `sendDigitalPinReporting(int pin, int mode)`. -/
def sendDigitalPinReporting (s : ofArduino) (pin : Nat) (mode : Int) : ofArduino × List Nat :=
  let s1 := { s with _digitalPinReporting := setAt s._digitalPinReporting pin mode }
  if mode = ARD_ON then
    -- enable reporting for the port
    sendDigitalPortReporting s1 (pin >>> 3) mode
  else if mode = ARD_OFF then
    let port := pin >>> 3
    let send := (List.range 8).all
      (fun i => decide (s1._digitalPinReporting (port * 8 + i) ≠ ARD_ON))
    if send = true then sendDigitalPortReporting s1 port ARD_OFF else (s1, [])
  else (s1, [])

/-- `sendDigitalPinMode(int pin, int mode)`. -/
def sendDigitalPinMode (s : ofArduino) (pin : Nat) (mode : Int) : ofArduino × List Nat :=
  let s1 := { s with _digitalPinMode := setAt s._digitalPinMode pin mode }
  -- turn on or off reporting on the port
  let r :=
    if mode = ARD_INPUT ∨ mode = ARD_INPUT_PULLUP then sendDigitalPinReporting s1 pin ARD_ON
    else sendDigitalPinReporting s1 pin ARD_OFF
  (r.1, sendByte FIRMATA_SET_PIN_MODE ++ sendByte pin ++ sendInt mode ++ r.2)

/-- `sendServo(int pin, int value, bool force)`. -/
def sendServo (s : ofArduino) (pin : Nat) (value : Int) (force : Bool) : ofArduino × List Nat :=
  if s._digitalPinMode pin = ARD_SERVO ∧ (s._servoValue pin ≠ value ∨ force = true) then
    ({ s with _servoValue := setAt s._servoValue pin value },
     sendByte FIRMATA_START_SYSEX ++ sendByte SYSEX_SERVO_WRITE ++ sendByte pin
       ++ sendValueAsTwo7bitBytes value ++ sendByte FIRMATA_END_SYSEX)
  else (s, [])

/-- `sendServoAttach(int pin, int minPulse, int maxPulse, int angle)`. -/
def sendServoAttach (s : ofArduino) (pin : Nat) (minPulse maxPulse _angle : Int) :
    ofArduino × List Nat :=
  ({ s with _digitalPinMode := setAt s._digitalPinMode pin ARD_SERVO },
   sendByte FIRMATA_START_SYSEX ++ sendByte SYSEX_SERVO_ATTACH ++ sendByte pin
     ++ sendValueAsTwo7bitBytes minPulse ++ sendValueAsTwo7bitBytes maxPulse
     ++ sendByte FIRMATA_END_SYSEX)

/-- `sendServoDetach(int pin)`. -/
def sendServoDetach (s : ofArduino) (pin : Nat) : ofArduino × List Nat :=
  ({ s with _digitalPinMode := setAt s._digitalPinMode pin ARD_OUTPUT },
   sendByte FIRMATA_START_SYSEX ++ sendByte SYSEX_SERVO_DETACH ++ sendByte pin
     ++ sendByte FIRMATA_END_SYSEX)

/-- `sendStepper2Wire(int stepperID, int dirPin, int stepPin, int stepsPerRev)`. -/
def sendStepper2Wire (s : ofArduino) (stepperID : Int) (dirPin stepPin : Nat)
    (stepsPerRev : Int) : ofArduino × List Nat :=
  ({ s with
      _digitalPinMode := setAt (setAt s._digitalPinMode dirPin ARD_OUTPUT) stepPin ARD_OUTPUT },
   sendByte FIRMATA_START_SYSEX ++ sendByte STEPPER_DATA ++ sendByte STEPPER_CONFIG
     ++ sendInt stepperID ++ sendByte DRIVER ++ sendValueAsTwo7bitBytes stepsPerRev
     ++ sendByte dirPin ++ sendByte stepPin ++ sendByte FIRMATA_END_SYSEX)

/-- `sendStepper4Wire(int stepperID, int pin1, int pin2, int pin3, int pin4,
int stepsPerRev)`. -/
def sendStepper4Wire (s : ofArduino) (stepperID : Int) (pin1 pin2 pin3 pin4 : Nat)
    (stepsPerRev : Int) : ofArduino × List Nat :=
  ({ s with
      _digitalPinMode :=
        setAt (setAt (setAt (setAt s._digitalPinMode pin1 ARD_OUTPUT) pin2 ARD_OUTPUT)
          pin3 ARD_OUTPUT) pin4 ARD_OUTPUT },
   sendByte FIRMATA_START_SYSEX ++ sendByte STEPPER_DATA ++ sendByte STEPPER_CONFIG
     ++ sendInt stepperID ++ sendByte FOUR_WIRE ++ sendValueAsTwo7bitBytes stepsPerRev
     ++ sendByte pin1 ++ sendByte pin2 ++ sendByte pin3 ++ sendByte pin4
     ++ sendByte FIRMATA_END_SYSEX)

/-! ## I2C sub-protocol -/

/-- `sendI2CConfig(int delay)`; its first statement is `delay = delay || 0;`. -/
def sendI2CConfig (s : ofArduino) (delay : Int) : ofArduino × List Nat :=
  let delay : Int := if delay ≠ 0 ∨ (0 : Int) ≠ 0 then 1 else 0
  ({ s with _i2cConfigured := true },
   sendByte FIRMATA_START_SYSEX ++ sendByte I2C_CONFIG ++ sendByte (bits32 delay &&& 0xFF)
     ++ sendByte ((bits32 delay >>> 8) &&& 0xFF) ++ sendByte FIRMATA_END_SYSEX)

/-- `sendI2CWriteRequest(char slaveAddress, char * bytes)`. -/
def sendI2CWriteRequest (s : ofArduino) (slaveAddress : Int) (bytes : List Int) :
    ofArduino × List Nat :=
  if s._i2cConfigured = true then
    (s, sendByte FIRMATA_START_SYSEX ++ sendByte I2C_REQUEST ++ sendInt slaveAddress
          ++ sendByte (WRITE <<< 3) ++ sendValues (cString bytes) ++ sendByte FIRMATA_END_SYSEX)
  else (s, [])

/-- `sendI2CWriteRequest(char slaveAddress, vector<char> bytes)`. -/
def sendI2CWriteRequest_vector (s : ofArduino) (slaveAddress : Int) (bytes : List Int) :
    ofArduino × List Nat :=
  if s._i2cConfigured = true then
    (s, sendByte FIRMATA_START_SYSEX ++ sendByte I2C_REQUEST ++ sendInt slaveAddress
          ++ sendByte (WRITE <<< 3) ++ sendValues bytes ++ sendByte FIRMATA_END_SYSEX)
  else (s, [])

/-- `i2cWrite(char address, char * bytes)`. -/
def i2cWrite (s : ofArduino) (address : Int) (bytes : List Int) : ofArduino × List Nat :=
  if s._i2cConfigured = true then
    (s, sendByte FIRMATA_START_SYSEX ++ sendByte I2C_REQUEST ++ sendInt address
          ++ sendByte (WRITE <<< 3) ++ sendValues (cString bytes) ++ sendByte FIRMATA_END_SYSEX)
  else (s, [])

/-- `i2cWriteReg(char address, int reg, int byte)`. -/
def i2cWriteReg (s : ofArduino) (address reg byte : Int) : ofArduino × List Nat :=
  if s._i2cConfigured = true then
    (s, sendByte FIRMATA_START_SYSEX ++ sendByte I2C_REQUEST ++ sendInt address
          ++ sendByte (WRITE <<< 3) ++ sendValueAsTwo7bitBytes reg
          ++ sendValueAsTwo7bitBytes byte ++ sendByte FIRMATA_END_SYSEX)
  else (s, [])

/-- `sendI2CReadRequest(char address, char numBytes)`. -/
def sendI2CReadRequest (s : ofArduino) (address numBytes : Int) : ofArduino × List Nat :=
  if s._i2cConfigured = true then
    (s, sendByte FIRMATA_START_SYSEX ++ sendByte I2C_REQUEST ++ sendInt address
          ++ sendByte (READ <<< 3) ++ sendValueAsTwo7bitBytes numBytes
          ++ sendByte FIRMATA_END_SYSEX)
  else (s, [])

/-- `i2cRead(char address, char reg, int bytesToRead)`. -/
def i2cRead (s : ofArduino) (address reg bytesToRead : Int) : ofArduino × List Nat :=
  if s._i2cConfigured = true then
    (s, sendByte FIRMATA_START_SYSEX ++ sendByte I2C_REQUEST ++ sendInt address
          ++ sendByte (CONTINUOUS_READ <<< 3) ++ sendValueAsTwo7bitBytes reg
          ++ sendValueAsTwo7bitBytes bytesToRead ++ sendByte FIRMATA_END_SYSEX)
  else (s, [])

/-- `i2cReadOnce(char address, char reg, int bytesToRead)`. -/
def i2cReadOnce (s : ofArduino) (address reg bytesToRead : Int) : ofArduino × List Nat :=
  if s._i2cConfigured = true then
    (s, sendByte FIRMATA_START_SYSEX ++ sendByte I2C_REQUEST ++ sendInt address
          ++ sendByte (READ <<< 3) ++ sendValueAsTwo7bitBytes reg
          ++ sendValueAsTwo7bitBytes bytesToRead ++ sendByte FIRMATA_END_SYSEX)
  else (s, [])

/-- `isI2CConfigured()`. -/
def isI2CConfigured (s : ofArduino) : Bool := s._i2cConfigured

/-- The members the inbound path never writes are equal in `s` and `s'`: the
I2C flag, the port status, the pin and port tables of the encoder, the four
retention lengths and the connection flags. -/
def sameEncoderState (s s' : ofArduino) : Prop :=
  s'._i2cConfigured = s._i2cConfigured
    ∧ s'._portStatus = s._portStatus
    ∧ s'._digitalPortValue = s._digitalPortValue
    ∧ s'._digitalPortReporting = s._digitalPortReporting
    ∧ s'._digitalPinValue = s._digitalPinValue
    ∧ s'._digitalPinMode = s._digitalPinMode
    ∧ s'._digitalPinReporting = s._digitalPinReporting
    ∧ s'._analogPinReporting = s._analogPinReporting
    ∧ s'._servoValue = s._servoValue
    ∧ s'._analogHistoryLength = s._analogHistoryLength
    ∧ s'._digitalHistoryLength = s._digitalHistoryLength
    ∧ s'._stringHistoryLength = s._stringHistoryLength
    ∧ s'._sysExHistoryLength = s._sysExHistoryLength
    ∧ s'.connected = s.connected
    ∧ s'.bUseDelay = s.bUseDelay

/-- The states reachable from the constructor by any sequence of operations of
the class other than `sendI2CConfig`. -/
inductive WithoutI2CConfig : ofArduino → Prop where
  | init (raw : ofArduino) (ports pins channels : Nat) :
      WithoutI2CConfig (construct raw ports pins channels).1
  | connect (s : ofArduino) (ok : Bool) : WithoutI2CConfig s → WithoutI2CConfig (connect s ok)
  | useDelay (s : ofArduino) (b : Bool) :
      WithoutI2CConfig s → WithoutI2CConfig (setUseDelay s b)
  | setAnalog (s : ofArduino) (n : Int) :
      WithoutI2CConfig s → WithoutI2CConfig (setAnalogHistoryLength s n)
  | setDigital (s : ofArduino) (n : Int) :
      WithoutI2CConfig s → WithoutI2CConfig (setDigitalHistoryLength s n)
  | setString (s : ofArduino) (n : Int) :
      WithoutI2CConfig s → WithoutI2CConfig (setStringHistoryLength s n)
  | setSysEx (s : ofArduino) (n : Int) :
      WithoutI2CConfig s → WithoutI2CConfig (setSysExHistoryLength s n)
  | data (s : ofArduino) (b : Nat) (s' : ofArduino) (ev : List Event) :
      WithoutI2CConfig s → processData s b = some (s', ev) → WithoutI2CConfig s'
  | digitalWrite (s : ofArduino) (pin : Nat) (value : Int) (force : Bool) :
      WithoutI2CConfig s → WithoutI2CConfig (sendDigital s pin value force).1
  | pwm (s : ofArduino) (pin : Nat) (value : Int) (force : Bool) :
      WithoutI2CConfig s → WithoutI2CConfig (sendPwm s pin value force).1
  | servo (s : ofArduino) (pin : Nat) (value : Int) (force : Bool) :
      WithoutI2CConfig s → WithoutI2CConfig (sendServo s pin value force).1
  | pinMode (s : ofArduino) (pin : Nat) (mode : Int) :
      WithoutI2CConfig s → WithoutI2CConfig (sendDigitalPinMode s pin mode).1
  | analogReporting (s : ofArduino) (pin : Nat) (mode : Int) :
      WithoutI2CConfig s → WithoutI2CConfig (sendAnalogPinReporting s pin mode).1
  | servoAttach (s : ofArduino) (pin : Nat) (lo hi angle : Int) :
      WithoutI2CConfig s → WithoutI2CConfig (sendServoAttach s pin lo hi angle).1
  | servoDetach (s : ofArduino) (pin : Nat) :
      WithoutI2CConfig s → WithoutI2CConfig (sendServoDetach s pin).1
  | stepper2Wire (s : ofArduino) (id : Int) (dirPin stepPin : Nat) (steps : Int) :
      WithoutI2CConfig s → WithoutI2CConfig (sendStepper2Wire s id dirPin stepPin steps).1
  | stepper4Wire (s : ofArduino) (id : Int) (p1 p2 p3 p4 : Nat) (steps : Int) :
      WithoutI2CConfig s → WithoutI2CConfig (sendStepper4Wire s id p1 p2 p3 p4 steps).1
  | writeRequest (s : ofArduino) (address : Int) (bytes : List Int) :
      WithoutI2CConfig s → WithoutI2CConfig (sendI2CWriteRequest s address bytes).1
  | writeRequestVector (s : ofArduino) (address : Int) (bytes : List Int) :
      WithoutI2CConfig s → WithoutI2CConfig (sendI2CWriteRequest_vector s address bytes).1
  | write (s : ofArduino) (address : Int) (bytes : List Int) :
      WithoutI2CConfig s → WithoutI2CConfig (i2cWrite s address bytes).1
  | writeReg (s : ofArduino) (address reg byte : Int) :
      WithoutI2CConfig s → WithoutI2CConfig (i2cWriteReg s address reg byte).1
  | readRequest (s : ofArduino) (address numBytes : Int) :
      WithoutI2CConfig s → WithoutI2CConfig (sendI2CReadRequest s address numBytes).1
  | read (s : ofArduino) (address reg n : Int) :
      WithoutI2CConfig s → WithoutI2CConfig (i2cRead s address reg n).1
  | readOnce (s : ofArduino) (address reg n : Int) :
      WithoutI2CConfig s → WithoutI2CConfig (i2cReadOnce s address reg n).1

/-- A frame that begins with `START_SYSEX`, `I2C_REQUEST` and ends with
`END_SYSEX`. -/
def isI2CRequestFrame (bytes : List Nat) : Prop :=
  ∃ mid, bytes = FIRMATA_START_SYSEX :: I2C_REQUEST :: (mid ++ [FIRMATA_END_SYSEX])

/-- The bytes of a sequence of `(low, high)` pairs, in wire order. -/
def pairBytes : List (Nat × Nat) → List Nat
  | [] => []
  | p :: rest => p.1 :: p.2 :: pairBytes rest

/-- The three bytes of an inbound digital-port message for `port` with data
bytes `m = (d1, d2)`. -/
def digitalMessage (port : Nat) (m : Nat × Nat) : List Nat :=
  [FIRMATA_DIGITAL_MESSAGE ||| port, m.1, m.2]

/-- The port byte a digital-port message with data bytes `m = (d1, d2)`
carries: `(d2 << 7) | d1` as an `unsigned char`. -/
def portByte (m : Nat × Nat) : Nat := ((m.2 <<< 7) ||| m.1) % 256

/-- Feeding a sequence of messages through `processData`, keeping the events
published while each message is processed apart. -/
def feedEach : ofArduino → List (List Nat) → Option (ofArduino × List (List Event))
  | s, [] => some (s, [])
  | s, m :: rest =>
    match feed s m with
    | none => none
    | some (s1, e1) =>
      match feedEach s1 rest with
      | none => none
      | some (s2, es) => some (s2, e1 :: es)

/-- For a sequence of observed values, whether each differs from the one
before it, `prev` standing before the first. -/
def changes (prev : Int) : List Int → List Bool
  | [] => []
  | b :: rest => decide (b ≠ prev) :: changes b rest

/-- A fresh engine whose pins have all been put in PWM mode. -/
def pwmPins : ofArduino := { fresh with _digitalPinMode := fun _ => ARD_PWM }

/-- A fresh engine whose pins have all been put in servo mode. -/
def servoPins : ofArduino := { fresh with _digitalPinMode := fun _ => ARD_SERVO }

/-- Bit `pin & 7` of the aggregate value of the pin's port `(pin >> 3) & 0x0F`. -/
def portBitOf (s : ofArduino) (pin : Nat) : Bool :=
  (bits32 (s._digitalPortValue ((pin >>> 3) &&& 0x0F))).testBit (pin &&& 0x07)

/-- The state after: construction, pin 20 put in PWM mode, `sendPwm(20, 1)`,
pin 20 put in output mode. -/
def pwmThenOutput : ofArduino :=
  (sendDigitalPinMode
    (sendPwm (sendDigitalPinMode fresh 20 ARD_PWM).1 20 1 false).1 20 ARD_OUTPUT).1

/-- The state after: construction, `sendDigital(20, 1)`, `sendDigital(20, 2)`
(pin 20 is in output mode after construction). -/
def writtenTwo : ofArduino := (sendDigital (sendDigital fresh 20 1 false).1 20 2 false).1

/-- The states reachable from the constructor (pin table of `pins ≤ 128`
entries whose ports lie in the port table of `ports` entries) by `sendDigital`
calls with value 0 or 1 on pins of the table, `sendPwm` calls on pins that are
not in PWM mode, and `sendServo`, `sendDigitalPinMode`, `sendServoAttach` and
`sendServoDetach` calls. -/
inductive PortReach (ports pins : Nat) : ofArduino → Prop where
  | init (raw : ofArduino) (channels : Nat) :
      pins ≤ 128 → pins ≤ 8 * ports → PortReach ports pins (construct raw ports pins channels).1
  | digitalWrite (s : ofArduino) (pin : Nat) (value : Int) (force : Bool) :
      PortReach ports pins s → pin < pins → (value = 0 ∨ value = 1) →
      PortReach ports pins (sendDigital s pin value force).1
  | pwm (s : ofArduino) (pin : Nat) (value : Int) (force : Bool) :
      PortReach ports pins s → s._digitalPinMode pin ≠ ARD_PWM →
      PortReach ports pins (sendPwm s pin value force).1
  | servo (s : ofArduino) (pin : Nat) (value : Int) (force : Bool) :
      PortReach ports pins s → PortReach ports pins (sendServo s pin value force).1
  | pinMode (s : ofArduino) (pin : Nat) (mode : Int) :
      PortReach ports pins s → PortReach ports pins (sendDigitalPinMode s pin mode).1
  | servoAttach (s : ofArduino) (pin : Nat) (lo hi angle : Int) :
      PortReach ports pins s → PortReach ports pins (sendServoAttach s pin lo hi angle).1
  | servoDetach (s : ofArduino) (pin : Nat) :
      PortReach ports pins s → PortReach ports pins (sendServoDetach s pin).1

/-- The two bytes written by `sendDigitalPortReporting(port, mode)`. -/
def reportDigitalFrame (port : Nat) (mode : Int) : List Nat :=
  sendByte (FIRMATA_REPORT_DIGITAL ||| port) ++ sendInt mode

/-- The states reachable from the constructor (the 8 pins of each of the `ports`
ports lie in the pin table of `pins` entries) by `sendDigitalPinMode` calls on
pins of those ports. -/
inductive ModeReach (ports pins : Nat) : ofArduino → Prop where
  | init (raw : ofArduino) (channels : Nat) :
      8 * ports ≤ pins → ModeReach ports pins (construct raw ports pins channels).1
  | pinMode (s : ofArduino) (pin : Nat) (mode : Int) :
      ModeReach ports pins s → pin < 8 * ports →
      ModeReach ports pins (sendDigitalPinMode s pin mode).1

/-- The `int` that `*it` of a `string` converts to when it is passed to
`sendValueAsTwo7bitBytes(int)`. Whether plain `char` is signed is left to the
implementation, so it is a parameter: a signed `char` with code `c ≥ 128` is
the negative value `c - 256`. -/
def charToInt (signedChar : Bool) (c : Nat) : Int :=
  if signedChar = true ∧ c % 256 ≥ 128 then ((c % 256 : Nat) : Int) - 256
  else ((c % 256 : Nat) : Int)

/-- `sendString(string str)`: the bytes written (the object is not changed). -/
def sendString (signedChar : Bool) (str : List Nat) : List Nat :=
  sendByte FIRMATA_START_SYSEX ++ sendByte FIRMATA_SYSEX_FIRMATA_STRING
    ++ sendValues (str.map (charToInt signedChar)) ++ sendByte FIRMATA_END_SYSEX

/-- A freshly constructed engine that has received the command byte of an
analog message for channel 0 and its first data byte 5. -/
def pendingAnalog : ofArduino :=
  { fresh with
    _waitForData := 1
    _executeMultiByteCommand := FIRMATA_ANALOG_MESSAGE
    _multiByteChannel := 0
    _storedInputData := setAt fresh._storedInputData 1 5 }

/-! # Theorems -/

/-! ## Bounded push -/

theorem pushFront_cons {α : Type} (p : α) (t : List α) (v : α) (len : Int) :
    pushFront (p :: t) v len
      = v :: (if ((p :: t).length : Int) + 1 > len then (p :: t).dropLast else p :: t) := by
  unfold pushFront
  by_cases h : ((p :: t).length : Int) + 1 > len
  · have : ((v :: p :: t).length : Int) > len := by simpa using h
    simp only [this, h, if_true, List.dropLast]
  · have : ¬ ((v :: p :: t).length : Int) > len := by simpa using h
    simp only [this, h, if_false]

/-- With a retention length of at least one the pushed value stays at the
front. -/
theorem pushFront_eq {α : Type} (h : List α) (v : α) (len : Int) (hlen : 1 ≤ len) :
    pushFront h v len
      = v :: (if (h.length : Int) + 1 > len then h.dropLast else h) := by
  cases h with
  | nil =>
    have : ¬ ((0 : Int) + 1 > len) := by omega
    simp [pushFront, this]
    omega
  | cons p t => exact pushFront_cons p t v len

theorem pushFront_length_le {α : Type} (h : List α) (v : α) (len : Int)
    (hb : (h.length : Int) ≤ len) : ((pushFront h v len).length : Int) ≤ len := by
  unfold pushFront
  split
  · simp only [List.length_dropLast, List.length_cons, Nat.add_sub_cancel]
    exact hb
  · omega

/-! ## Seven-bit arithmetic -/

/-- Two seven-bit halves joined by `(hi << 7) | lo`. -/
theorem shl7_or (lo hi : Nat) (hlo : lo < 128) : ((hi <<< 7) ||| lo) = lo + 128 * hi := by
  have h := Nat.mul_add_lt_is_or (i := 7) (b := lo) (by simpa using hlo) hi
  rw [Nat.shiftLeft_eq, Nat.mul_comm, ← h]
  omega

/-! ## Framer steps -/

theorem analog_cmd_byte : ∀ c, c < 16 →
    ((0xE0 ||| c) % 256 = 0xE0 ||| c ∧ ¬ ((0xE0 ||| c) < 128) ∧ (0xE0 ||| c) < 0xF0
      ∧ (0xE0 ||| c) &&& 0xF0 = 0xE0 ∧ (0xE0 ||| c) &&& 0x0F = c) := by
  decide

theorem processData_analog_cmd (s : ofArduino) (c : Nat) (hc : c < 16)
    (hidle : s._waitForData = 0) :
    processData s (FIRMATA_ANALOG_MESSAGE ||| c) =
      some ({ s with _multiByteChannel := c, _waitForData := 2,
                     _executeMultiByteCommand := FIRMATA_ANALOG_MESSAGE }, []) := by
  obtain ⟨h1, h2, h3, h4, h5⟩ := analog_cmd_byte c hc
  simp [processData, hidle, FIRMATA_ANALOG_MESSAGE, FIRMATA_REPORT_VERSION,
    FIRMATA_DIGITAL_MESSAGE, h1, h2, h3, h4, h5]

/-- The first data byte of a two-byte message is stored in slot 1. -/
theorem processData_first_data (s : ofArduino) (d : Nat) (hd : d < 128)
    (hw : s._waitForData = 2) :
    processData s d =
      some ({ s with _waitForData := 1, _storedInputData := setAt s._storedInputData 1 d },
            []) := by
  have hd' : d % 256 = d := Nat.mod_eq_of_lt (by omega)
  simp [processData, hw, hd, hd']

theorem processData_last_data_analog (s : ofArduino) (d : Nat) (hd : d < 128)
    (hw : s._waitForData = 1) (hx : s._executeMultiByteCommand = FIRMATA_ANALOG_MESSAGE) :
    processData s d =
      some ({ s with
              _waitForData := 0
              _storedInputData := setAt s._storedInputData 0 d
              _analogHistory := setAt s._analogHistory s._multiByteChannel
                (pushFront (s._analogHistory s._multiByteChannel)
                  (((d <<< 7) ||| s._storedInputData 1 : Nat) : Int) s._analogHistoryLength) },
            analogEvents (s._analogHistory s._multiByteChannel) s._multiByteChannel
              (((d <<< 7) ||| s._storedInputData 1 : Nat) : Int)) := by
  have hd' : d % 256 = d := Nat.mod_eq_of_lt (by omega)
  cases hh : s._analogHistory s._multiByteChannel with
  | nil =>
    simp [processData, hw, hx, hd, hd', hh, setAt, analogEvents, FIRMATA_ANALOG_MESSAGE,
      FIRMATA_REPORT_VERSION, FIRMATA_DIGITAL_MESSAGE]
  | cons p t =>
    by_cases hv : ((d <<< 7 ||| s._storedInputData 1 : Nat) : Int) = p <;>
    simp [processData, hw, hx, hd, hd', hh, setAt, analogEvents, FIRMATA_ANALOG_MESSAGE,
      FIRMATA_REPORT_VERSION, FIRMATA_DIGITAL_MESSAGE, pushFront_cons, hv]

/-- A complete analog message fed from the idle framer state. -/
theorem feed_analog_message (s : ofArduino) (c d1 d2 : Nat) (hc : c < 16) (h1 : d1 < 128)
    (h2 : d2 < 128) (hidle : s._waitForData = 0) :
    feed s (analogFrame c d1 d2) =
      some (analogAfter s c d1 d2,
            analogEvents (s._analogHistory c) c (((d2 <<< 7) ||| d1 : Nat) : Int)) := by
  simp only [feed, analogFrame]
  rw [processData_analog_cmd s c hc hidle]
  simp only []
  rw [processData_first_data _ d1 h1 rfl]
  simp only []
  rw [processData_last_data_analog _ d2 h2 rfl rfl]
  simp [setAt, analogAfter, assembled]

/-! ## C1 -/

/-- C1: for every channel `c < 16` and data bytes `d1, d2 < 128`, feeding
`[FIRMATA_ANALOG_MESSAGE | c, d1, d2]` from the idle framer state (the analog
retention length being at least one, as it is in every constructed engine)
succeeds, puts exactly `(d2 << 7) | d1 = d1 + 128 * d2` at the front of channel
`c`'s analog history (the rest being the old history, shortened by its last
element when the bound is exceeded), leaves every other analog history and
every digital history unchanged, and leaves the framer idle. -/
theorem C1_analog_message_pushes_sample (s : ofArduino) (c d1 d2 : Nat) (hc : c < 16)
    (h1 : d1 < 128) (h2 : d2 < 128) (hidle : s._waitForData = 0)
    (hlen : 1 ≤ s._analogHistoryLength) :
    ∃ s' ev, feed s [FIRMATA_ANALOG_MESSAGE ||| c, d1, d2] = some (s', ev)
      ∧ s'._analogHistory c
          = (((d2 <<< 7) ||| d1 : Nat) : Int) ::
              (if ((s._analogHistory c).length : Int) + 1 > s._analogHistoryLength
                then (s._analogHistory c).dropLast else s._analogHistory c)
      ∧ ((d2 <<< 7) ||| d1) = d1 + 128 * d2
      ∧ getAnalog s' c = (((d2 <<< 7) ||| d1 : Nat) : Int)
      ∧ (∀ c', c' ≠ c → s'._analogHistory c' = s._analogHistory c')
      ∧ s'._digitalHistory = s._digitalHistory
      ∧ s'._waitForData = 0 := by
  have hfeed := feed_analog_message s c d1 d2 hc h1 h2 hidle
  rw [analogFrame] at hfeed
  refine ⟨_, _, hfeed, ?_, ?_, ?_, ?_, rfl, rfl⟩
  · simp only [analogAfter, setAt, if_true]
    exact pushFront_eq _ _ _ hlen
  · exact shl7_or d1 d2 h1
  · simp only [getAnalog, analogAfter, setAt, if_true]
    rw [pushFront_eq _ _ _ hlen]
  · intro c' hc'
    simp only [analogAfter, setAt, hc', if_false]

/-- C1 at a concrete input: channel 3, bytes 5 and 7 on a fresh engine. -/
theorem C1_analog_message_pushes_sample_witness :
    ∃ s' ev, feed fresh [FIRMATA_ANALOG_MESSAGE ||| 3, 5, 7] = some (s', ev)
      ∧ s'._analogHistory 3
          = (((7 <<< 7) ||| 5 : Nat) : Int) ::
              (if ((fresh._analogHistory 3).length : Int) + 1 > fresh._analogHistoryLength
                then (fresh._analogHistory 3).dropLast else fresh._analogHistory 3)
      ∧ ((7 <<< 7) ||| 5) = 5 + 128 * 7
      ∧ getAnalog s' 3 = (((7 <<< 7) ||| 5 : Nat) : Int)
      ∧ (∀ c', c' ≠ 3 → s'._analogHistory c' = fresh._analogHistory c')
      ∧ s'._digitalHistory = fresh._digitalHistory
      ∧ s'._waitForData = 0 :=
  C1_analog_message_pushes_sample fresh 3 5 7 (by decide) (by decide) (by decide) rfl
    (by decide)

/-! ## Feeding in chunks -/

theorem feed_append (s : ofArduino) (xs ys : List Nat) :
    feed s (xs ++ ys) =
      match feed s xs with
      | none => none
      | some (s1, e1) =>
        match feed s1 ys with
        | none => none
        | some (s2, e2) => some (s2, e1 ++ e2) := by
  induction xs generalizing s with
  | nil =>
    simp only [List.nil_append, feed]
    cases feed s ys with
    | none => rfl
    | some r => simp
  | cons b rest ih =>
    rw [List.cons_append]
    simp only [feed]
    cases processData s b with
    | none => rfl
    | some r1 =>
      obtain ⟨s1, e1⟩ := r1
      simp only []
      rw [ih s1]
      cases feed s1 rest with
      | none => rfl
      | some r2 =>
        obtain ⟨s2, e2⟩ := r2
        simp only []
        cases feed s2 ys with
        | none => rfl
        | some r3 => simp [List.append_assoc]

theorem update_single (s : ofArduino) (b : Nat) :
    update s [b] =
      match processData s b with
      | none => none
      | some (s1, e1) => some (s1, [], e1) := by
  simp only [update, updateLoop]
  cases processData s b with
  | none => rfl
  | some r => simp

theorem pollEach_eq_feed (s : ofArduino) (xs : List Nat) : pollEach s xs = feed s xs := by
  induction xs generalizing s with
  | nil => rfl
  | cons b rest ih =>
    simp only [pollEach, feed, update_single]
    cases processData s b with
    | none => rfl
    | some r =>
      obtain ⟨s1, e1⟩ := r
      simp only [ih s1]

theorem updateLoop_eq_feed (budget : Nat) (s : ofArduino) (port : List Nat) :
    updateLoop budget s port =
      match feed s (port.take budget) with
      | none => none
      | some (s1, ev) => some (s1, port.drop budget, ev) := by
  induction budget generalizing s port with
  | zero => simp [updateLoop, feed]
  | succ n ih =>
    cases port with
    | nil => simp [updateLoop, feed]
    | cons b rest =>
      simp only [updateLoop, List.take_succ_cons, List.drop_succ_cons, feed]
      cases processData s b with
      | none => rfl
      | some r =>
        obtain ⟨s1, e1⟩ := r
        simp only [ih s1 rest]
        cases feed s1 (rest.take n) with
        | none => rfl
        | some r2 => rfl

/-! ## C2 -/

set_option maxRecDepth 1000000 in
/-- C2 as stated fails at the level of poll calls: with 513 bytes pending, one
bulk `update()` call stops after 512 bytes (the last byte stays in the
transport, the framer still awaits it and no event is published), whereas one
poll call per byte processes all of them and publishes the protocol-version
event. -/
theorem C2_bulk_poll_counterexample :
    (update fresh bulk513).map (fun r => (r.1._waitForData, r.2.1, r.2.2)) = some (1, [2], [])
    ∧ (pollEach fresh bulk513).map (fun r => (r.1._waitForData, r.2))
        = some (0, [Event.EProtocolVersionReceived 1])
    ∧ (update fresh bulk513).map (fun r => r.2.2) ≠ (pollEach fresh bulk513).map (fun r => r.2) := by
  refine ⟨?_, ?_, ?_⟩ <;> decide

/-- C2 (amended): for every engine state and all byte sequences `xs`, `ys`,
feeding `xs ++ ys` through `processData` in one pass gives the same final
state and the same ordered events as feeding `xs` and then `ys` (also when a
pass has no defined result); one poll call per byte is the same as feeding the
bytes in bulk; a poll call processes the first 512 pending bytes and leaves the
rest in the transport, so a bulk poll call of at most 512 bytes equals one poll
call per byte. -/
theorem C2_chunk_boundary_insensitive (s : ofArduino) (xs ys : List Nat) :
    (feed s (xs ++ ys) =
      match feed s xs with
      | none => none
      | some (s1, e1) =>
        match feed s1 ys with
        | none => none
        | some (s2, e2) => some (s2, e1 ++ e2))
    ∧ pollEach s xs = feed s xs
    ∧ (update s xs =
        match feed s (xs.take 512) with
        | none => none
        | some (s1, ev) => some (s1, xs.drop 512, ev))
    ∧ (xs.length ≤ 512 →
        update s xs =
          match pollEach s xs with
          | none => none
          | some (s1, ev) => some (s1, [], ev)) := by
  refine ⟨feed_append s xs ys, pollEach_eq_feed s xs, updateLoop_eq_feed 512 s xs, ?_⟩
  intro hlen
  rw [update, updateLoop_eq_feed, pollEach_eq_feed, List.take_of_length_le hlen,
    List.drop_of_length_le hlen]

/-- C2 (amended) at a concrete input: a protocol-version message split after
its first byte, and polled in bulk. -/
theorem C2_chunk_boundary_insensitive_witness :
    update fresh [FIRMATA_REPORT_VERSION, 1, 2] =
      match pollEach fresh [FIRMATA_REPORT_VERSION, 1, 2] with
      | none => none
      | some (s1, ev) => some (s1, [], ev) :=
  (C2_chunk_boundary_insensitive fresh [FIRMATA_REPORT_VERSION, 1, 2] []).2.2.2 (by decide)

/-! ## Machine integers and the digital port -/

theorem bits32_sint32 (n : Nat) : bits32 (sint32 n) = n % 4294967296 := by
  unfold bits32 sint32
  split <;> omega

theorem bits32_lt (v : Int) : bits32 v < 4294967296 := by
  unfold bits32
  omega

theorem bits32_of_nonneg (v : Int) (h0 : 0 ≤ v) (h1 : v < 4294967296) : bits32 v = v.toNat := by
  unfold bits32
  omega

/-- The two seven-bit halves written by `sendValueAsTwo7bitBytes`, rejoined and
truncated to a byte, are the low byte of the value. -/
theorem rejoin_low_byte (n : Nat) :
    ((((n >>> 7) &&& 127) <<< 7) ||| (n &&& 0x7F)) % 256 = n % 256 := by
  have h1 : n &&& 0x7F = n % 128 := Nat.and_pow_two_sub_one_eq_mod n 7
  have h2 : (n >>> 7) &&& 127 = (n >>> 7) % 128 := Nat.and_pow_two_sub_one_eq_mod _ 7
  rw [h1, h2, shl7_or _ _ (Nat.mod_lt _ (by decide)), Nat.shiftRight_eq_div_pow]
  omega

set_option maxRecDepth 1000000 in
theorem byte_bit_extract : ∀ i, i < 8 → ∀ m, m < 256 →
    ((m &&& ((1 <<< i) % 256)) >>> i) = (if m.testBit i then 1 else 0) := by
  decide

theorem setAt_self {α : Type} (t : Nat → α) (i : Nat) : setAt t i (t i) = t := by
  funext j
  unfold setAt
  split
  · next h => rw [h]
  · rfl

theorem processDigitalPin_eq (s : ofArduino) (port value i : Nat)
    (hlen : 1 ≤ s._digitalHistoryLength) :
    processDigitalPin s port value i =
      some (digitalPinAfter port value s i, digitalPinEvents s port value i) := by
  unfold processDigitalPin digitalPinAfter digitalPinEvents digitalPinHistory
  by_cases hm : s._digitalPinMode (i + port * 8) = ARD_INPUT
      ∨ s._digitalPinMode (i + port * 8) = ARD_INPUT_PULLUP
  · obtain ⟨tl, htl⟩ : ∃ tl, pushFront (s._digitalHistory (i + port * 8)) (portBit value i)
        s._digitalHistoryLength = portBit value i :: tl := ⟨_, pushFront_eq _ _ _ hlen⟩
    have hprev : (match s._digitalHistory (i + port * 8) with
        | v :: _ => v
        | [] => (0 : Int)) = (s._digitalHistory (i + port * 8)).headD 0 := by
      cases s._digitalHistory (i + port * 8) <;> rfl
    simp only [hm, if_true, hprev]
    simp only [portBit] at htl ⊢
    rw [htl]
    simp only []
    split <;> rfl
  · simp only [hm, if_false, setAt_self]

theorem processDigitalPortLoop_eq (port value : Nat) (is : List Nat) (s : ofArduino)
    (hlen : 1 ≤ s._digitalHistoryLength) :
    processDigitalPortLoop port value is s =
      some (is.foldl (digitalPinAfter port value) s, digitalPortEvents port value is s) := by
  induction is generalizing s with
  | nil => rfl
  | cons i rest ih =>
    simp only [processDigitalPortLoop, processDigitalPin_eq s port value i hlen,
      List.foldl_cons, digitalPortEvents]
    rw [ih (digitalPinAfter port value s i) (by simpa [digitalPinAfter] using hlen)]

/-- The port loop only rewrites the digital histories. -/
theorem foldl_digitalPinAfter_frame (port value : Nat) (is : List Nat) (s : ofArduino) :
    ∃ h, is.foldl (digitalPinAfter port value) s = { s with _digitalHistory := h } := by
  induction is generalizing s with
  | nil => exact ⟨s._digitalHistory, rfl⟩
  | cons i rest ih =>
    obtain ⟨h, hh⟩ := ih (digitalPinAfter port value s i)
    exact ⟨h, by rw [List.foldl_cons, hh]; rfl⟩

theorem foldl_digitalPinAfter_not_mem (port value : Nat) (is : List Nat) (s : ofArduino)
    (p : Nat) (hp : ∀ i ∈ is, i + port * 8 ≠ p) :
    (is.foldl (digitalPinAfter port value) s)._digitalHistory p = s._digitalHistory p := by
  induction is generalizing s with
  | nil => rfl
  | cons i rest ih =>
    rw [List.foldl_cons, ih _ (fun j hj => hp j (List.mem_cons_of_mem _ hj))]
    have hne : ¬ (p = i + port * 8) := fun h => hp i (List.mem_cons_self _ _) h.symm
    simp only [digitalPinAfter, setAt, hne, if_false]

theorem foldl_digitalPinAfter_mem (port value : Nat) (is : List Nat) (hnd : is.Nodup)
    (i0 : Nat) (hi0 : i0 ∈ is) (s : ofArduino) :
    (is.foldl (digitalPinAfter port value) s)._digitalHistory (i0 + port * 8)
      = digitalPinHistory s port value i0 := by
  induction is generalizing s with
  | nil => cases hi0
  | cons i rest ih =>
    rw [List.nodup_cons] at hnd
    rw [List.foldl_cons]
    by_cases hi : i0 = i
    · subst hi
      rw [foldl_digitalPinAfter_not_mem]
      · simp only [digitalPinAfter, setAt, if_true]
      · intro j hj hEq
        have : j = i0 := by omega
        exact hnd.1 (this ▸ hj)
    · have hmem : i0 ∈ rest := by
        cases hi0 with
        | head => exact absurd rfl hi
        | tail _ h => exact h
      rw [ih hnd.2 hmem]
      have hne : ¬ (i0 + port * 8 = i + port * 8) := by omega
      simp only [digitalPinHistory, digitalPinAfter, setAt, hne, if_false]

theorem digital_cmd_byte : ∀ p, p < 16 →
    ((0x90 ||| p) % 256 = 0x90 ||| p ∧ ¬ ((0x90 ||| p) < 128) ∧ (0x90 ||| p) < 0xF0
      ∧ (0x90 ||| p) &&& 0xF0 = 0x90 ∧ (0x90 ||| p) &&& 0x0F = p) := by
  decide

theorem processData_digital_cmd (s : ofArduino) (p : Nat) (hp : p < 16)
    (hidle : s._waitForData = 0) :
    processData s (FIRMATA_DIGITAL_MESSAGE ||| p) =
      some ({ s with _multiByteChannel := p, _waitForData := 2,
                     _executeMultiByteCommand := FIRMATA_DIGITAL_MESSAGE }, []) := by
  obtain ⟨h1, h2, h3, h4, h5⟩ := digital_cmd_byte p hp
  simp [processData, hidle, FIRMATA_ANALOG_MESSAGE, FIRMATA_REPORT_VERSION,
    FIRMATA_DIGITAL_MESSAGE, h1, h2, h3, h4, h5]

theorem processData_last_data_digital (s : ofArduino) (d : Nat) (hd : d < 128)
    (hw : s._waitForData = 1) (hx : s._executeMultiByteCommand = FIRMATA_DIGITAL_MESSAGE) :
    processData s d =
      processDigitalPort
        { s with _waitForData := 0, _storedInputData := setAt s._storedInputData 0 d }
        s._multiByteChannel ((d <<< 7) ||| s._storedInputData 1) := by
  have hd' : d % 256 = d := Nat.mod_eq_of_lt (by omega)
  simp [processData, hw, hx, hd, hd', setAt]

/-- A complete digital-port message fed from the idle framer state. -/
theorem feed_digital_message (s : ofArduino) (p d1 d2 : Nat) (hp : p < 16) (h1 : d1 < 128)
    (h2 : d2 < 128) (hidle : s._waitForData = 0) (hlen : 1 ≤ s._digitalHistoryLength) :
    feed s [FIRMATA_DIGITAL_MESSAGE ||| p, d1, d2] =
      some ((List.range 8).foldl (digitalPinAfter p (((d2 <<< 7) ||| d1) % 256))
              (assembled s FIRMATA_DIGITAL_MESSAGE p d1 d2),
            digitalPortEvents p (((d2 <<< 7) ||| d1) % 256) (List.range 8)
              (assembled s FIRMATA_DIGITAL_MESSAGE p d1 d2)) := by
  simp only [feed]
  rw [processData_digital_cmd s p hp hidle]
  simp only []
  rw [processData_first_data _ d1 h1 rfl]
  simp only []
  rw [processData_last_data_digital _ d2 h2 rfl rfl]
  simp only [processDigitalPort, setAt, if_true]
  have h := processDigitalPortLoop_eq p (((d2 <<< 7) ||| d1) % 256) (List.range 8)
    (assembled s FIRMATA_DIGITAL_MESSAGE p d1 d2) hlen
  simp only [assembled] at h ⊢
  rw [h]
  simp

theorem and_127_lt (n : Nat) : n &&& 127 < 128 := by
  have h : n &&& 127 = n % 128 := Nat.and_pow_two_sub_one_eq_mod n 7
  omega

theorem sendValueAsTwo7bitBytes_eq (value : Int) :
    sendValueAsTwo7bitBytes value = [bits32 value &&& 0x7F, (bits32 value >>> 7) &&& 127] := by
  have h1 := and_127_lt (bits32 value)
  have h2 := and_127_lt (bits32 value >>> 7)
  simp only [sendValueAsTwo7bitBytes, sendByte, List.singleton_append]
  rw [Nat.mod_eq_of_lt (by omega : bits32 value &&& 0x7F < 256),
    Nat.mod_eq_of_lt (by omega : (bits32 value >>> 7) &&& 127 < 256)]

theorem pin_split : ∀ P, P < 128 →
    (((P >>> 3) &&& 0x0F) < 16 ∧ (P &&& 0x07) < 8
      ∧ (P &&& 0x07) + ((P >>> 3) &&& 0x0F) * 8 = P) := by
  decide

theorem port_lt (pin : Nat) : (pin >>> 3) &&& 0x0F < 16 := by
  have h : (pin >>> 3) &&& 0x0F = (pin >>> 3) % 16 := Nat.and_pow_two_sub_one_eq_mod _ 4
  omega

/-- What `sendDigital` does when its guard holds. -/
theorem sendDigital_of_guard (s : ofArduino) (pin : Nat) (value : Int) (force : Bool)
    (hmode : s._digitalPinMode pin = ARD_INPUT ∨ s._digitalPinMode pin = ARD_INPUT_PULLUP
      ∨ s._digitalPinMode pin = ARD_OUTPUT)
    (hval : s._digitalPinValue pin ≠ value ∨ force = true) :
    sendDigital s pin value force =
      ({ s with
          _digitalPinValue := setAt s._digitalPinValue pin value
          _digitalPortValue :=
            setAt s._digitalPortValue ((pin >>> 3) &&& 0x0F) (portValueAfter s pin value) },
       digitalFrame ((pin >>> 3) &&& 0x0F) (portValueAfter s pin value)) := by
  have hb := (digital_cmd_byte _ (port_lt pin)).1
  unfold sendDigital
  rw [if_pos ⟨hmode, hval⟩]
  simp only [sendValueAsTwo7bitBytes_eq, sendByte, portValueAfter, digitalFrame,
    FIRMATA_DIGITAL_MESSAGE, hb, List.singleton_append]

/-- What `sendDigital` does when its guard fails. -/
theorem sendDigital_of_not_guard (s : ofArduino) (pin : Nat) (value : Int) (force : Bool)
    (h : ¬ ((s._digitalPinMode pin = ARD_INPUT ∨ s._digitalPinMode pin = ARD_INPUT_PULLUP
        ∨ s._digitalPinMode pin = ARD_OUTPUT)
      ∧ (s._digitalPinValue pin ≠ value ∨ force = true))) :
    sendDigital s pin value force = (s, []) := by
  unfold sendDigital
  rw [if_neg h]

/-- Bit `i` of the aggregate after writing `1` or `0` to the pin. -/
theorem portValueAfter_testBit (s : ofArduino) (pin : Nat) (value : Int)
    (hV : value = 0 ∨ value = 1) :
    (bits32 (portValueAfter s pin value)).testBit (pin &&& 0x07) = decide (value = 1) := by
  have hi : pin &&& 0x07 < 8 := by
    have h : pin &&& 0x07 = pin % 8 := Nat.and_pow_two_sub_one_eq_mod _ 3
    omega
  have h32 : (4294967296 : Nat) = 2 ^ 32 := by norm_num
  unfold portValueAfter
  simp only []
  generalize pin &&& 0x07 = i at hi ⊢
  generalize s._digitalPortValue ((pin >>> 3) &&& 0x0F) = pv0
  have hA : ∀ j, j < 8 → Nat.testBit (1 <<< j) j = true := by decide
  have hB : ∀ j, j < 8 → Nat.testBit (4294967295 ^^^ (1 <<< j)) j = false := by decide
  have hi32 : decide (i < 32) = true := by simpa using (by omega : i < 32)
  rcases hV with h | h
  · subst h
    have e : (if (0 : Int) = 0 then
          sint32 (bits32 (if (0 : Int) = 1 then sint32 (bits32 pv0 ||| 1 <<< i) else pv0)
            &&& (4294967295 ^^^ 1 <<< i))
        else if (0 : Int) = 1 then sint32 (bits32 pv0 ||| 1 <<< i) else pv0)
        = sint32 (bits32 pv0 &&& (4294967295 ^^^ 1 <<< i)) := by simp
    rw [e, bits32_sint32, h32, Nat.testBit_mod_two_pow, Nat.testBit_and, hB i hi]
    simp
  · subst h
    have e : (if (1 : Int) = 0 then
          sint32 (bits32 (if (1 : Int) = 1 then sint32 (bits32 pv0 ||| 1 <<< i) else pv0)
            &&& (4294967295 ^^^ 1 <<< i))
        else if (1 : Int) = 1 then sint32 (bits32 pv0 ||| 1 <<< i) else pv0)
        = sint32 (bits32 pv0 ||| 1 <<< i) := by simp
    rw [e, bits32_sint32, h32, Nat.testBit_mod_two_pow, Nat.testBit_or, hA i hi, hi32]
    simp

/-- Feeding the frame of a digital write back: the history of the written pin
(in an input mode) gets the written bit at its front. -/
theorem feed_digitalFrame_history (s : ofArduino) (P : Nat) (pv : Int) (hP : P < 128)
    (hmode : s._digitalPinMode P = ARD_INPUT ∨ s._digitalPinMode P = ARD_INPUT_PULLUP)
    (hidle : s._waitForData = 0) (hlen : 1 ≤ s._digitalHistoryLength) :
    ∃ s' ev, feed s (digitalFrame ((P >>> 3) &&& 0x0F) pv) = some (s', ev)
      ∧ s'._digitalHistory P
          = (if (bits32 pv).testBit (P &&& 0x07) then (1 : Int) else 0) ::
              (if ((s._digitalHistory P).length : Int) + 1 > s._digitalHistoryLength
                then (s._digitalHistory P).dropLast else s._digitalHistory P)
      ∧ s'._digitalPinMode = s._digitalPinMode := by
  obtain ⟨hport, hi, hPeq⟩ := pin_split P hP
  have hfeed := feed_digital_message s ((P >>> 3) &&& 0x0F) (bits32 pv &&& 0x7F)
    ((bits32 pv >>> 7) &&& 127) hport (and_127_lt _) (and_127_lt _) hidle hlen
  rw [rejoin_low_byte] at hfeed
  obtain ⟨h, hh⟩ := foldl_digitalPinAfter_frame ((P >>> 3) &&& 0x0F) (bits32 pv % 256)
    (List.range 8)
    (assembled s FIRMATA_DIGITAL_MESSAGE ((P >>> 3) &&& 0x0F) (bits32 pv &&& 0x7F)
      ((bits32 pv >>> 7) &&& 127))
  have hhist := foldl_digitalPinAfter_mem ((P >>> 3) &&& 0x0F) (bits32 pv % 256)
    (List.range 8) (List.nodup_range 8) (P &&& 0x07) (List.mem_range.mpr hi)
    (assembled s FIRMATA_DIGITAL_MESSAGE ((P >>> 3) &&& 0x0F) (bits32 pv &&& 0x7F)
      ((bits32 pv >>> 7) &&& 127))
  rw [hPeq] at hhist
  have hbit : portBit (bits32 pv % 256) (P &&& 0x07)
      = (if (bits32 pv).testBit (P &&& 0x07) then (1 : Int) else 0) := by
    have hx := byte_bit_extract (P &&& 0x07) hi (bits32 pv % 256) (Nat.mod_lt _ (by decide))
    have h256 : (256 : Nat) = 2 ^ 8 := by norm_num
    have hi8 : decide ((P &&& 0x07) < 8) = true := by simpa using hi
    rw [h256, Nat.testBit_mod_two_pow, hi8, Bool.true_and] at hx
    unfold portBit
    rw [h256, hx]
    split <;> rfl
  refine ⟨_, _, hfeed, ?_, ?_⟩
  · rw [hhist]
    simp only [digitalPinHistory, assembled, hPeq, hmode, if_true]
    rw [pushFront_eq _ _ _ hlen, hbit]
  · rw [hh]
    rfl

/-! ## C3 -/

/-- C3: for every pin `P < 128` in input or input-pullup mode and every value
`V` in {0, 1}, whenever `sendDigital(P, V, force)` emits a frame, feeding
exactly the emitted bytes back through `processData` from the idle framer
state (digital retention length at least one, as in every constructed engine)
succeeds and puts `V` at the front of `P`'s digital history, so that
`getDigital(P)` returns `V`. -/
theorem C3_digital_round_trip (s : ofArduino) (P : Nat) (V : Int) (force : Bool)
    (hP : P < 128)
    (hmode : s._digitalPinMode P = ARD_INPUT ∨ s._digitalPinMode P = ARD_INPUT_PULLUP)
    (hV : V = 0 ∨ V = 1) (hemit : (sendDigital s P V force).2 ≠ [])
    (hidle : s._waitForData = 0) (hlen : 1 ≤ s._digitalHistoryLength) :
    ∃ s' ev, feed (sendDigital s P V force).1 (sendDigital s P V force).2 = some (s', ev)
      ∧ (s'._digitalHistory P).head? = some V
      ∧ getDigital s' P = V := by
  have hval : s._digitalPinValue P ≠ V ∨ force = true := by
    by_contra h
    exact hemit (by rw [sendDigital_of_not_guard s P V force (fun hg => h hg.2)])
  have hmode3 : s._digitalPinMode P = ARD_INPUT ∨ s._digitalPinMode P = ARD_INPUT_PULLUP
      ∨ s._digitalPinMode P = ARD_OUTPUT := by
    rcases hmode with h | h
    · exact Or.inl h
    · exact Or.inr (Or.inl h)
  rw [sendDigital_of_guard s P V force hmode3 hval]
  obtain ⟨s', ev, hf, hh, hm⟩ := feed_digitalFrame_history
    { s with
        _digitalPinValue := setAt s._digitalPinValue P V
        _digitalPortValue :=
          setAt s._digitalPortValue ((P >>> 3) &&& 0x0F) (portValueAfter s P V) }
    P (portValueAfter s P V) hP hmode hidle hlen
  rw [portValueAfter_testBit s P V hV] at hh
  have hfront : (if decide (V = 1) = true then (1 : Int) else 0) = V := by
    rcases hV with h | h <;> subst h <;> rfl
  rw [hfront] at hh
  refine ⟨s', ev, hf, ?_, ?_⟩
  · rw [hh]
    rfl
  · have hm' : s'._digitalPinMode P = ARD_INPUT ∨ s'._digitalPinMode P = ARD_INPUT_PULLUP := by
      rw [hm]
      exact hmode
    unfold getDigital
    rw [if_pos hm', hh]

/-- C3 at a concrete input: pin 5 in input mode, value 1, not forced. -/
theorem C3_digital_round_trip_witness :
    ∃ s' ev, feed (sendDigital inputPins 5 1 false).1 (sendDigital inputPins 5 1 false).2
        = some (s', ev)
      ∧ (s'._digitalHistory 5).head? = some 1
      ∧ getDigital s' 5 = 1 :=
  C3_digital_round_trip inputPins 5 1 false (by decide) (by decide) (by decide) (by decide)
    rfl (by decide)

theorem pushFront_eq_take {α : Type} (h : List α) (v : α) (len : Int)
    (hb : (h.length : Int) ≤ len) : pushFront h v len = (v :: h).take len.toNat := by
  unfold pushFront
  split
  · next hgt =>
    have hlen : len.toNat = (v :: h).length - 1 := by
      simp only [List.length_cons] at hgt ⊢
      omega
    rw [List.dropLast_eq_take, hlen]
  · next hle =>
    rw [List.take_of_length_le]
    simp only [List.length_cons] at hle ⊢
    omega

theorem take_append_take {α : Type} (a b : List α) (n : Nat) :
    (a ++ b.take n).take n = (a ++ b).take n := by
  rw [List.take_append_eq_append_take, List.take_append_eq_append_take, List.take_take]
  congr 2
  omega

/-- The analog history of channel `c` after a sequence of complete analog
messages for that channel. -/
theorem feed_analogFrames (c : Nat) (hc : c < 16) (msgs : List (Nat × Nat))
    (hmsgs : ∀ m ∈ msgs, m.1 < 128 ∧ m.2 < 128) (s : ofArduino)
    (hidle : s._waitForData = 0)
    (hb : ((s._analogHistory c).length : Int) ≤ s._analogHistoryLength) :
    ∃ s' ev, feed s (analogFrames c msgs) = some (s', ev)
      ∧ s'._analogHistory c
          = ((msgs.reverse.map sample) ++ s._analogHistory c).take s._analogHistoryLength.toNat
      ∧ s'._analogHistoryLength = s._analogHistoryLength
      ∧ s'._waitForData = 0 := by
  induction msgs generalizing s with
  | nil =>
    refine ⟨s, [], rfl, ?_, rfl, hidle⟩
    rw [List.take_of_length_le]
    · rfl
    · simp only [List.reverse_nil, List.map_nil, List.nil_append]
      omega
  | cons m rest ih =>
    obtain ⟨hm1, hm2⟩ := hmsgs m (List.mem_cons_self _ _)
    have hstep := feed_analog_message s c m.1 m.2 hc hm1 hm2 hidle
    obtain ⟨s', ev, hf, hh, hl, hw⟩ := ih (fun x hx => hmsgs x (List.mem_cons_of_mem _ hx))
      (analogAfter s c m.1 m.2) rfl
      (by
        simp only [analogAfter, setAt, if_true]
        exact pushFront_length_le _ _ _ hb)
    refine ⟨s', analogEvents (s._analogHistory c) c (((m.2 <<< 7) ||| m.1 : Nat) : Int) ++ ev,
      ?_, ?_, hl, hw⟩
    · rw [analogFrames, feed_append, hstep]
      simp only []
      rw [hf]
    · rw [hh]
      simp only [analogAfter, assembled, setAt, if_true]
      rw [pushFront_eq_take _ _ _ hb, take_append_take]
      simp [sample]

/-! ## C4 -/

/-- C4: with the analog retention length fixed at `L ≥ 2` and a channel whose
history starts empty, feeding any `N ≥ L` complete analog messages for that
channel from the idle state succeeds and leaves a history of size exactly
`L`, whose front is the sample of the most recent message and whose elements
are the last `L` received samples, newest first. -/
theorem C4_history_bound_after_pushes (s : ofArduino) (c : Nat) (hc : c < 16)
    (msgs : List (Nat × Nat)) (hmsgs : ∀ m ∈ msgs, m.1 < 128 ∧ m.2 < 128)
    (hidle : s._waitForData = 0) (hL : 2 ≤ s._analogHistoryLength)
    (hempty : s._analogHistory c = []) (hN : s._analogHistoryLength ≤ (msgs.length : Int)) :
    ∃ s' ev, feed s (analogFrames c msgs) = some (s', ev)
      ∧ s'._analogHistoryLength = s._analogHistoryLength
      ∧ ((s'._analogHistory c).length : Int) = s._analogHistoryLength
      ∧ (s'._analogHistory c).head? = msgs.getLast?.map sample
      ∧ s'._analogHistory c = (msgs.reverse.map sample).take s._analogHistoryLength.toNat := by
  obtain ⟨s', ev, hf, hh, hl, _⟩ := feed_analogFrames c hc msgs hmsgs s hidle
    (by rw [hempty]; simp only [List.length_nil]; omega)
  rw [hempty, List.append_nil] at hh
  refine ⟨s', ev, hf, hl, ?_, ?_, hh⟩
  · rw [hh, List.length_take, List.length_map, List.length_reverse]
    omega
  · rw [hh, List.head?_take, if_neg (by omega), List.head?_map, List.head?_reverse]

/-- C4 at a concrete input: three messages for channel 0 on a fresh engine
(retention length 2). -/
theorem C4_history_bound_after_pushes_witness :
    ∃ s' ev, feed fresh (analogFrames 0 [(1, 0), (2, 0), (3, 0)]) = some (s', ev)
      ∧ s'._analogHistoryLength = fresh._analogHistoryLength
      ∧ ((s'._analogHistory 0).length : Int) = fresh._analogHistoryLength
      ∧ (s'._analogHistory 0).head? = [((1 : Nat), (0 : Nat)), (2, 0), (3, 0)].getLast?.map sample
      ∧ s'._analogHistory 0
          = ([((1 : Nat), (0 : Nat)), (2, 0), (3, 0)].reverse.map sample).take
              fresh._analogHistoryLength.toNat :=
  C4_history_bound_after_pushes fresh 0 (by decide) [(1, 0), (2, 0), (3, 0)] (by decide) rfl
    (by decide) rfl (by decide)

/-! ## C5 -/

theorem setAnalogHistoryLength_length (s : ofArduino) (n : Int) :
    (setAnalogHistoryLength s n)._analogHistoryLength
      = if n ≥ 2 then n else s._analogHistoryLength := by
  unfold setAnalogHistoryLength
  split <;> rfl

theorem setAnalogHistoryLength_frame (s : ofArduino) (n : Int) :
    (setAnalogHistoryLength s n)._analogHistory = s._analogHistory
      ∧ (setAnalogHistoryLength s n)._waitForData = s._waitForData := by
  unfold setAnalogHistoryLength
  split <;> exact ⟨rfl, rfl⟩

/-- The invariant behind C5. -/
theorem analogReach_invariant (m : Int) (low : Bool) (s : ofArduino)
    (h : AnalogReach m low s) :
    (∀ c, ((s._analogHistory c).length : Int) ≤ m)
      ∧ 2 ≤ s._analogHistoryLength ∧ s._analogHistoryLength ≤ m
      ∧ s._waitForData = 0
      ∧ (low = false → ∀ c, ((s._analogHistory c).length : Int) ≤ s._analogHistoryLength) := by
  induction h with
  | init raw ports pins channels =>
    refine ⟨?_, ?_, ?_, rfl, ?_⟩ <;> simp [construct]
  | setLength m low s n _ ih =>
    obtain ⟨h1, h2, h3, h4, h5⟩ := ih
    obtain ⟨f1, f2⟩ := setAnalogHistoryLength_frame s n
    have hl := setAnalogHistoryLength_length s n
    refine ⟨?_, ?_, ?_, ?_, ?_⟩
    · intro c
      rw [f1]
      exact le_trans (h1 c) (le_max_left _ _)
    · rw [hl]; split <;> omega
    · exact le_max_right _ _
    · rw [f2]; exact h4
    · intro hlow c
      rw [Bool.or_eq_false_iff] at hlow
      have hnl : ¬ ((setAnalogHistoryLength s n)._analogHistoryLength
          < s._analogHistoryLength) := by simpa using hlow.2
      rw [f1]
      exact le_trans (h5 hlow.1 c) (not_lt.mp hnl)
  | message m low s c d1 d2 s' ev _ hc hd1 hd2 hfeed ih =>
    obtain ⟨h1, h2, h3, h4, h5⟩ := ih
    rw [feed_analog_message s c d1 d2 hc hd1 hd2 h4] at hfeed
    obtain ⟨rfl, -⟩ := Prod.mk.inj (Option.some.inj hfeed)
    have hstep : ∀ (b : Int), s._analogHistoryLength ≤ b →
        (∀ c', ((s._analogHistory c').length : Int) ≤ b) →
        ∀ c', (((analogAfter s c d1 d2)._analogHistory c').length : Int) ≤ b := by
      intro b hb hall c'
      simp only [analogAfter, setAt]
      split
      · next hcc =>
        subst hcc
        unfold pushFront
        split
        · simp only [List.length_dropLast, List.length_cons, Nat.add_sub_cancel]
          exact hall c'
        · next hle =>
          simp only [List.length_cons] at hle ⊢
          omega
      · exact hall c'
    refine ⟨hstep m h3 h1, h2, h3, rfl, ?_⟩
    intro hlow
    exact hstep _ (le_refl _) (h5 hlow)

/-- C5 as stated fails: after construction, `setAnalogHistoryLength(3)`, three
analog messages for channel 0 and `setAnalogHistoryLength(2)`, channel 0 holds
three samples while the configured length is two. -/
theorem C5_shrink_counterexample :
    AnalogReach 3 true shrunk
      ∧ shrunk._analogHistoryLength = 2
      ∧ (shrunk._analogHistory 0).length = 3 := by
  refine ⟨?_, by decide, by decide⟩
  have h0 : AnalogReach 2 false fresh := AnalogReach.init zeroed 16 128 16
  have h1 := AnalogReach.setLength 2 false fresh 3 h0
  have h2 := AnalogReach.message _ _ _ 0 1 0 _ _ h1 (by decide) (by decide) (by decide)
    (feed_analog_message _ 0 1 0 (by decide) (by decide) (by decide) rfl)
  have h3 := AnalogReach.message _ _ _ 0 2 0 _ _ h2 (by decide) (by decide) (by decide)
    (feed_analog_message _ 0 2 0 (by decide) (by decide) (by decide) rfl)
  have h4 := AnalogReach.message _ _ _ 0 3 0 _ _ h3 (by decide) (by decide) (by decide)
    (feed_analog_message _ 0 3 0 (by decide) (by decide) (by decide) rfl)
  exact AnalogReach.setLength _ _ _ 2 h4

/-- C5 (amended): in every state reachable from the constructor's initial
state by any interleaving of `setAnalogHistoryLength` calls and inbound
analog-channel messages, the size of every analog channel's history is at
most the largest analog retention length configured so far (`m`), and it is
at most the currently configured length as long as no call has lowered the
configured length (`low = false`). -/
theorem C5_analog_history_bounded (m : Int) (low : Bool) (s : ofArduino)
    (h : AnalogReach m low s) :
    (∀ c, ((s._analogHistory c).length : Int) ≤ m)
      ∧ s._analogHistoryLength ≤ m
      ∧ (low = false → ∀ c, ((s._analogHistory c).length : Int) ≤ s._analogHistoryLength) := by
  obtain ⟨h1, _, h3, _, h5⟩ := analogReach_invariant m low s h
  exact ⟨h1, h3, h5⟩

/-- C5 (amended) at a concrete state: construction, `setAnalogHistoryLength(3)`
and one analog message for channel 0. -/
theorem C5_analog_history_bounded_witness :
    (∀ c, ((((analogAfter (setAnalogHistoryLength fresh 3) 0 1 0))._analogHistory c).length
        : Int) ≤ 3)
      ∧ (analogAfter (setAnalogHistoryLength fresh 3) 0 1 0)._analogHistoryLength ≤ 3
      ∧ (false = false →
          ∀ c, ((((analogAfter (setAnalogHistoryLength fresh 3) 0 1 0))._analogHistory c).length
            : Int) ≤ (analogAfter (setAnalogHistoryLength fresh 3) 0 1 0)._analogHistoryLength) :=
  C5_analog_history_bounded 3 false (analogAfter (setAnalogHistoryLength fresh 3) 0 1 0)
    (AnalogReach.message _ _ _ 0 1 0 _ _
      (AnalogReach.setLength 2 false fresh 3 (AnalogReach.init zeroed 16 128 16))
      (by decide) (by decide) (by decide)
      (feed_analog_message _ 0 1 0 (by decide) (by decide) (by decide) rfl))

/-! ## C6 -/

/-- The firmware scenario fed from any idle framer state. -/
theorem feed_firmwareScenario (s : ofArduino) (hidle : s._waitForData = 0) :
    feed s firmwareScenario =
      some ({ s with
              _waitForData := 0
              _executeMultiByteCommand := FIRMATA_START_SYSEX
              _sysExData := []
              _majorFirmwareVersion := 2
              _minorFirmwareVersion := 4
              _firmwareName := [65, 66]
              _initialized := true },
            [Event.EFirmwareVersionReceived 2, Event.EInitialized 2]) := by
  simp [feed, firmwareScenario, processData, hidle, processSysExData, decodePairs,
    FIRMATA_START_SYSEX, FIRMATA_END_SYSEX, FIRMATA_SYSEX_REPORT_FIRMWARE,
    FIRMATA_REPORT_VERSION, FIRMATA_DIGITAL_MESSAGE, FIRMATA_ANALOG_MESSAGE]

/-- C6 as stated fails: after the scenario bytes a fresh engine reports firmware
major version 2 and minor version 4, not 4 and 2. -/
theorem C6_firmware_version_counterexample :
    (feed fresh firmwareScenario).map
        (fun r => (getMajorFirmwareVersion r.1, getMinorFirmwareVersion r.1))
      = some (2, 4) := by
  decide

/-- C6 (amended): feeding `[0xF0, 0x79, 0x02, 0x04, 'A', 0, 'B', 0, 0xF7]` to a
freshly constructed engine (whatever the uninitialised members hold) results
in firmware major version 2 and minor version 4 (the byte after the
sub-command is the major version), firmware name "AB", the initialized flag
set, and exactly one firmware-version-received event followed by exactly one
initialized event. -/
theorem C6_firmware_scenario (raw : ofArduino) (ports pins channels : Nat) :
    ∃ s', feed (construct raw ports pins channels).1 firmwareScenario
        = some (s', [Event.EFirmwareVersionReceived 2, Event.EInitialized 2])
      ∧ getMajorFirmwareVersion s' = 2
      ∧ getMinorFirmwareVersion s' = 4
      ∧ getFirmwareName s' = [65, 66]
      ∧ [65, 66] = "AB".toList.map Char.toNat
      ∧ isInitialized s' = true
      ∧ s'._waitForData = 0 :=
  ⟨_, feed_firmwareScenario _ rfl, rfl, rfl, rfl, by decide, rfl, rfl⟩

/-! ## C7 -/

/-- A complete protocol-version message fed from the idle framer state. -/
theorem feed_version_message (s : ofArduino) (maj min : Nat) (h1 : maj < 128) (h2 : min < 128)
    (hidle : s._waitForData = 0) :
    feed s [FIRMATA_REPORT_VERSION, maj, min] =
      some ({ assembled s FIRMATA_REPORT_VERSION s._multiByteChannel maj min with
              _majorProtocolVersion := (maj : Int)
              _minorProtocolVersion := (min : Int) },
            [Event.EProtocolVersionReceived (maj : Int)]) := by
  have h1' : maj % 256 = maj := Nat.mod_eq_of_lt (by omega)
  have h2' : min % 256 = min := Nat.mod_eq_of_lt (by omega)
  simp [feed, processData, hidle, h1, h2, h1', h2', assembled, setAt, FIRMATA_REPORT_VERSION,
    FIRMATA_DIGITAL_MESSAGE, FIRMATA_ANALOG_MESSAGE]

/-- The protocol-version getters read the firmware-version members. -/
theorem protocol_getters_read_firmware (s : ofArduino) :
    getMajorProtocolVersion s = s._majorFirmwareVersion
      ∧ getMinorProtocolVersion s = s._minorFirmwareVersion :=
  ⟨rfl, rfl⟩

/-- C7 (the code at the failing input): on a fresh engine the message
`[FIRMATA_REPORT_VERSION, 2, 5]` stores 2 and 5 in the protocol-version members
and publishes one protocol-version event, but `getMajorProtocolVersion()` and
`getMinorProtocolVersion()` return 0 and 0, the firmware-version members. -/
theorem C7_protocol_getters_at_failing_input :
    (feed fresh [FIRMATA_REPORT_VERSION, 2, 5]).map
        (fun r => (r.1._majorProtocolVersion, r.1._minorProtocolVersion,
          getMajorProtocolVersion r.1, getMinorProtocolVersion r.1, r.2))
      = some (2, 5, 0, 0, [Event.EProtocolVersionReceived 2]) := by
  decide

/-! ## C8 and C9 -/

/-- C8: for every pin in input, input-pullup or output mode whose stored value
differs from `V`, two consecutive calls `sendDigital(pin, V, false)` emit
exactly one three-byte digital-port frame in total (the second call emits
nothing and changes nothing), two consecutive calls with `force = true` emit
two frames, and a following call with a different value `W` emits one further
frame. -/
theorem C8_sendDigital_idempotent (s : ofArduino) (pin : Nat) (V W : Int)
    (hmode : s._digitalPinMode pin = ARD_INPUT ∨ s._digitalPinMode pin = ARD_INPUT_PULLUP
      ∨ s._digitalPinMode pin = ARD_OUTPUT)
    (hdiff : s._digitalPinValue pin ≠ V) (hW : W ≠ V) :
    (sendDigital s pin V false).2
        = digitalFrame ((pin >>> 3) &&& 0x0F) (portValueAfter s pin V)
      ∧ (sendDigital (sendDigital s pin V false).1 pin V false)
        = ((sendDigital s pin V false).1, [])
      ∧ ((sendDigital s pin V false).2
          ++ (sendDigital (sendDigital s pin V false).1 pin V false).2).length = 3
      ∧ (sendDigital s pin V true).2.length = 3
      ∧ (sendDigital (sendDigital s pin V true).1 pin V true).2.length = 3
      ∧ (sendDigital (sendDigital (sendDigital s pin V false).1 pin V false).1 pin W false).2.length
          = 3
      ∧ (sendDigital (sendDigital (sendDigital s pin V true).1 pin V true).1 pin W false).2.length
          = 3 := by
  have e1 := sendDigital_of_guard s pin V false hmode (Or.inl hdiff)
  have e1t := sendDigital_of_guard s pin V true hmode (Or.inr rfl)
  have e2 : sendDigital (sendDigital s pin V false).1 pin V false
      = ((sendDigital s pin V false).1, []) := by
    apply sendDigital_of_not_guard
    rw [e1]
    simp [setAt]
  have e2t := sendDigital_of_guard (sendDigital s pin V true).1 pin V true
    (by rw [e1t]; exact hmode) (Or.inr rfl)
  have e3 := sendDigital_of_guard (sendDigital s pin V false).1 pin W false
    (by rw [e1]; exact hmode) (Or.inl (by rw [e1]; simpa [setAt] using hW.symm))
  have e3t := sendDigital_of_guard (sendDigital (sendDigital s pin V true).1 pin V true).1 pin W
    false (by rw [e2t, e1t]; exact hmode)
    (Or.inl (by rw [e2t]; simpa [setAt] using hW.symm))
  refine ⟨by rw [e1], e2, ?_, ?_, ?_, ?_, ?_⟩
  · rw [e2, e1]; rfl
  · rw [e1t]; rfl
  · rw [e2t]; rfl
  · rw [e2, e3]; rfl
  · rw [e3t]; rfl

/-- C8 at the claim's concrete input: pin 5 in output mode, values 1, 1, 0. -/
theorem C8_sendDigital_idempotent_witness :
    (sendDigital outputPins 5 1 false).2
        = digitalFrame ((5 >>> 3) &&& 0x0F) (portValueAfter outputPins 5 1)
      ∧ (sendDigital (sendDigital outputPins 5 1 false).1 5 1 false)
        = ((sendDigital outputPins 5 1 false).1, [])
      ∧ ((sendDigital outputPins 5 1 false).2
          ++ (sendDigital (sendDigital outputPins 5 1 false).1 5 1 false).2).length = 3
      ∧ (sendDigital outputPins 5 1 true).2.length = 3
      ∧ (sendDigital (sendDigital outputPins 5 1 true).1 5 1 true).2.length = 3
      ∧ (sendDigital (sendDigital (sendDigital outputPins 5 1 false).1 5 1 false).1 5 0
          false).2.length = 3
      ∧ (sendDigital (sendDigital (sendDigital outputPins 5 1 true).1 5 1 true).1 5 0
          false).2.length = 3 :=
  C8_sendDigital_idempotent outputPins 5 1 0 (by decide) (by decide) (by decide)

/-- C9: `sendDigital(pin, value, force)` writes no byte and returns the state
unchanged (pin value, port aggregate and every other member) whenever the
pin's mode is not input, input-pullup or output, and also whenever the stored
pin value already equals `value` and `force` is false. -/
theorem C9_sendDigital_noop (s : ofArduino) (pin : Nat) (value : Int) (force : Bool)
    (h : ¬ (s._digitalPinMode pin = ARD_INPUT ∨ s._digitalPinMode pin = ARD_INPUT_PULLUP
          ∨ s._digitalPinMode pin = ARD_OUTPUT)
        ∨ (s._digitalPinValue pin = value ∧ force = false)) :
    sendDigital s pin value force = (s, []) := by
  apply sendDigital_of_not_guard
  rintro ⟨hm, hv⟩
  rcases h with h | ⟨h1, h2⟩
  · exact h hm
  · rcases hv with hv | hv
    · exact hv h1
    · rw [h2] at hv
      cases hv

/-- C9 at a concrete input: pin 5 of a fresh engine is in analog mode. -/
theorem C9_sendDigital_noop_witness : sendDigital fresh 5 1 true = (fresh, []) :=
  C9_sendDigital_noop fresh 5 1 true (Or.inl (by decide))

/-! ## C10 -/

/-- C10: for every `int` value, `sendValueAsTwo7bitBytes(value)` writes exactly
two bytes, `value & 0x7F` then `(value >> 7) & 0x7F` (that is `value mod 128`
and `floor(value / 128) mod 128`), both below 128; and for `0 ≤ value < 2^14`,
`getValueFromTwo7bitBytes` applied to the first byte as lsb and the second as
msb returns `value`. -/
theorem C10_two_7bit_bytes (value : Int) :
    ∃ lsb msb, sendValueAsTwo7bitBytes value = [lsb, msb]
      ∧ lsb = bits32 value &&& 0x7F
      ∧ msb = (bits32 value >>> 7) &&& 0x7F
      ∧ lsb = (value % 128).toNat
      ∧ msb = ((value / 128) % 128).toNat
      ∧ lsb < 128 ∧ msb < 128
      ∧ (0 ≤ value → value < 2 ^ 14 → getValueFromTwo7bitBytes lsb msb = value) := by
  have h1 : bits32 value &&& 0x7F = bits32 value % 128 := Nat.and_pow_two_sub_one_eq_mod _ 7
  have h2 : (bits32 value >>> 7) &&& 0x7F = (bits32 value >>> 7) % 128 :=
    Nat.and_pow_two_sub_one_eq_mod _ 7
  have h3 : bits32 value >>> 7 = bits32 value / 128 := Nat.shiftRight_eq_div_pow _ 7
  have hl : bits32 value &&& 0x7F = (value % 128).toNat := by
    rw [h1]; unfold bits32; omega
  have hm : (bits32 value >>> 7) &&& 0x7F = ((value / 128) % 128).toNat := by
    rw [h2, h3]; unfold bits32; omega
  refine ⟨_, _, sendValueAsTwo7bitBytes_eq value, rfl, rfl, hl, hm, and_127_lt _, and_127_lt _,
    ?_⟩
  intro h0 hlt
  unfold getValueFromTwo7bitBytes
  rw [Nat.mod_eq_of_lt (by have := and_127_lt (bits32 value); omega),
    Nat.mod_eq_of_lt (by have := and_127_lt (bits32 value >>> 7); omega),
    shl7_or _ _ (and_127_lt _), hl, hm]
  omega

/-- C10 at a concrete value: 300 is sent as 44, 2 and read back as 300. -/
theorem C10_two_7bit_bytes_witness :
    sendValueAsTwo7bitBytes 300 = [44, 2] ∧ getValueFromTwo7bitBytes 44 2 = 300 := by
  obtain ⟨lsb, msb, hs, _, _, hl, hm, _, _, hr⟩ := C10_two_7bit_bytes 300
  have hl' : lsb = 44 := by rw [hl]; decide
  have hm' : msb = 2 := by rw [hm]; decide
  subst hl' hm'
  exact ⟨hs, hr (by decide) (by decide)⟩

/-! ## Retention lengths are only changed by their setters -/

theorem processDigitalPin_lengths (s : ofArduino) (port value i : Nat) (s' : ofArduino)
    (ev : List Event) (h : processDigitalPin s port value i = some (s', ev)) :
    s'._analogHistoryLength = s._analogHistoryLength
      ∧ s'._digitalHistoryLength = s._digitalHistoryLength
      ∧ s'._stringHistoryLength = s._stringHistoryLength
      ∧ s'._sysExHistoryLength = s._sysExHistoryLength := by
  unfold processDigitalPin at h
  simp only [] at h
  split at h
  · split at h
    · cases h
    · split at h <;>
      · obtain ⟨rfl, -⟩ := Prod.mk.inj (Option.some.inj h)
        exact ⟨rfl, rfl, rfl, rfl⟩
  · obtain ⟨rfl, -⟩ := Prod.mk.inj (Option.some.inj h)
    exact ⟨rfl, rfl, rfl, rfl⟩

theorem processDigitalPortLoop_lengths (port value : Nat) (is : List Nat) (s s' : ofArduino)
    (ev : List Event) (h : processDigitalPortLoop port value is s = some (s', ev)) :
    s'._analogHistoryLength = s._analogHistoryLength
      ∧ s'._digitalHistoryLength = s._digitalHistoryLength
      ∧ s'._stringHistoryLength = s._stringHistoryLength
      ∧ s'._sysExHistoryLength = s._sysExHistoryLength := by
  induction is generalizing s ev with
  | nil =>
    obtain ⟨rfl, -⟩ := Prod.mk.inj (Option.some.inj h)
    exact ⟨rfl, rfl, rfl, rfl⟩
  | cons i rest ih =>
    unfold processDigitalPortLoop at h
    cases h1 : processDigitalPin s port value i with
    | none => rw [h1] at h; cases h
    | some r1 =>
      obtain ⟨s1, e1⟩ := r1
      rw [h1] at h
      simp only [] at h
      cases h2 : processDigitalPortLoop port value rest s1 with
      | none => rw [h2] at h; cases h
      | some r2 =>
        obtain ⟨s2, e2⟩ := r2
        rw [h2] at h
        obtain ⟨rfl, -⟩ := Prod.mk.inj (Option.some.inj h)
        obtain ⟨a1, a2, a3, a4⟩ := processDigitalPin_lengths s port value i s1 e1 h1
        obtain ⟨b1, b2, b3, b4⟩ := ih s1 e2 h2
        exact ⟨b1.trans a1, b2.trans a2, b3.trans a3, b4.trans a4⟩

theorem processSysExData_lengths (s : ofArduino) (data : List Nat) (s' : ofArduino)
    (ev : List Event) (h : processSysExData s data = some (s', ev)) :
    s'._analogHistoryLength = s._analogHistoryLength
      ∧ s'._digitalHistoryLength = s._digitalHistoryLength
      ∧ s'._stringHistoryLength = s._stringHistoryLength
      ∧ s'._sysExHistoryLength = s._sysExHistoryLength := by
  unfold processSysExData at h
  repeat' split at h
  all_goals first
    | (obtain ⟨rfl, -⟩ := Prod.mk.inj (Option.some.inj h); exact ⟨rfl, rfl, rfl, rfl⟩)
    | cases h

/-- `processData` never changes a configured retention length. -/
theorem processData_lengths (s : ofArduino) (b : Nat) (s' : ofArduino) (ev : List Event)
    (h : processData s b = some (s', ev)) :
    s'._analogHistoryLength = s._analogHistoryLength
      ∧ s'._digitalHistoryLength = s._digitalHistoryLength
      ∧ s'._stringHistoryLength = s._stringHistoryLength
      ∧ s'._sysExHistoryLength = s._sysExHistoryLength := by
  unfold processData at h
  simp only [] at h
  split at h
  · split at h
    · split at h
      · have hh := processDigitalPortLoop_lengths _ _ _ _ s' ev h
        exact hh
      · split at h
        · obtain ⟨rfl, -⟩ := Prod.mk.inj (Option.some.inj h)
          exact ⟨rfl, rfl, rfl, rfl⟩
        · split at h
          · repeat' split at h
            all_goals first
              | (obtain ⟨rfl, -⟩ := Prod.mk.inj (Option.some.inj h)
                 exact ⟨rfl, rfl, rfl, rfl⟩)
              | cases h
          · obtain ⟨rfl, -⟩ := Prod.mk.inj (Option.some.inj h)
            exact ⟨rfl, rfl, rfl, rfl⟩
    · obtain ⟨rfl, -⟩ := Prod.mk.inj (Option.some.inj h)
      exact ⟨rfl, rfl, rfl, rfl⟩
  · split at h
    · split at h
      · cases hs : processSysExData { s with _waitForData := 0 } s._sysExData with
        | none => rw [hs] at h; cases h
        | some r =>
          obtain ⟨s2, e2⟩ := r
          rw [hs] at h
          obtain ⟨rfl, -⟩ := Prod.mk.inj (Option.some.inj h)
          have hh := processSysExData_lengths _ _ s2 e2 hs
          exact hh
      · obtain ⟨rfl, -⟩ := Prod.mk.inj (Option.some.inj h)
        exact ⟨rfl, rfl, rfl, rfl⟩
    · repeat' split at h
      all_goals
        obtain ⟨rfl, -⟩ := Prod.mk.inj (Option.some.inj h)
        exact ⟨rfl, rfl, rfl, rfl⟩

/-- The constructor sets the retention lengths to 2, 2, 1, 1 and leaves the
framer idle with empty histories. -/
theorem construct_lengths (raw : ofArduino) (ports pins channels : Nat) :
    (construct raw ports pins channels).1._analogHistoryLength = 2
      ∧ (construct raw ports pins channels).1._digitalHistoryLength = 2
      ∧ (construct raw ports pins channels).1._stringHistoryLength = 1
      ∧ (construct raw ports pins channels).1._sysExHistoryLength = 1
      ∧ (construct raw ports pins channels).1._waitForData = 0 :=
  ⟨rfl, rfl, rfl, rfl, rfl⟩

/-- The setters keep the analog and digital retention lengths at or above 2
and the string and SysEx retention lengths at or above 1. -/
theorem setters_keep_floor (s : ofArduino) (n : Int) :
    (2 ≤ s._analogHistoryLength → 2 ≤ (setAnalogHistoryLength s n)._analogHistoryLength)
      ∧ (2 ≤ s._digitalHistoryLength → 2 ≤ (setDigitalHistoryLength s n)._digitalHistoryLength)
      ∧ (1 ≤ s._stringHistoryLength → 1 ≤ (setStringHistoryLength s n)._stringHistoryLength)
      ∧ (1 ≤ s._sysExHistoryLength → 1 ≤ (setSysExHistoryLength s n)._sysExHistoryLength) := by
  refine ⟨?_, ?_, ?_, ?_⟩ <;> intro h
  · unfold setAnalogHistoryLength
    split
    · show 2 ≤ n
      omega
    · exact h
  · unfold setDigitalHistoryLength
    split
    · show 2 ≤ n
      omega
    · exact h
  · unfold setStringHistoryLength
    split
    · show 1 ≤ n
      omega
    · exact h
  · unfold setSysExHistoryLength
    split
    · show 1 ≤ n
      omega
    · exact h

theorem setters_frame_lengths (s : ofArduino) (n : Int) :
    ((setAnalogHistoryLength s n)._digitalHistoryLength = s._digitalHistoryLength
        ∧ (setAnalogHistoryLength s n)._stringHistoryLength = s._stringHistoryLength
        ∧ (setAnalogHistoryLength s n)._sysExHistoryLength = s._sysExHistoryLength)
      ∧ ((setDigitalHistoryLength s n)._analogHistoryLength = s._analogHistoryLength
        ∧ (setDigitalHistoryLength s n)._stringHistoryLength = s._stringHistoryLength
        ∧ (setDigitalHistoryLength s n)._sysExHistoryLength = s._sysExHistoryLength)
      ∧ ((setStringHistoryLength s n)._analogHistoryLength = s._analogHistoryLength
        ∧ (setStringHistoryLength s n)._digitalHistoryLength = s._digitalHistoryLength
        ∧ (setStringHistoryLength s n)._sysExHistoryLength = s._sysExHistoryLength)
      ∧ ((setSysExHistoryLength s n)._analogHistoryLength = s._analogHistoryLength
        ∧ (setSysExHistoryLength s n)._digitalHistoryLength = s._digitalHistoryLength
        ∧ (setSysExHistoryLength s n)._stringHistoryLength = s._stringHistoryLength) := by
  refine ⟨?_, ?_, ?_, ?_⟩
  · unfold setAnalogHistoryLength; split <;> exact ⟨rfl, rfl, rfl⟩
  · unfold setDigitalHistoryLength; split <;> exact ⟨rfl, rfl, rfl⟩
  · unfold setStringHistoryLength; split <;> exact ⟨rfl, rfl, rfl⟩
  · unfold setSysExHistoryLength; split <;> exact ⟨rfl, rfl, rfl⟩

theorem sendDigital_lengths (s : ofArduino) (pin : Nat) (value : Int) (force : Bool) :
    (sendDigital s pin value force).1._analogHistoryLength = s._analogHistoryLength
      ∧ (sendDigital s pin value force).1._digitalHistoryLength = s._digitalHistoryLength
      ∧ (sendDigital s pin value force).1._stringHistoryLength = s._stringHistoryLength
      ∧ (sendDigital s pin value force).1._sysExHistoryLength = s._sysExHistoryLength := by
  unfold sendDigital
  split <;> exact ⟨rfl, rfl, rfl, rfl⟩

/-- In every engine state that can exist the analog and digital retention
lengths are at least 2 and the string and SysEx retention lengths at least 1. -/
theorem constructed_lengths (s : ofArduino) (h : Constructed s) :
    2 ≤ s._analogHistoryLength ∧ 2 ≤ s._digitalHistoryLength
      ∧ 1 ≤ s._stringHistoryLength ∧ 1 ≤ s._sysExHistoryLength := by
  induction h with
  | init raw ports pins channels =>
    obtain ⟨a, b, c, d, _⟩ := construct_lengths raw ports pins channels
    rw [a, b, c, d]
    decide
  | setAnalog s n _ ih =>
    obtain ⟨⟨a, b, c⟩, _⟩ := setters_frame_lengths s n
    rw [a, b, c]
    exact ⟨(setters_keep_floor s n).1 ih.1, ih.2⟩
  | setDigital s n _ ih =>
    obtain ⟨_, ⟨a, b, c⟩, _⟩ := setters_frame_lengths s n
    rw [a, b, c]
    exact ⟨ih.1, (setters_keep_floor s n).2.1 ih.2.1, ih.2.2⟩
  | setString s n _ ih =>
    obtain ⟨_, _, ⟨a, b, c⟩, _⟩ := setters_frame_lengths s n
    rw [a, b, c]
    exact ⟨ih.1, ih.2.1, (setters_keep_floor s n).2.2.1 ih.2.2.1, ih.2.2.2⟩
  | setSysEx s n _ ih =>
    obtain ⟨_, _, _, ⟨a, b, c⟩⟩ := setters_frame_lengths s n
    rw [a, b, c]
    exact ⟨ih.1, ih.2.1, ih.2.2.1, (setters_keep_floor s n).2.2.2 ih.2.2.2⟩
  | data s b s' ev _ hstep ih =>
    obtain ⟨a, b, c, d⟩ := processData_lengths s b s' ev hstep
    rw [a, b, c, d]
    exact ih
  | digitalWrite s pin value force _ ih =>
    obtain ⟨a, b, c, d⟩ := sendDigital_lengths s pin value force
    rw [a, b, c, d]
    exact ih

/-! ## What the inbound path never writes -/

theorem sameEncoderState_refl (s : ofArduino) : sameEncoderState s s :=
  ⟨rfl, rfl, rfl, rfl, rfl, rfl, rfl, rfl, rfl, rfl, rfl, rfl, rfl, rfl, rfl⟩

theorem sameEncoderState_trans (s s1 s2 : ofArduino) (h1 : sameEncoderState s s1)
    (h2 : sameEncoderState s1 s2) : sameEncoderState s s2 := by
  obtain ⟨a1, a2, a3, a4, a5, a6, a7, a8, a9, a10, a11, a12, a13, a14, a15⟩ := h1
  obtain ⟨b1, b2, b3, b4, b5, b6, b7, b8, b9, b10, b11, b12, b13, b14, b15⟩ := h2
  exact ⟨b1.trans a1, b2.trans a2, b3.trans a3, b4.trans a4, b5.trans a5, b6.trans a6,
    b7.trans a7, b8.trans a8, b9.trans a9, b10.trans a10, b11.trans a11, b12.trans a12,
    b13.trans a13, b14.trans a14, b15.trans a15⟩

theorem processDigitalPin_sameEncoderState (s : ofArduino) (port value i : Nat)
    (s' : ofArduino) (ev : List Event) (h : processDigitalPin s port value i = some (s', ev)) :
    sameEncoderState s s' := by
  unfold processDigitalPin at h
  simp only [] at h
  split at h
  · split at h
    · cases h
    · split at h <;>
      · obtain ⟨rfl, -⟩ := Prod.mk.inj (Option.some.inj h)
        exact sameEncoderState_refl s
  · obtain ⟨rfl, -⟩ := Prod.mk.inj (Option.some.inj h)
    exact sameEncoderState_refl s

theorem processDigitalPortLoop_sameEncoderState (port value : Nat) (is : List Nat)
    (s s' : ofArduino) (ev : List Event)
    (h : processDigitalPortLoop port value is s = some (s', ev)) : sameEncoderState s s' := by
  induction is generalizing s ev with
  | nil =>
    obtain ⟨rfl, -⟩ := Prod.mk.inj (Option.some.inj h)
    exact sameEncoderState_refl s
  | cons i rest ih =>
    unfold processDigitalPortLoop at h
    cases h1 : processDigitalPin s port value i with
    | none => rw [h1] at h; cases h
    | some r1 =>
      obtain ⟨s1, e1⟩ := r1
      rw [h1] at h
      simp only [] at h
      cases h2 : processDigitalPortLoop port value rest s1 with
      | none => rw [h2] at h; cases h
      | some r2 =>
        obtain ⟨s2, e2⟩ := r2
        rw [h2] at h
        obtain ⟨rfl, -⟩ := Prod.mk.inj (Option.some.inj h)
        exact sameEncoderState_trans _ _ _
          (processDigitalPin_sameEncoderState s port value i s1 e1 h1) (ih s1 e2 h2)

theorem processSysExData_sameEncoderState (s : ofArduino) (data : List Nat) (s' : ofArduino)
    (ev : List Event) (h : processSysExData s data = some (s', ev)) :
    sameEncoderState s s' := by
  unfold processSysExData at h
  repeat' split at h
  all_goals first
    | (obtain ⟨rfl, -⟩ := Prod.mk.inj (Option.some.inj h); exact sameEncoderState_refl s)
    | cases h

/-- `processData` writes none of the encoder's members. -/
theorem processData_sameEncoderState (s : ofArduino) (b : Nat) (s' : ofArduino)
    (ev : List Event) (h : processData s b = some (s', ev)) : sameEncoderState s s' := by
  unfold processData at h
  simp only [] at h
  split at h
  · split at h
    · split at h
      · have hh := processDigitalPortLoop_sameEncoderState _ _ _ _ s' ev h
        exact hh
      · split at h
        · obtain ⟨rfl, -⟩ := Prod.mk.inj (Option.some.inj h)
          exact sameEncoderState_refl s
        · split at h
          · repeat' split at h
            all_goals first
              | (obtain ⟨rfl, -⟩ := Prod.mk.inj (Option.some.inj h)
                 exact sameEncoderState_refl s)
              | cases h
          · obtain ⟨rfl, -⟩ := Prod.mk.inj (Option.some.inj h)
            exact sameEncoderState_refl s
    · obtain ⟨rfl, -⟩ := Prod.mk.inj (Option.some.inj h)
      exact sameEncoderState_refl s
  · split at h
    · split at h
      · cases hs : processSysExData { s with _waitForData := 0 } s._sysExData with
        | none => rw [hs] at h; cases h
        | some r =>
          obtain ⟨s2, e2⟩ := r
          rw [hs] at h
          obtain ⟨rfl, -⟩ := Prod.mk.inj (Option.some.inj h)
          have hh := processSysExData_sameEncoderState _ _ s2 e2 hs
          exact hh
      · obtain ⟨rfl, -⟩ := Prod.mk.inj (Option.some.inj h)
        exact sameEncoderState_refl s
    · repeat' split at h
      all_goals
        obtain ⟨rfl, -⟩ := Prod.mk.inj (Option.some.inj h)
        exact sameEncoderState_refl s

/-! ## C11 -/

/-- The seven I2C request operations never change the state. -/
theorem i2c_requests_keep_state (s : ofArduino) (address reg value n : Int)
    (bytes : List Int) :
    (sendI2CWriteRequest s address bytes).1 = s
      ∧ (sendI2CWriteRequest_vector s address bytes).1 = s
      ∧ (i2cWrite s address bytes).1 = s
      ∧ (i2cWriteReg s address reg value).1 = s
      ∧ (sendI2CReadRequest s address n).1 = s
      ∧ (i2cRead s address reg n).1 = s
      ∧ (i2cReadOnce s address reg n).1 = s := by
  refine ⟨?_, ?_, ?_, ?_, ?_, ?_, ?_⟩
  · unfold sendI2CWriteRequest; split <;> rfl
  · unfold sendI2CWriteRequest_vector; split <;> rfl
  · unfold i2cWrite; split <;> rfl
  · unfold i2cWriteReg; split <;> rfl
  · unfold sendI2CReadRequest; split <;> rfl
  · unfold i2cRead; split <;> rfl
  · unfold i2cReadOnce; split <;> rfl

/-- The pin-mode change leaves the I2C flag alone. -/
theorem sendDigitalPinMode_i2cConfigured (s : ofArduino) (pin : Nat) (mode : Int) :
    (sendDigitalPinMode s pin mode).1._i2cConfigured = s._i2cConfigured := by
  unfold sendDigitalPinMode sendDigitalPinReporting sendDigitalPortReporting
  simp only []
  repeat' split
  all_goals rfl

/-- Without a `sendI2CConfig` call the I2C flag is false. -/
theorem withoutI2CConfig_flag (s : ofArduino) (h : WithoutI2CConfig s) :
    s._i2cConfigured = false := by
  induction h with
  | init raw ports pins channels => rfl
  | connect s ok _ ih => exact ih
  | useDelay s b _ ih => exact ih
  | setAnalog s n _ ih => unfold setAnalogHistoryLength; split <;> exact ih
  | setDigital s n _ ih => unfold setDigitalHistoryLength; split <;> exact ih
  | setString s n _ ih => unfold setStringHistoryLength; split <;> exact ih
  | setSysEx s n _ ih => unfold setSysExHistoryLength; split <;> exact ih
  | data s b s' ev _ hstep ih =>
    rw [(processData_sameEncoderState s b s' ev hstep).1]
    exact ih
  | digitalWrite s pin value force _ ih => unfold sendDigital; split <;> exact ih
  | pwm s pin value force _ ih =>
    unfold sendPwm
    split
    · exact ih
    · split <;> exact ih
  | servo s pin value force _ ih => unfold sendServo; split <;> exact ih
  | pinMode s pin mode _ ih => rw [sendDigitalPinMode_i2cConfigured]; exact ih
  | analogReporting s pin mode _ ih => exact ih
  | servoAttach s pin lo hi angle _ ih => exact ih
  | servoDetach s pin _ ih => exact ih
  | stepper2Wire s id dirPin stepPin steps _ ih => exact ih
  | stepper4Wire s id p1 p2 p3 p4 steps _ ih => exact ih
  | writeRequest s address bytes _ ih =>
    rw [(i2c_requests_keep_state s address 0 0 0 bytes).1]; exact ih
  | writeRequestVector s address bytes _ ih =>
    rw [(i2c_requests_keep_state s address 0 0 0 bytes).2.1]; exact ih
  | write s address bytes _ ih =>
    rw [(i2c_requests_keep_state s address 0 0 0 bytes).2.2.1]; exact ih
  | writeReg s address reg byte _ ih =>
    rw [(i2c_requests_keep_state s address reg byte 0 []).2.2.2.1]; exact ih
  | readRequest s address numBytes _ ih =>
    rw [(i2c_requests_keep_state s address 0 0 numBytes []).2.2.2.2.1]; exact ih
  | read s address reg n _ ih =>
    rw [(i2c_requests_keep_state s address reg 0 n []).2.2.2.2.2.1]; exact ih
  | readOnce s address reg n _ ih =>
    rw [(i2c_requests_keep_state s address reg 0 n []).2.2.2.2.2.2]; exact ih

/-- C11: without a `sendI2CConfig` call (in particular after construction) the
I2C-configured flag is false; while it is false each of `sendI2CWriteRequest`
(both overloads), `i2cWrite`, `i2cWriteReg`, `sendI2CReadRequest`, `i2cRead` and
`i2cReadOnce` writes no byte and returns the state unchanged; `sendI2CConfig`
sets the flag, and while it is set each of these operations leaves the state
unchanged and emits a frame that begins with `START_SYSEX`, `I2C_REQUEST` and
ends with `END_SYSEX`. -/
theorem C11_i2c_gating (s : ofArduino) (address reg value n delay : Int) (bytes : List Int) :
    (WithoutI2CConfig s → isI2CConfigured s = false)
    ∧ (isI2CConfigured s = false →
        sendI2CWriteRequest s address bytes = (s, [])
          ∧ sendI2CWriteRequest_vector s address bytes = (s, [])
          ∧ i2cWrite s address bytes = (s, [])
          ∧ i2cWriteReg s address reg value = (s, [])
          ∧ sendI2CReadRequest s address n = (s, [])
          ∧ i2cRead s address reg n = (s, [])
          ∧ i2cReadOnce s address reg n = (s, []))
    ∧ isI2CConfigured (sendI2CConfig s delay).1 = true
    ∧ (isI2CConfigured s = true →
        (sendI2CWriteRequest s address bytes).1 = s
          ∧ isI2CRequestFrame (sendI2CWriteRequest s address bytes).2
          ∧ (sendI2CWriteRequest_vector s address bytes).1 = s
          ∧ isI2CRequestFrame (sendI2CWriteRequest_vector s address bytes).2
          ∧ (i2cWrite s address bytes).1 = s
          ∧ isI2CRequestFrame (i2cWrite s address bytes).2
          ∧ (i2cWriteReg s address reg value).1 = s
          ∧ isI2CRequestFrame (i2cWriteReg s address reg value).2
          ∧ (sendI2CReadRequest s address n).1 = s
          ∧ isI2CRequestFrame (sendI2CReadRequest s address n).2
          ∧ (i2cRead s address reg n).1 = s
          ∧ isI2CRequestFrame (i2cRead s address reg n).2
          ∧ (i2cReadOnce s address reg n).1 = s
          ∧ isI2CRequestFrame (i2cReadOnce s address reg n).2) := by
  obtain ⟨k1, k2, k3, k4, k5, k6, k7⟩ := i2c_requests_keep_state s address reg value n bytes
  refine ⟨withoutI2CConfig_flag s, ?_, rfl, ?_⟩
  · intro h
    have h' : ¬ (s._i2cConfigured = true) := by
      have h0 : s._i2cConfigured = false := h
      rw [h0]
      decide
    refine ⟨?_, ?_, ?_, ?_, ?_, ?_, ?_⟩
    · unfold sendI2CWriteRequest; rw [if_neg h']
    · unfold sendI2CWriteRequest_vector; rw [if_neg h']
    · unfold i2cWrite; rw [if_neg h']
    · unfold i2cWriteReg; rw [if_neg h']
    · unfold sendI2CReadRequest; rw [if_neg h']
    · unfold i2cRead; rw [if_neg h']
    · unfold i2cReadOnce; rw [if_neg h']
  · intro h
    have h' : s._i2cConfigured = true := h
    refine ⟨k1, ?_, k2, ?_, k3, ?_, k4, ?_, k5, ?_, k6, ?_, k7, ?_⟩
    · unfold sendI2CWriteRequest; rw [if_pos h']
      exact ⟨sendInt address ++ sendByte (WRITE <<< 3) ++ sendValues (cString bytes), by
        simp [sendByte, FIRMATA_START_SYSEX, I2C_REQUEST, FIRMATA_END_SYSEX]⟩
    · unfold sendI2CWriteRequest_vector; rw [if_pos h']
      exact ⟨sendInt address ++ sendByte (WRITE <<< 3) ++ sendValues bytes, by
        simp [sendByte, FIRMATA_START_SYSEX, I2C_REQUEST, FIRMATA_END_SYSEX]⟩
    · unfold i2cWrite; rw [if_pos h']
      exact ⟨sendInt address ++ sendByte (WRITE <<< 3) ++ sendValues (cString bytes), by
        simp [sendByte, FIRMATA_START_SYSEX, I2C_REQUEST, FIRMATA_END_SYSEX]⟩
    · unfold i2cWriteReg; rw [if_pos h']
      exact ⟨sendInt address ++ sendByte (WRITE <<< 3) ++ sendValueAsTwo7bitBytes reg
        ++ sendValueAsTwo7bitBytes value, by
        simp [sendByte, FIRMATA_START_SYSEX, I2C_REQUEST, FIRMATA_END_SYSEX]⟩
    · unfold sendI2CReadRequest; rw [if_pos h']
      exact ⟨sendInt address ++ sendByte (READ <<< 3) ++ sendValueAsTwo7bitBytes n, by
        simp [sendByte, FIRMATA_START_SYSEX, I2C_REQUEST, FIRMATA_END_SYSEX]⟩
    · unfold i2cRead; rw [if_pos h']
      exact ⟨sendInt address ++ sendByte (CONTINUOUS_READ <<< 3) ++ sendValueAsTwo7bitBytes reg
        ++ sendValueAsTwo7bitBytes n, by
        simp [sendByte, FIRMATA_START_SYSEX, I2C_REQUEST, FIRMATA_END_SYSEX]⟩
    · unfold i2cReadOnce; rw [if_pos h']
      exact ⟨sendInt address ++ sendByte (READ <<< 3) ++ sendValueAsTwo7bitBytes reg
        ++ sendValueAsTwo7bitBytes n, by
        simp [sendByte, FIRMATA_START_SYSEX, I2C_REQUEST, FIRMATA_END_SYSEX]⟩

/-- C11 at concrete inputs: a fresh engine (flag false) and the same engine
after `sendI2CConfig(0)` (flag true). -/
theorem C11_i2c_gating_witness :
    isI2CConfigured fresh = false
      ∧ sendI2CWriteRequest fresh 0x20 [1, 2] = (fresh, [])
      ∧ i2cReadOnce fresh 0x20 0 2 = (fresh, [])
      ∧ isI2CRequestFrame (sendI2CWriteRequest (sendI2CConfig fresh 0).1 0x20 [1, 2]).2
      ∧ isI2CRequestFrame (i2cReadOnce (sendI2CConfig fresh 0).1 0x20 0 2).2 :=
  ⟨(C11_i2c_gating fresh 0x20 0 0 2 0 [1, 2]).1 (WithoutI2CConfig.init zeroed 16 128 16),
   ((C11_i2c_gating fresh 0x20 0 0 2 0 [1, 2]).2.1 rfl).1,
   ((C11_i2c_gating fresh 0x20 0 0 2 0 [1, 2]).2.1 rfl).2.2.2.2.2.2,
   ((C11_i2c_gating (sendI2CConfig fresh 0).1 0x20 0 0 2 0 [1, 2]).2.2.2 rfl).2.1,
   ((C11_i2c_gating (sendI2CConfig fresh 0).1 0x20 0 0 2 0 [1, 2]).2.2.2
      rfl).2.2.2.2.2.2.2.2.2.2.2.2.2⟩

/-! ## C12 -/

/-- C12: `setAnalogHistoryLength(n)` and `setDigitalHistoryLength(n)` with
`n < 2`, and `setStringHistoryLength(n)` and `setSysExHistoryLength(n)` with
`n < 1`, return the state unchanged; with `n` at or above the floor the state
returned differs from the old one exactly in the corresponding configured
length, which is `n`. -/
theorem C12_history_length_setters (s : ofArduino) (n : Int) :
    (n < 2 → setAnalogHistoryLength s n = s ∧ setDigitalHistoryLength s n = s)
    ∧ (n < 1 → setStringHistoryLength s n = s ∧ setSysExHistoryLength s n = s)
    ∧ (2 ≤ n →
        setAnalogHistoryLength s n = { s with _analogHistoryLength := n }
          ∧ setDigitalHistoryLength s n = { s with _digitalHistoryLength := n })
    ∧ (1 ≤ n →
        setStringHistoryLength s n = { s with _stringHistoryLength := n }
          ∧ setSysExHistoryLength s n = { s with _sysExHistoryLength := n }) := by
  refine ⟨?_, ?_, ?_, ?_⟩ <;> intro h
  · have h' : ¬ (n ≥ 2) := by omega
    exact ⟨by unfold setAnalogHistoryLength; rw [if_neg h'],
      by unfold setDigitalHistoryLength; rw [if_neg h']⟩
  · have h' : ¬ (n ≥ 1) := by omega
    exact ⟨by unfold setStringHistoryLength; rw [if_neg h'],
      by unfold setSysExHistoryLength; rw [if_neg h']⟩
  · have h' : n ≥ 2 := h
    exact ⟨by unfold setAnalogHistoryLength; rw [if_pos h'],
      by unfold setDigitalHistoryLength; rw [if_pos h']⟩
  · have h' : n ≥ 1 := h
    exact ⟨by unfold setStringHistoryLength; rw [if_pos h'],
      by unfold setSysExHistoryLength; rw [if_pos h']⟩

/-- C12 at concrete inputs: lengths 1, 0 (below the floors) and 5 on a fresh
engine. -/
theorem C12_history_length_setters_witness :
    (setAnalogHistoryLength fresh 1 = fresh ∧ setDigitalHistoryLength fresh 1 = fresh)
    ∧ (setStringHistoryLength fresh 0 = fresh ∧ setSysExHistoryLength fresh 0 = fresh)
    ∧ (setAnalogHistoryLength fresh 5 = { fresh with _analogHistoryLength := 5 }
        ∧ setDigitalHistoryLength fresh 5 = { fresh with _digitalHistoryLength := 5 })
    ∧ (setStringHistoryLength fresh 5 = { fresh with _stringHistoryLength := 5 }
        ∧ setSysExHistoryLength fresh 5 = { fresh with _sysExHistoryLength := 5 }) :=
  ⟨(C12_history_length_setters fresh 1).1 (by decide),
   (C12_history_length_setters fresh 0).2.1 (by decide),
   (C12_history_length_setters fresh 5).2.2.1 (by decide),
   (C12_history_length_setters fresh 5).2.2.2 (by decide)⟩

/-! ## C13 -/

/-- C13: for every analog-channel message completed for channel `c` with
sample `v` (fed from the idle framer state): if the channel's history was
non-empty with front `p`, exactly one analog-pin-changed event for `c` is
published when `v ≠ p` and none when `v = p`; if the history was empty, `v` is
pushed and no event is published. -/
theorem C13_analog_change_event (s : ofArduino) (c d1 d2 : Nat) (hc : c < 16)
    (h1 : d1 < 128) (h2 : d2 < 128) (hidle : s._waitForData = 0) :
    ∃ s' ev, feed s [FIRMATA_ANALOG_MESSAGE ||| c, d1, d2] = some (s', ev)
      ∧ (∀ p t, s._analogHistory c = p :: t →
          (Event.EAnalogPinChanged c ∈ ev ↔ (((d2 <<< 7) ||| d1 : Nat) : Int) ≠ p)
            ∧ ev = (if (((d2 <<< 7) ||| d1 : Nat) : Int) ≠ p
                      then [Event.EAnalogPinChanged c] else [])
            ∧ (s'._analogHistory c).head? = some (((d2 <<< 7) ||| d1 : Nat) : Int))
      ∧ (s._analogHistory c = [] →
          ev = []
            ∧ s'._analogHistory c
                = pushFront [] (((d2 <<< 7) ||| d1 : Nat) : Int) s._analogHistoryLength
            ∧ (1 ≤ s._analogHistoryLength →
                s'._analogHistory c = [(((d2 <<< 7) ||| d1 : Nat) : Int)])) := by
  have hfeed := feed_analog_message s c d1 d2 hc h1 h2 hidle
  rw [analogFrame] at hfeed
  refine ⟨_, _, hfeed, ?_, ?_⟩
  · intro p t hpt
    rw [hpt]
    refine ⟨?_, rfl, ?_⟩
    · unfold analogEvents
      simp only []
      split <;> simp_all
    · simp only [analogAfter, setAt, if_true, hpt, pushFront_cons, List.head?_cons]
  · intro hnil
    rw [hnil]
    refine ⟨rfl, ?_, ?_⟩
    · simp only [analogAfter, setAt, if_true, hnil]
    · intro hlen
      simp only [analogAfter, setAt, if_true, hnil]
      rw [pushFront_eq _ _ _ hlen]
      have : ¬ ((0 : Int) + 1 > s._analogHistoryLength) := by omega
      simp [this]

/-- C13 at concrete inputs: a second, different sample on channel 3 of a fresh
engine that has received one sample. -/
theorem C13_analog_change_event_witness :
    ∃ s' ev, feed (analogAfter fresh 3 5 7) [FIRMATA_ANALOG_MESSAGE ||| 3, 6, 7] = some (s', ev)
      ∧ ev = [Event.EAnalogPinChanged 3]
      ∧ (s'._analogHistory 3).head? = some (((7 <<< 7) ||| 6 : Nat) : Int) := by
  obtain ⟨s', ev, hf, hne, _⟩ := C13_analog_change_event (analogAfter fresh 3 5 7) 3 6 7
    (by decide) (by decide) (by decide) rfl
  obtain ⟨_, hev, hh⟩ := hne (((7 <<< 7) ||| 5 : Nat) : Int) [] (by decide)
  exact ⟨s', ev, hf, by rw [hev]; decide, hh⟩

/-! ## C15 -/

theorem decodePairsLenient_length : ∀ bs : List Nat,
    (decodePairsLenient bs).length = (bs.length + 1) / 2
  | [] => rfl
  | [_] => by simp [decodePairsLenient]
  | _ :: _ :: rest => by
    simp only [decodePairsLenient, List.length_cons, decodePairsLenient_length rest]
    omega

theorem decodePairsLenient_getD : ∀ (bs : List Nat) (i : Nat), i < (bs.length + 1) / 2 →
    (decodePairsLenient bs).getD i 0
      = (bs.getD (2 * i) 0 + (bs.getD (2 * i + 1) 0 <<< 7)) % 256
  | [], i, h => by simp at h
  | [lo], i, h => by
    have hi : i = 0 := by simp at h; omega
    subst hi
    simp [decodePairsLenient]
  | lo :: hi :: rest, 0, _ => by simp [decodePairsLenient]
  | lo :: hi :: rest, i + 1, h => by
    have h' : i < (rest.length + 1) / 2 := by
      simp only [List.length_cons] at h
      omega
    have e1 : 2 * (i + 1) = 2 * i + 1 + 1 := by omega
    have e2 : 2 * (i + 1) + 1 = 2 * i + 1 + 1 + 1 := by omega
    rw [e2, e1]
    simp only [decodePairsLenient, List.getD_cons_succ]
    exact decodePairsLenient_getD rest i h'

/-- C15: for every SysEx payload whose first byte is the string sub-command
followed by bytes `b1..bn` (`n ≥ 0`, odd `n` allowed), the decoded string has
`ceil(n/2)` characters, character `i` being `(low_i + (high_i << 7)) mod 256`
with a missing final high byte read as 0; the decoded string is pushed to the
front of the string history (it is what `getString()` returns, the retention
length being at least one), the history size does not exceed the configured
length afterwards when it did not before, and exactly one string-received
event carrying that string is published. -/
theorem C15_string_message (s : ofArduino) (bs : List Nat) :
    ∃ s' str, processSysExData s (FIRMATA_SYSEX_FIRMATA_STRING :: bs)
        = some (s', [Event.EStringReceived str])
      ∧ str.length = (bs.length + 1) / 2
      ∧ (∀ i, i < (bs.length + 1) / 2 →
          str.getD i 0 = (bs.getD (2 * i) 0 + (bs.getD (2 * i + 1) 0 <<< 7)) % 256)
      ∧ s' = { s with
                _stringHistory := pushFront s._stringHistory str s._stringHistoryLength }
      ∧ (1 ≤ s._stringHistoryLength →
          getString s' = some str
            ∧ s'._stringHistory
                = str :: (if (s._stringHistory.length : Int) + 1 > s._stringHistoryLength
                            then s._stringHistory.dropLast else s._stringHistory))
      ∧ ((s._stringHistory.length : Int) ≤ s._stringHistoryLength →
          (s'._stringHistory.length : Int) ≤ s'._stringHistoryLength) := by
  refine ⟨_, decodePairsLenient bs, ?_, decodePairsLenient_length bs,
    decodePairsLenient_getD bs, rfl, ?_, ?_⟩
  · simp [processSysExData, FIRMATA_SYSEX_FIRMATA_STRING, FIRMATA_SYSEX_REPORT_FIRMWARE]
  · intro hlen
    simp only [getString]
    rw [pushFront_eq _ _ _ hlen]
    exact ⟨rfl, rfl⟩
  · intro hb
    exact pushFront_length_le _ _ _ hb

/-- C15 at a concrete payload: "Hi!" with the final high byte missing, on a
fresh engine. -/
theorem C15_string_message_witness :
    ∃ s' str, processSysExData fresh (FIRMATA_SYSEX_FIRMATA_STRING :: [72, 0, 105, 0, 33])
        = some (s', [Event.EStringReceived str])
      ∧ str.length = 3
      ∧ getString s' = some str := by
  obtain ⟨s', str, hp, hl, _, _, hfront, _⟩ := C15_string_message fresh [72, 0, 105, 0, 33]
  exact ⟨s', str, hp, hl, (hfront (by decide)).1⟩

/-! ## C16 -/

/-- The unguarded pair loop has no defined result on an odd number of bytes:
its last iteration reads through an iterator equal to `end()`. -/
theorem decodePairs_odd : ∀ bs : List Nat, bs.length % 2 = 1 → decodePairs bs = none
  | [], h => by simp at h
  | [_], _ => by simp [decodePairs]
  | _ :: _ :: rest, h => by
    have h' : rest.length % 2 = 1 := by
      simp only [List.length_cons] at h
      omega
    simp [decodePairs, decodePairs_odd rest h']

theorem pairBytes_length (pairs : List (Nat × Nat)) :
    (pairBytes pairs).length = 2 * pairs.length := by
  induction pairs with
  | nil => rfl
  | cons p rest ih =>
    simp only [pairBytes, List.length_cons, ih]
    omega

/-- On every I2C-reply payload `[I2C_REPLY, a0, a1, r0, r1, l1, h1, ..., lk, hk]`
the decoder starts its data loop on `r1` and so reads past the end of the
payload. -/
theorem i2c_reply_reads_past_end (s : ofArduino) (a0 a1 r0 r1 : Nat)
    (pairs : List (Nat × Nat)) :
    processSysExData s (I2C_REPLY :: a0 :: a1 :: r0 :: r1 :: pairBytes pairs) = none := by
  have hodd : decodePairs (r1 :: pairBytes pairs) = none := by
    apply decodePairs_odd
    simp only [List.length_cons, pairBytes_length]
    omega
  simp [processSysExData, I2C_REPLY, FIRMATA_SYSEX_REPORT_FIRMWARE,
    FIRMATA_SYSEX_FIRMATA_STRING, hodd]

/-- C16 (the code at the failing input): for the reply
`[I2C_REPLY, 0x20, 0, 0x10, 0, 0x34, 0x01]` (address 0x20, register 0x10, one
data byte 0xB4) the decoder has no defined result: its data loop pairs `r1`
with `l1`, then reads `h1` and the element past the end. The same loop run on
the data bytes alone would give the one byte the claim describes. -/
theorem C16_i2c_reply_at_failing_input :
    (processSysExData fresh [I2C_REPLY, 0x20, 0, 0x10, 0, 0x34, 0x01]).isNone = true
      ∧ decodePairs [0x34, 0x01] = some [0xB4] := by
  constructor
  · rw [show ([I2C_REPLY, 0x20, 0, 0x10, 0, 0x34, 0x01] : List Nat)
        = I2C_REPLY :: 0x20 :: 0 :: 0x10 :: 0 :: pairBytes [(0x34, 0x01)] from rfl,
      i2c_reply_reads_past_end]
    rfl
  · decide

/-! ## C17 -/

/-- C18: for every non-empty SysEx payload whose first byte is none of the
report-firmware, string, I2C-reply or stepper sub-commands, the whole payload
(sub-command byte included) is pushed unmodified to the front of the SysEx
history, so that `getSysEx()` returns it (retention length at least one), the
oldest entry being evicted when the size exceeds the configured length; one
SysEx-received event carrying the same bytes is published; nothing but the
SysEx history changes. -/
theorem C18_unrecognized_sysex (s : ofArduino) (cmd : Nat) (rest : List Nat)
    (h1 : cmd ≠ FIRMATA_SYSEX_REPORT_FIRMWARE) (h2 : cmd ≠ FIRMATA_SYSEX_FIRMATA_STRING)
    (h3 : cmd ≠ I2C_REPLY) (h4 : cmd ≠ STEPPER_DATA) :
    ∃ s', processSysExData s (cmd :: rest) = some (s', [Event.ESysExReceived (cmd :: rest)])
      ∧ s' = { s with
                _sysExHistory := pushFront s._sysExHistory (cmd :: rest) s._sysExHistoryLength }
      ∧ (1 ≤ s._sysExHistoryLength →
          getSysEx s' = some (cmd :: rest)
            ∧ s'._sysExHistory
                = (cmd :: rest) ::
                    (if (s._sysExHistory.length : Int) + 1 > s._sysExHistoryLength
                      then s._sysExHistory.dropLast else s._sysExHistory))
      ∧ ((s._sysExHistory.length : Int) ≤ s._sysExHistoryLength →
          (s'._sysExHistory.length : Int) ≤ s'._sysExHistoryLength)
      ∧ sameEncoderState s s'
      ∧ s'._analogHistory = s._analogHistory
      ∧ s'._digitalHistory = s._digitalHistory
      ∧ s'._stringHistory = s._stringHistory
      ∧ s'._majorProtocolVersion = s._majorProtocolVersion
      ∧ s'._minorProtocolVersion = s._minorProtocolVersion
      ∧ s'._majorFirmwareVersion = s._majorFirmwareVersion
      ∧ s'._minorFirmwareVersion = s._minorFirmwareVersion
      ∧ s'._firmwareName = s._firmwareName
      ∧ s'._initialized = s._initialized := by
  refine ⟨_, ?_, rfl, ?_, ?_, sameEncoderState_refl s, rfl, rfl, rfl, rfl, rfl, rfl, rfl, rfl,
    rfl⟩
  · simp [processSysExData, h1, h2, h3, h4]
  · intro hlen
    simp only [getSysEx]
    rw [pushFront_eq _ _ _ hlen]
    exact ⟨rfl, rfl⟩
  · intro hb
    exact pushFront_length_le _ _ _ hb

/-- C18 at a concrete payload: `[0x6C, 1, 2]` on a fresh engine. -/
theorem C18_unrecognized_sysex_witness :
    ∃ s', processSysExData fresh [0x6C, 1, 2] = some (s', [Event.ESysExReceived [0x6C, 1, 2]])
      ∧ getSysEx s' = some [0x6C, 1, 2] := by
  obtain ⟨s', hp, _, hfront, _⟩ := C18_unrecognized_sysex fresh 0x6C [1, 2] (by decide)
    (by decide) (by decide) (by decide)
  exact ⟨s', hp, (hfront (by decide)).1⟩

/-! ## C19 -/

/-- What `sendI2CConfig` writes: the delay bytes carry 1 for every non-zero
delay and 0 for a zero delay. -/
theorem sendI2CConfig_bytes (s : ofArduino) (delay : Int) :
    (sendI2CConfig s delay).2
      = [FIRMATA_START_SYSEX, I2C_CONFIG, if delay = 0 then 0 else 1, 0, FIRMATA_END_SYSEX] := by
  unfold sendI2CConfig
  by_cases h : delay = 0
  · subst h
    rfl
  · rw [if_neg h]
    simp only []
    rw [if_pos (Or.inl h)]
    rfl

/-- C19 (the code at the failing input): `sendI2CConfig(300)` sets the flag but
writes `[START_SYSEX, I2C_CONFIG, 1, 0, END_SYSEX]`; the frame carrying the
caller's delay would hold the bytes `0x2C, 0x01`. -/
theorem C19_i2c_config_at_failing_input :
    (sendI2CConfig fresh 300).2 = [0xF0, 0x78, 1, 0, 0xF7]
      ∧ isI2CConfigured (sendI2CConfig fresh 300).1 = true
      ∧ [bits32 300 &&& 0xFF, (bits32 300 >>> 8) &&& 0xFF] = [0x2C, 0x01] := by
  decide

/-! ## C20 -/

set_option maxRecDepth 1000000 in
theorem high_nibble_not_version : ∀ x, x < 256 → x &&& 0xF0 ≠ 0xF9 := by
  decide

set_option maxRecDepth 1000000 in
theorem high_nibble_not_sysex : ∀ x, x < 0xF0 → x &&& 0xF0 ≠ 0xF0 := by
  decide

set_option maxRecDepth 1000000 in
theorem system_byte_nibble : ∀ x, x < 256 → 0xF0 ≤ x →
    x &&& 0xF0 ≠ 0x90 ∧ x &&& 0xF0 ≠ 0xE0 ∧ x ≠ 0x90 ∧ x ≠ 0xE0 := by
  decide

/-- C20 as stated fails: with an analog message for channel 0 interrupted
after its first data byte (pending count 1), the byte `0xFF` leaves the pending
count at 1, and the data byte 7 that follows is dispatched as the second byte
of the interrupted message (sample `(7 << 7) | 5 = 901` on channel 0); with the
byte `0xC3` in place of `0xFF` the pending count stays 1 as well and the same
sample is dispatched on channel 3. -/
theorem C20_no_reset_counterexample :
    (feed fresh [0xE0, 5]).map (fun r => r.1._waitForData) = some 1
      ∧ (feed fresh [0xE0, 5, 0xFF]).map (fun r => r.1._waitForData) = some 1
      ∧ (feed fresh [0xE0, 5, 0xFF, 7]).map (fun r => (r.1._waitForData, r.1._analogHistory 0))
          = some (0, [901])
      ∧ (feed fresh [0xE0, 5, 0xC3]).map (fun r => r.1._waitForData) = some 1
      ∧ (feed fresh [0xE0, 5, 0xC3, 7]).map
            (fun r => (r.1._waitForData, r.1._analogHistory 0, r.1._analogHistory 3))
          = some (0, [], [901]) := by
  decide

/-- C20 (amended): for every framer state with pending count > 0 and every
input byte `b ≥ 128`, `processData(b)` handles `b` as a command byte, publishes
no event and leaves the histories and the stored data bytes as they are: a
digital-port or analog-channel command byte (with its channel) or the
protocol-version byte discards the interrupted message and starts a new
two-byte message (pending count 2); `START_SYSEX` clears the SysEx buffer and
enters AwaitingSysEx (pending count -1); every other byte leaves the state as
it was, except that a byte below `0xF0` overwrites the remembered channel with
`b & 0x0F`: the pending count and the remembered command are unchanged, so the
interrupted command is still awaited, on the old channel after a byte
`≥ 0xF0` and on channel `b & 0x0F` after a byte below `0xF0`. In each case the
resulting state is given in full. -/
theorem C20_high_byte_while_pending (s : ofArduino) (b : Nat) (hpend : 0 < s._waitForData)
    (hb : 128 ≤ b) (hb' : b < 256) :
    ∃ s', processData s b = some (s', [])
      ∧ s'._analogHistory = s._analogHistory
      ∧ s'._digitalHistory = s._digitalHistory
      ∧ s'._stringHistory = s._stringHistory
      ∧ s'._sysExHistory = s._sysExHistory
      ∧ s'._storedInputData = s._storedInputData
      ∧ ((b &&& 0xF0 = FIRMATA_DIGITAL_MESSAGE ∨ b &&& 0xF0 = FIRMATA_ANALOG_MESSAGE) →
          s'._waitForData = 2 ∧ s'._executeMultiByteCommand = b &&& 0xF0
            ∧ s'._multiByteChannel = b &&& 0x0F
            ∧ s' = { s with
                      _multiByteChannel := b &&& 0x0F
                      _waitForData := 2
                      _executeMultiByteCommand := b &&& 0xF0 })
      ∧ (b = FIRMATA_REPORT_VERSION →
          s'._waitForData = 2 ∧ s'._executeMultiByteCommand = FIRMATA_REPORT_VERSION
            ∧ s' = { s with
                      _waitForData := 2
                      _executeMultiByteCommand := FIRMATA_REPORT_VERSION })
      ∧ (b = FIRMATA_START_SYSEX →
          s'._waitForData = -1 ∧ s'._sysExData = []
            ∧ s'._executeMultiByteCommand = FIRMATA_START_SYSEX
            ∧ s' = { s with
                      _sysExData := []
                      _waitForData := -1
                      _executeMultiByteCommand := FIRMATA_START_SYSEX })
      ∧ (b &&& 0xF0 ≠ FIRMATA_DIGITAL_MESSAGE → b &&& 0xF0 ≠ FIRMATA_ANALOG_MESSAGE →
          b ≠ FIRMATA_REPORT_VERSION → b ≠ FIRMATA_START_SYSEX →
          s'._waitForData = s._waitForData
            ∧ s'._executeMultiByteCommand = s._executeMultiByteCommand
            ∧ s'._sysExData = s._sysExData
            ∧ s'._multiByteChannel = (if b < 0xF0 then b &&& 0x0F else s._multiByteChannel)
            ∧ s' = (if b < 0xF0 then { s with _multiByteChannel := b &&& 0x0F } else s)) := by
  have hmod : b % 256 = b := Nat.mod_eq_of_lt hb'
  have h1 : ¬ (s._waitForData > 0 ∧ b < 128) := fun h => by omega
  have h2 : ¬ (s._waitForData < 0) := by omega
  unfold processData
  simp only [hmod, h1, h2, if_false]
  by_cases hlt : b < 0xF0
  · simp only [hlt, if_true]
    have hne1 : b &&& 0xF0 ≠ FIRMATA_REPORT_VERSION := by
      exact high_nibble_not_version b hb'
    have hne2 : b &&& 0xF0 ≠ FIRMATA_START_SYSEX := by
      exact high_nibble_not_sysex b hlt
    have hne3 : b ≠ FIRMATA_REPORT_VERSION := by unfold FIRMATA_REPORT_VERSION; omega
    have hne4 : b ≠ FIRMATA_START_SYSEX := by unfold FIRMATA_START_SYSEX; omega
    by_cases hc : b &&& 0xF0 = FIRMATA_DIGITAL_MESSAGE ∨ b &&& 0xF0 = FIRMATA_ANALOG_MESSAGE
    · have hc' : b &&& 0xF0 = FIRMATA_REPORT_VERSION ∨ b &&& 0xF0 = FIRMATA_DIGITAL_MESSAGE
          ∨ b &&& 0xF0 = FIRMATA_ANALOG_MESSAGE := Or.inr hc
      rw [if_pos hc']
      refine ⟨_, rfl, rfl, rfl, rfl, rfl, rfl, ?_, ?_, ?_, ?_⟩
      · intro _; exact ⟨rfl, rfl, rfl, rfl⟩
      · intro h; exact absurd h hne3
      · intro h; exact absurd h hne4
      · intro n1 n2; rcases hc with h | h
        · exact absurd h n1
        · exact absurd h n2
    · have hc' : ¬ (b &&& 0xF0 = FIRMATA_REPORT_VERSION ∨ b &&& 0xF0 = FIRMATA_DIGITAL_MESSAGE
          ∨ b &&& 0xF0 = FIRMATA_ANALOG_MESSAGE) := by
        rintro (h | h)
        · exact hne1 h
        · exact hc h
      rw [if_neg hc', if_neg hne2]
      refine ⟨_, rfl, rfl, rfl, rfl, rfl, rfl, ?_, ?_, ?_, ?_⟩
      · intro h; exact absurd h hc
      · intro h; exact absurd h hne3
      · intro h; exact absurd h hne4
      · intro _ _ _ _; exact ⟨rfl, rfl, rfl, rfl, rfl⟩
  · simp only [hlt, if_false]
    obtain ⟨k1, k2, k3, k4⟩ := system_byte_nibble b hb' (by omega)
    by_cases hv : b = FIRMATA_REPORT_VERSION
    · rw [if_pos (Or.inl hv)]
      refine ⟨_, rfl, rfl, rfl, rfl, rfl, rfl, ?_, ?_, ?_, ?_⟩
      · rintro (h | h)
        · exact absurd h k1
        · exact absurd h k2
      · intro _
        refine ⟨rfl, hv, ?_⟩
        rw [hv]
      · intro h; rw [hv] at h; exact absurd h (by decide)
      · intro _ _ n3; exact absurd hv n3
    · have hc' : ¬ (b = FIRMATA_REPORT_VERSION ∨ b = FIRMATA_DIGITAL_MESSAGE
          ∨ b = FIRMATA_ANALOG_MESSAGE) := by
        rintro (h | h | h)
        · exact hv h
        · exact k3 h
        · exact k4 h
      rw [if_neg hc']
      by_cases hs : b = FIRMATA_START_SYSEX
      · rw [if_pos hs]
        refine ⟨_, rfl, rfl, rfl, rfl, rfl, rfl, ?_, ?_, ?_, ?_⟩
        · rintro (h | h)
          · exact absurd h k1
          · exact absurd h k2
        · intro h; exact absurd h hv
        · intro _
          refine ⟨rfl, rfl, hs, ?_⟩
          rw [hs]
        · intro _ _ _ n4; exact absurd hs n4
      · rw [if_neg hs]
        refine ⟨_, rfl, rfl, rfl, rfl, rfl, rfl, ?_, ?_, ?_, ?_⟩
        · rintro (h | h)
          · exact absurd h k1
          · exact absurd h k2
        · intro h; exact absurd h hv
        · intro h; exact absurd h hs
        · intro _ _ _ _; exact ⟨rfl, rfl, rfl, rfl, rfl⟩

/-- C20 (amended) at concrete inputs: the bytes `0xFF` and `0xC3` while the
second data byte of an analog message for channel 0 is pending. -/
theorem C20_high_byte_while_pending_witness :
    (∃ s', processData pendingAnalog 0xFF = some (s', []) ∧ s' = pendingAnalog)
      ∧ (∃ s', processData pendingAnalog 0xC3 = some (s', [])
          ∧ s'._waitForData = 1 ∧ s'._executeMultiByteCommand = FIRMATA_ANALOG_MESSAGE
          ∧ s'._multiByteChannel = 3) := by
  obtain ⟨s1, hp1, _, _, _, _, _, _, _, _, hrest1⟩ :=
    C20_high_byte_while_pending pendingAnalog 0xFF (by decide) (by decide) (by decide)
  obtain ⟨s2, hp2, _, _, _, _, _, _, _, _, hrest2⟩ :=
    C20_high_byte_while_pending pendingAnalog 0xC3 (by decide) (by decide) (by decide)
  obtain ⟨_, _, _, _, e1⟩ := hrest1 (by decide) (by decide) (by decide) (by decide)
  obtain ⟨w2, x2, _, c2, _⟩ := hrest2 (by decide) (by decide) (by decide) (by decide)
  refine ⟨⟨s1, hp1, ?_⟩, ⟨s2, hp2, ?_, ?_, ?_⟩⟩
  · rw [e1]
    rfl
  · rw [w2]
    rfl
  · rw [x2]
    rfl
  · rw [c2]
    rfl

/-! ## Digital-port messages, pin by pin -/

/-- `feedEach` is `feed` on the concatenated messages with the events grouped
by message. -/
theorem feedEach_eq_feed (s : ofArduino) (ms : List (List Nat)) :
    feed s ms.flatten =
      match feedEach s ms with
      | none => none
      | some (s', es) => some (s', es.flatten) := by
  induction ms generalizing s with
  | nil => rfl
  | cons m rest ih =>
    rw [List.flatten_cons, feed_append]
    simp only [feedEach]
    cases feed s m with
    | none => rfl
    | some r =>
      obtain ⟨s1, e1⟩ := r
      simp only []
      rw [ih s1]
      cases feedEach s1 rest with
      | none => rfl
      | some r2 => rfl

/-- The events of one loop iteration concern the iteration's own pin only. -/
theorem digitalPinEvents_count_other (s : ofArduino) (port value i q : Nat)
    (hq : q ≠ i + port * 8) :
    (digitalPinEvents s port value i).count (Event.EDigitalPinChanged q) = 0 := by
  unfold digitalPinEvents
  have hne : ¬ (Event.EDigitalPinChanged (i + port * 8) = Event.EDigitalPinChanged q) :=
    fun h => hq (Event.EDigitalPinChanged.inj h).symm
  split
  · split
    · rw [List.count_cons, List.count_nil]
      simp [hne]
    · rfl
  · rfl

/-- An iteration for another bit changes neither the history nor the events of
the iteration for bit `i`. -/
theorem digitalPinAfter_other (s : ofArduino) (port value i j : Nat) (hij : i ≠ j) :
    digitalPinHistory (digitalPinAfter port value s j) port value i
        = digitalPinHistory s port value i
      ∧ digitalPinEvents (digitalPinAfter port value s j) port value i
        = digitalPinEvents s port value i := by
  have hne : ¬ (i + port * 8 = j + port * 8) := by omega
  constructor
  · simp only [digitalPinHistory, digitalPinAfter, setAt, hne, if_false]
  · simp only [digitalPinEvents, digitalPinAfter, setAt, hne, if_false]

/-- Among the events of the port loop, those for pin `i + port * 8` are the
events of the iteration for bit `i`. -/
theorem digitalPortEvents_count (port value : Nat) (is : List Nat) (hnd : is.Nodup) (i : Nat)
    (s : ofArduino) :
    (digitalPortEvents port value is s).count (Event.EDigitalPinChanged (i + port * 8))
      = if i ∈ is then
          (digitalPinEvents s port value i).count (Event.EDigitalPinChanged (i + port * 8))
        else 0 := by
  induction is generalizing s with
  | nil => rfl
  | cons j rest ih =>
    rw [List.nodup_cons] at hnd
    simp only [digitalPortEvents, List.count_append]
    rw [ih hnd.2]
    by_cases hij : i = j
    · subst hij
      simp [hnd.1]
    · have h1 := digitalPinEvents_count_other s port value j (i + port * 8) (by omega)
      rw [h1, (digitalPinAfter_other s port value i j hij).2]
      simp [hij]

/-- One digital-port message, seen from pin `i + p * 8` of its port. -/
theorem feed_digitalMessage_pin (s : ofArduino) (p : Nat) (m : Nat × Nat) (i : Nat)
    (hp : p < 16) (hm : m.1 < 128 ∧ m.2 < 128) (hi : i < 8) (hidle : s._waitForData = 0)
    (hlen : 1 ≤ s._digitalHistoryLength) :
    ∃ s1 ev, feed s (digitalMessage p m) = some (s1, ev)
      ∧ s1._waitForData = 0
      ∧ s1._digitalPinMode = s._digitalPinMode
      ∧ s1._digitalHistoryLength = s._digitalHistoryLength
      ∧ s1._digitalHistory (i + p * 8) = digitalPinHistory s p (portByte m) i
      ∧ ev.count (Event.EDigitalPinChanged (i + p * 8))
          = (digitalPinEvents s p (portByte m) i).count
              (Event.EDigitalPinChanged (i + p * 8)) := by
  have hfeed := feed_digital_message s p m.1 m.2 hp hm.1 hm.2 hidle hlen
  obtain ⟨h, hh⟩ := foldl_digitalPinAfter_frame p (portByte m) (List.range 8)
    (assembled s FIRMATA_DIGITAL_MESSAGE p m.1 m.2)
  have hhist := foldl_digitalPinAfter_mem p (portByte m) (List.range 8) (List.nodup_range 8)
    i (List.mem_range.mpr hi) (assembled s FIRMATA_DIGITAL_MESSAGE p m.1 m.2)
  have hcount := digitalPortEvents_count p (portByte m) (List.range 8) (List.nodup_range 8) i
    (assembled s FIRMATA_DIGITAL_MESSAGE p m.1 m.2)
  rw [if_pos (List.mem_range.mpr hi)] at hcount
  refine ⟨_, _, hfeed, ?_, ?_, ?_, hhist, hcount⟩
  · show (List.foldl (digitalPinAfter p (portByte m))
      (assembled s FIRMATA_DIGITAL_MESSAGE p m.1 m.2) (List.range 8))._waitForData = 0
    rw [hh]; rfl
  · show (List.foldl (digitalPinAfter p (portByte m))
      (assembled s FIRMATA_DIGITAL_MESSAGE p m.1 m.2) (List.range 8))._digitalPinMode
      = s._digitalPinMode
    rw [hh]; rfl
  · show (List.foldl (digitalPinAfter p (portByte m))
      (assembled s FIRMATA_DIGITAL_MESSAGE p m.1 m.2) (List.range 8))._digitalHistoryLength
      = s._digitalHistoryLength
    rw [hh]; rfl

theorem pushFront_headD {α : Type} (h : List α) (v d : α) (len : Int) (hlen : 1 ≤ len) :
    (pushFront h v len).headD d = v := by
  rw [pushFront_eq _ _ _ hlen]
  rfl

/-- The events for its own pin of the iteration for bit `i`, counted. -/
theorem digitalPinEvents_count_self (s : ofArduino) (port value i : Nat) :
    (digitalPinEvents s port value i).count (Event.EDigitalPinChanged (i + port * 8))
      = if (s._digitalPinMode (i + port * 8) = ARD_INPUT
            ∨ s._digitalPinMode (i + port * 8) = ARD_INPUT_PULLUP)
          ∧ portBit value i ≠ (s._digitalHistory (i + port * 8)).headD 0
        then 1 else 0 := by
  unfold digitalPinEvents
  by_cases hm : s._digitalPinMode (i + port * 8) = ARD_INPUT
      ∨ s._digitalPinMode (i + port * 8) = ARD_INPUT_PULLUP
  · by_cases hv : portBit value i ≠ (s._digitalHistory (i + port * 8)).headD 0
    · rw [if_pos hm, if_pos hv, if_pos ⟨hm, hv⟩, List.count_singleton_self]
    · rw [if_pos hm, if_neg hv, if_neg (fun h => hv h.2), List.count_nil]
  · rw [if_neg hm, if_neg (fun h => hm h.1), List.count_nil]

/-- A sequence of digital-port messages for port `p`, seen from a pin of the
port that is in an input mode. -/
theorem feedEach_digital_input (p i : Nat) (hp : p < 16) (hi : i < 8)
    (msgs : List (Nat × Nat)) (hmsgs : ∀ m ∈ msgs, m.1 < 128 ∧ m.2 < 128) (s : ofArduino)
    (hidle : s._waitForData = 0) (hlen : 1 ≤ s._digitalHistoryLength)
    (hmode : s._digitalPinMode (i + p * 8) = ARD_INPUT
      ∨ s._digitalPinMode (i + p * 8) = ARD_INPUT_PULLUP)
    (hb : ((s._digitalHistory (i + p * 8)).length : Int) ≤ s._digitalHistoryLength) :
    ∃ s' evs, feedEach s (msgs.map (digitalMessage p)) = some (s', evs)
      ∧ s'._digitalHistory (i + p * 8)
          = ((msgs.map (fun m => portBit (portByte m) i)).reverse
              ++ s._digitalHistory (i + p * 8)).take s._digitalHistoryLength.toNat
      ∧ evs.map (fun e => e.count (Event.EDigitalPinChanged (i + p * 8)))
          = (changes ((s._digitalHistory (i + p * 8)).headD 0)
              (msgs.map (fun m => portBit (portByte m) i))).map
                (fun c => if c = true then 1 else 0) := by
  induction msgs generalizing s with
  | nil =>
    refine ⟨s, [], rfl, ?_, rfl⟩
    rw [List.take_of_length_le]
    · rfl
    · simp only [List.map_nil, List.reverse_nil, List.nil_append]
      omega
  | cons m rest ih =>
    obtain ⟨s1, ev, hf, hw, hmd, hl, hh, hc⟩ := feed_digitalMessage_pin s p m i hp
      (hmsgs m (List.mem_cons_self _ _)) hi hidle hlen
    have hh' : s1._digitalHistory (i + p * 8)
        = pushFront (s._digitalHistory (i + p * 8)) (portBit (portByte m) i)
            s._digitalHistoryLength := by
      rw [hh]
      unfold digitalPinHistory
      rw [if_pos hmode]
    obtain ⟨s', evs, hf', hhist, hevs⟩ := ih (fun x hx => hmsgs x (List.mem_cons_of_mem _ hx))
      s1 hw (by rw [hl]; exact hlen) (by rw [hmd]; exact hmode)
      (by rw [hl, hh']; exact pushFront_length_le _ _ _ hb)
    refine ⟨s', ev :: evs, ?_, ?_, ?_⟩
    · simp only [List.map_cons, feedEach, hf, hf']
    · rw [hhist, hl, hh', pushFront_eq_take _ _ _ hb, take_append_take]
      simp
    · simp only [List.map_cons, changes]
      rw [hevs, hh', pushFront_headD _ _ _ _ hlen, hc, digitalPinEvents_count_self]
      congr 1
      by_cases hv : portBit (portByte m) i ≠ (s._digitalHistory (i + p * 8)).headD 0
      · rw [if_pos ⟨hmode, hv⟩, if_pos (decide_eq_true hv)]
      · rw [if_neg (fun h => hv h.2), if_neg (fun h => hv (of_decide_eq_true h))]

/-- A sequence of digital-port messages for port `p`, seen from a pin of the
port that is not in an input mode. -/
theorem feedEach_digital_other (p i : Nat) (hp : p < 16) (hi : i < 8)
    (msgs : List (Nat × Nat)) (hmsgs : ∀ m ∈ msgs, m.1 < 128 ∧ m.2 < 128) (s : ofArduino)
    (hidle : s._waitForData = 0) (hlen : 1 ≤ s._digitalHistoryLength)
    (hmode : ¬ (s._digitalPinMode (i + p * 8) = ARD_INPUT
      ∨ s._digitalPinMode (i + p * 8) = ARD_INPUT_PULLUP)) :
    ∃ s' evs, feedEach s (msgs.map (digitalMessage p)) = some (s', evs)
      ∧ s'._digitalHistory (i + p * 8) = s._digitalHistory (i + p * 8)
      ∧ ∀ e ∈ evs, e.count (Event.EDigitalPinChanged (i + p * 8)) = 0 := by
  induction msgs generalizing s with
  | nil => exact ⟨s, [], rfl, rfl, fun e he => by cases he⟩
  | cons m rest ih =>
    obtain ⟨s1, ev, hf, hw, hmd, hl, hh, hc⟩ := feed_digitalMessage_pin s p m i hp
      (hmsgs m (List.mem_cons_self _ _)) hi hidle hlen
    have hh' : s1._digitalHistory (i + p * 8) = s._digitalHistory (i + p * 8) := by
      rw [hh]
      unfold digitalPinHistory
      rw [if_neg hmode]
    have hc' : ev.count (Event.EDigitalPinChanged (i + p * 8)) = 0 := by
      rw [hc, digitalPinEvents_count_self]
      rw [if_neg (fun h => hmode h.1)]
    obtain ⟨s', evs, hf', hhist, hevs⟩ := ih (fun x hx => hmsgs x (List.mem_cons_of_mem _ hx))
      s1 hw (by rw [hl]; exact hlen) (by rw [hmd]; exact hmode)
    refine ⟨s', ev :: evs, ?_, ?_, ?_⟩
    · simp only [List.map_cons, feedEach, hf, hf']
    · rw [hhist, hh']
    · intro e he
      rcases List.mem_cons.mp he with h | h
      · rw [h]; exact hc'
      · exact hevs e h

/-! ## C14 -/

/-- C14: with digital retention length `L` (at least one), for a pin
`i + p * 8` in input or input-pullup mode whose history starts empty, feeding
`k` digital-port messages for port `p` from the idle state leaves the pin's
history equal to the last `min(k, L)` received values of the pin's bit, newest
first; the events of each message contain exactly one digital-pin-changed
event for the pin when its bit differs from the bit of the preceding message
(from 0 for the first message) and none otherwise; every pin of the port in
another mode keeps its history and gets no event. -/
theorem C14_digital_port_decoding (s : ofArduino) (p i : Nat) (msgs : List (Nat × Nat))
    (hp : p < 16) (hi : i < 8) (hmsgs : ∀ m ∈ msgs, m.1 < 128 ∧ m.2 < 128)
    (hidle : s._waitForData = 0) (hlen : 1 ≤ s._digitalHistoryLength)
    (hmode : s._digitalPinMode (i + p * 8) = ARD_INPUT
      ∨ s._digitalPinMode (i + p * 8) = ARD_INPUT_PULLUP)
    (hempty : s._digitalHistory (i + p * 8) = []) :
    ∃ s' evs, feedEach s (msgs.map (digitalMessage p)) = some (s', evs)
      ∧ s'._digitalHistory (i + p * 8)
          = ((msgs.map (fun m => portBit (portByte m) i)).reverse).take
              s._digitalHistoryLength.toNat
      ∧ (s'._digitalHistory (i + p * 8)).length = min msgs.length s._digitalHistoryLength.toNat
      ∧ (∀ m : Nat × Nat,
          portBit (portByte m) i = if (portByte m).testBit i then 1 else 0)
      ∧ evs.map (fun e => e.count (Event.EDigitalPinChanged (i + p * 8)))
          = (changes 0 (msgs.map (fun m => portBit (portByte m) i))).map
              (fun c => if c = true then 1 else 0)
      ∧ (∀ j, j < 8 →
          ¬ (s._digitalPinMode (j + p * 8) = ARD_INPUT
              ∨ s._digitalPinMode (j + p * 8) = ARD_INPUT_PULLUP) →
          s'._digitalHistory (j + p * 8) = s._digitalHistory (j + p * 8)
            ∧ ∀ e ∈ evs, e.count (Event.EDigitalPinChanged (j + p * 8)) = 0) := by
  obtain ⟨s', evs, hf, hh, hev⟩ := feedEach_digital_input p i hp hi msgs hmsgs s hidle hlen
    hmode (by rw [hempty]; simp only [List.length_nil]; omega)
  rw [hempty, List.append_nil] at hh
  rw [hempty] at hev
  refine ⟨s', evs, hf, hh, ?_, ?_, hev, ?_⟩
  · rw [hh, List.length_take, List.length_reverse, List.length_map, Nat.min_comm]
  · intro m
    have hx := byte_bit_extract i hi (portByte m) (Nat.mod_lt _ (by decide))
    unfold portBit
    rw [hx]
    split <;> rfl
  · intro j hj hmj
    obtain ⟨s2, evs2, hf2, hh2, hev2⟩ := feedEach_digital_other p j hp hj msgs hmsgs s hidle
      hlen hmj
    rw [hf] at hf2
    obtain ⟨rfl, rfl⟩ := Prod.mk.inj (Option.some.inj hf2)
    exact ⟨hh2, hev2⟩

/-- C14 at the claim's concrete input: retention length 2, pin 0 of port 0 in
input mode, bit 0 = 1, 0, 1: the history is `[1, 0]` and each of the three
messages publishes one event for the pin. -/
theorem C14_digital_port_decoding_witness :
    ∃ s' evs, feedEach inputPins ([(1, 0), (0, 0), (1, 0)].map (digitalMessage 0))
        = some (s', evs)
      ∧ s'._digitalHistory 0 = [1, 0]
      ∧ evs.map (fun e => e.count (Event.EDigitalPinChanged 0)) = [1, 1, 1] := by
  obtain ⟨s', evs, hf, hh, _, _, hev, _⟩ := C14_digital_port_decoding inputPins 0 0
    [(1, 0), (0, 0), (1, 0)] (by decide) (by decide) (by decide) rfl (by decide) (by decide)
    rfl
  refine ⟨s', evs, hf, ?_, ?_⟩
  · rw [show (0 : Nat) = 0 + 0 * 8 from rfl, hh]
    decide
  · rw [show (0 : Nat) = 0 + 0 * 8 from rfl, hev]
    decide

/-! ## C24 -/

/-- C24: from the idle state (pending count 0) every byte is handled without
an event and without a change to a history or to the stored data bytes; a
byte whose high nibble is the digital-port or analog-channel command sets the
pending count to 2 and remembers the command and the channel `b & 0x0F`; the
protocol-version byte sets the pending count to 2 and remembers the command;
`START_SYSEX` clears the accumulation buffer and enters AwaitingSysEx (pending
count -1); every other byte leaves the pending count at 0 and the remembered
command and the accumulation buffer unchanged. -/
theorem C24_idle_classification (s : ofArduino) (b : Nat) (hidle : s._waitForData = 0)
    (hb' : b < 256) :
    ∃ s', processData s b = some (s', [])
      ∧ s'._analogHistory = s._analogHistory
      ∧ s'._digitalHistory = s._digitalHistory
      ∧ s'._stringHistory = s._stringHistory
      ∧ s'._sysExHistory = s._sysExHistory
      ∧ s'._storedInputData = s._storedInputData
      ∧ ((b &&& 0xF0 = FIRMATA_DIGITAL_MESSAGE ∨ b &&& 0xF0 = FIRMATA_ANALOG_MESSAGE) →
          s'._waitForData = 2 ∧ s'._executeMultiByteCommand = b &&& 0xF0
            ∧ s'._multiByteChannel = b &&& 0x0F)
      ∧ (b = FIRMATA_REPORT_VERSION →
          s'._waitForData = 2 ∧ s'._executeMultiByteCommand = FIRMATA_REPORT_VERSION)
      ∧ (b = FIRMATA_START_SYSEX →
          s'._waitForData = -1 ∧ s'._sysExData = []
            ∧ s'._executeMultiByteCommand = FIRMATA_START_SYSEX)
      ∧ (b &&& 0xF0 ≠ FIRMATA_DIGITAL_MESSAGE → b &&& 0xF0 ≠ FIRMATA_ANALOG_MESSAGE →
          b ≠ FIRMATA_REPORT_VERSION → b ≠ FIRMATA_START_SYSEX →
          s'._waitForData = 0
            ∧ s'._executeMultiByteCommand = s._executeMultiByteCommand
            ∧ s'._sysExData = s._sysExData) := by
  have hmod : b % 256 = b := Nat.mod_eq_of_lt hb'
  have h1 : ¬ (s._waitForData > 0 ∧ b < 128) := fun h => by omega
  have h2 : ¬ (s._waitForData < 0) := by omega
  unfold processData
  simp only [hmod, h1, h2, if_false]
  by_cases hlt : b < 0xF0
  · simp only [hlt, if_true]
    have hne1 : b &&& 0xF0 ≠ FIRMATA_REPORT_VERSION := by
      exact high_nibble_not_version b hb'
    have hne2 : b &&& 0xF0 ≠ FIRMATA_START_SYSEX := by
      exact high_nibble_not_sysex b hlt
    have hne3 : b ≠ FIRMATA_REPORT_VERSION := by unfold FIRMATA_REPORT_VERSION; omega
    have hne4 : b ≠ FIRMATA_START_SYSEX := by unfold FIRMATA_START_SYSEX; omega
    by_cases hc : b &&& 0xF0 = FIRMATA_DIGITAL_MESSAGE ∨ b &&& 0xF0 = FIRMATA_ANALOG_MESSAGE
    · have hc' : b &&& 0xF0 = FIRMATA_REPORT_VERSION ∨ b &&& 0xF0 = FIRMATA_DIGITAL_MESSAGE
          ∨ b &&& 0xF0 = FIRMATA_ANALOG_MESSAGE := Or.inr hc
      rw [if_pos hc']
      refine ⟨_, rfl, rfl, rfl, rfl, rfl, rfl, ?_, ?_, ?_, ?_⟩
      · intro _; exact ⟨rfl, rfl, rfl⟩
      · intro h; exact absurd h hne3
      · intro h; exact absurd h hne4
      · intro n1 n2; rcases hc with h | h
        · exact absurd h n1
        · exact absurd h n2
    · have hc' : ¬ (b &&& 0xF0 = FIRMATA_REPORT_VERSION ∨ b &&& 0xF0 = FIRMATA_DIGITAL_MESSAGE
          ∨ b &&& 0xF0 = FIRMATA_ANALOG_MESSAGE) := by
        rintro (h | h)
        · exact hne1 h
        · exact hc h
      rw [if_neg hc', if_neg hne2]
      refine ⟨_, rfl, rfl, rfl, rfl, rfl, rfl, ?_, ?_, ?_, ?_⟩
      · intro h; exact absurd h hc
      · intro h; exact absurd h hne3
      · intro h; exact absurd h hne4
      · intro _ _ _ _; exact ⟨hidle, rfl, rfl⟩
  · simp only [hlt, if_false]
    obtain ⟨k1, k2, k3, k4⟩ := system_byte_nibble b hb' (by omega)
    by_cases hv : b = FIRMATA_REPORT_VERSION
    · rw [if_pos (Or.inl hv)]
      refine ⟨_, rfl, rfl, rfl, rfl, rfl, rfl, ?_, ?_, ?_, ?_⟩
      · rintro (h | h)
        · exact absurd h k1
        · exact absurd h k2
      · intro _; exact ⟨rfl, hv⟩
      · intro h; rw [hv] at h; exact absurd h (by decide)
      · intro _ _ n3; exact absurd hv n3
    · have hc' : ¬ (b = FIRMATA_REPORT_VERSION ∨ b = FIRMATA_DIGITAL_MESSAGE
          ∨ b = FIRMATA_ANALOG_MESSAGE) := by
        rintro (h | h | h)
        · exact hv h
        · exact k3 h
        · exact k4 h
      rw [if_neg hc']
      by_cases hs : b = FIRMATA_START_SYSEX
      · rw [if_pos hs]
        refine ⟨_, rfl, rfl, rfl, rfl, rfl, rfl, ?_, ?_, ?_, ?_⟩
        · rintro (h | h)
          · exact absurd h k1
          · exact absurd h k2
        · intro h; exact absurd h hv
        · intro _; exact ⟨rfl, rfl, hs⟩
        · intro _ _ _ n4; exact absurd hs n4
      · rw [if_neg hs]
        refine ⟨_, rfl, rfl, rfl, rfl, rfl, rfl, ?_, ?_, ?_, ?_⟩
        · rintro (h | h)
          · exact absurd h k1
          · exact absurd h k2
        · intro h; exact absurd h hv
        · intro h; exact absurd h hs
        · intro _ _ _ _; exact ⟨hidle, rfl, rfl⟩

/-- C24 at concrete bytes on a fresh engine: `0x93` (digital port 3), `0xF9`,
`0xF0` and the stray byte `0xC5`. -/
theorem C24_idle_classification_witness :
    (∃ s', processData fresh 0x93 = some (s', []) ∧ s'._waitForData = 2
        ∧ s'._executeMultiByteCommand = 0x90 ∧ s'._multiByteChannel = 3)
    ∧ (∃ s', processData fresh 0xF9 = some (s', []) ∧ s'._waitForData = 2)
    ∧ (∃ s', processData fresh 0xF0 = some (s', []) ∧ s'._waitForData = -1
        ∧ s'._sysExData = [])
    ∧ (∃ s', processData fresh 0xC5 = some (s', []) ∧ s'._waitForData = 0
        ∧ s'._executeMultiByteCommand = fresh._executeMultiByteCommand) := by
  refine ⟨?_, ?_, ?_, ?_⟩
  · obtain ⟨s', hp, _, _, _, _, _, h, _⟩ := C24_idle_classification fresh 0x93 rfl (by decide)
    obtain ⟨a, b, c⟩ := h (Or.inl (by decide))
    exact ⟨s', hp, a, b, c⟩
  · obtain ⟨s', hp, _, _, _, _, _, _, h, _⟩ := C24_idle_classification fresh 0xF9 rfl (by decide)
    exact ⟨s', hp, (h rfl).1⟩
  · obtain ⟨s', hp, _, _, _, _, _, _, _, h, _⟩ :=
      C24_idle_classification fresh 0xF0 rfl (by decide)
    exact ⟨s', hp, (h rfl).1, (h rfl).2.1⟩
  · obtain ⟨s', hp, _, _, _, _, _, _, _, _, h⟩ :=
      C24_idle_classification fresh 0xC5 rfl (by decide)
    obtain ⟨a, b, _⟩ := h (by decide) (by decide) (by decide) (by decide)
    exact ⟨s', hp, a, b⟩

/-! ## C25 -/

/-- What `sendPwm` does to the state of a pin in PWM mode. -/
theorem sendPwm_pwm_state (s : ofArduino) (pin : Nat) (value : Int) (force : Bool)
    (hmode : s._digitalPinMode pin = ARD_PWM) :
    (sendPwm s pin value force).1
      = if s._digitalPinValue pin ≠ value ∨ force = true
          then { s with _digitalPinValue := setAt s._digitalPinValue pin value } else s := by
  have hns : ¬ (s._digitalPinMode pin = ARD_SERVO) := by rw [hmode]; decide
  unfold sendPwm
  by_cases hg : s._digitalPinValue pin ≠ value ∨ force = true
  · rw [if_pos ⟨hmode, hg⟩, if_pos hg]
  · rw [if_neg (fun h => hg h.2), if_neg (fun h => hns h.1), if_neg hg]

/-- What `sendPwm` and `sendServo` do to the state of a pin in servo mode. -/
theorem servo_writes_state (s : ofArduino) (pin : Nat) (value : Int) (force : Bool)
    (hmode : s._digitalPinMode pin = ARD_SERVO) :
    (sendPwm s pin value force).1
        = (if s._servoValue pin ≠ value ∨ force = true
            then { s with _servoValue := setAt s._servoValue pin value } else s)
      ∧ (sendServo s pin value force).1
        = (if s._servoValue pin ≠ value ∨ force = true
            then { s with _servoValue := setAt s._servoValue pin value } else s) := by
  have hnp : ¬ (s._digitalPinMode pin = ARD_PWM) := by rw [hmode]; decide
  constructor
  · unfold sendPwm
    by_cases hg : s._servoValue pin ≠ value ∨ force = true
    · rw [if_neg (fun h => hnp h.1), if_pos ⟨hmode, hg⟩, if_pos hg]
    · rw [if_neg (fun h => hnp h.1), if_neg (fun h => hg h.2), if_neg hg]
  · unfold sendServo
    by_cases hg : s._servoValue pin ≠ value ∨ force = true
    · rw [if_pos ⟨hmode, hg⟩, if_pos hg]
    · rw [if_neg (fun h => hg h.2), if_neg hg]

/-- C25: for every state, pin and value, `sendPwm` on a pin in PWM mode
changes at most that pin's PWM/digital value slot (to `value` when the value
differs or the write is forced) and leaves every servo value and every pin
mode unchanged; `sendServo` and `sendPwm` on a pin in servo mode change at most
that pin's servo value slot and leave every PWM/digital value and every pin
mode unchanged. -/
theorem C25_separate_value_slots (s : ofArduino) (pin : Nat) (value : Int) (force : Bool) :
    (s._digitalPinMode pin = ARD_PWM →
        (∃ dv, (sendPwm s pin value force).1 = { s with _digitalPinValue := dv })
          ∧ (sendPwm s pin value force).1._servoValue = s._servoValue
          ∧ (sendPwm s pin value force).1._digitalPinMode = s._digitalPinMode
          ∧ (∀ q, q ≠ pin →
              (sendPwm s pin value force).1._digitalPinValue q = s._digitalPinValue q)
          ∧ (s._digitalPinValue pin ≠ value ∨ force = true →
              (sendPwm s pin value force).1._digitalPinValue pin = value))
    ∧ (s._digitalPinMode pin = ARD_SERVO →
        ((∃ sv, (sendServo s pin value force).1 = { s with _servoValue := sv })
          ∧ (sendServo s pin value force).1._digitalPinValue = s._digitalPinValue
          ∧ (sendServo s pin value force).1._digitalPinMode = s._digitalPinMode
          ∧ (∀ q, q ≠ pin → (sendServo s pin value force).1._servoValue q = s._servoValue q)
          ∧ (s._servoValue pin ≠ value ∨ force = true →
              (sendServo s pin value force).1._servoValue pin = value))
        ∧ (sendPwm s pin value force).1 = (sendServo s pin value force).1) := by
  constructor
  · intro hmode
    rw [sendPwm_pwm_state s pin value force hmode]
    by_cases hg : s._digitalPinValue pin ≠ value ∨ force = true
    · rw [if_pos hg]
      refine ⟨⟨_, rfl⟩, rfl, rfl, ?_, ?_⟩
      · intro q hq
        simp only [setAt, hq, if_false]
      · intro _
        simp only [setAt, if_true]
    · rw [if_neg hg]
      exact ⟨⟨_, rfl⟩, rfl, rfl, fun _ _ => rfl, fun h => absurd h hg⟩
  · intro hmode
    obtain ⟨e1, e2⟩ := servo_writes_state s pin value force hmode
    rw [e1, e2]
    refine ⟨?_, rfl⟩
    by_cases hg : s._servoValue pin ≠ value ∨ force = true
    · rw [if_pos hg]
      refine ⟨⟨_, rfl⟩, rfl, rfl, ?_, ?_⟩
      · intro q hq
        simp only [setAt, hq, if_false]
      · intro _
        simp only [setAt, if_true]
    · rw [if_neg hg]
      exact ⟨⟨_, rfl⟩, rfl, rfl, fun _ _ => rfl, fun h => absurd h hg⟩

/-- C25 at concrete inputs: value 200 written to pin 9 in PWM mode and to pin 9
in servo mode. -/
theorem C25_separate_value_slots_witness :
    ((sendPwm pwmPins 9 200 false).1._servoValue = pwmPins._servoValue
        ∧ (sendPwm pwmPins 9 200 false).1._digitalPinValue 9 = 200)
    ∧ ((sendServo servoPins 9 200 false).1._digitalPinValue = servoPins._digitalPinValue
        ∧ (sendServo servoPins 9 200 false).1._servoValue 9 = 200) := by
  obtain ⟨_, h1, _, _, h2⟩ := (C25_separate_value_slots pwmPins 9 200 false).1 (by decide)
  obtain ⟨⟨_, h3, _, _, h4⟩, _⟩ := (C25_separate_value_slots servoPins 9 200 false).2 (by decide)
  exact ⟨⟨h1, h2 (Or.inl (by decide))⟩, ⟨h3, h4 (Or.inl (by decide))⟩⟩

/-! ## C21 -/

/-- C21 (the code at failing inputs): fed to a fresh engine, the empty SysEx
`[F0, F7]`, a firmware report without version bytes, a firmware report with an
odd number of name bytes, an I2C reply and a stepper message without
identifier each make the decoder read outside the accumulated payload
(`front()` of the empty vector, or an iterator equal to `end()`): there is no
defined result. The string decoder, whose second read is guarded, accepts an
odd number of bytes. -/
theorem C21_reads_outside_payload :
    (feed fresh [0xF0, 0xF7]).isNone = true
      ∧ (feed fresh [0xF0, 0x79, 0xF7]).isNone = true
      ∧ (feed fresh [0xF0, 0x79, 2, 4, 65, 0xF7]).isNone = true
      ∧ (feed fresh [0xF0, 0x77, 0x20, 0, 0x10, 0, 0x34, 0x01, 0xF7]).isNone = true
      ∧ (feed fresh [0xF0, 0x72, 0xF7]).isNone = true
      ∧ (feed fresh [0xF0, 0x71, 65, 0xF7]).map (fun r => r.2)
          = some [Event.EStringReceived [65]] := by
  decide

/-! ## C22 -/

/-- The pin-mode change writes neither a pin value nor a port aggregate. -/
theorem sendDigitalPinMode_values (s : ofArduino) (pin : Nat) (mode : Int) :
    (sendDigitalPinMode s pin mode).1._digitalPinValue = s._digitalPinValue
      ∧ (sendDigitalPinMode s pin mode).1._digitalPortValue = s._digitalPortValue
      ∧ (sendDigitalPinMode s pin mode).1._servoValue = s._servoValue := by
  unfold sendDigitalPinMode sendDigitalPinReporting sendDigitalPortReporting
  simp only []
  repeat' split
  all_goals exact ⟨rfl, rfl, rfl⟩

/-- A digital write leaves the other bits of the port aggregate as they are. -/
theorem portValueAfter_testBit_other (s : ofArduino) (pin : Nat) (value : Int) (j : Nat)
    (hj : j < 8) (hne : j ≠ pin &&& 0x07) :
    (bits32 (portValueAfter s pin value)).testBit j
      = (bits32 (s._digitalPortValue ((pin >>> 3) &&& 0x0F))).testBit j := by
  have hi : pin &&& 0x07 < 8 := by
    have h : pin &&& 0x07 = pin % 8 := Nat.and_pow_two_sub_one_eq_mod _ 3
    omega
  have h32 : (4294967296 : Nat) = 2 ^ 32 := by norm_num
  have hA : ∀ i, i < 8 → ∀ k, k < 8 → k ≠ i → Nat.testBit (1 <<< i) k = false := by decide
  have hB : ∀ i, i < 8 → ∀ k, k < 8 → k ≠ i →
      Nat.testBit (4294967295 ^^^ (1 <<< i)) k = true := by decide
  have hj32 : decide (j < 32) = true := by simpa using (by omega : j < 32)
  unfold portValueAfter
  simp only []
  generalize pin &&& 0x07 = i at hi hne ⊢
  generalize s._digitalPortValue ((pin >>> 3) &&& 0x0F) = pv0
  by_cases h1 : value = 1
  · subst h1
    rw [if_neg (by decide), if_pos rfl, bits32_sint32, h32, Nat.testBit_mod_two_pow,
      Nat.testBit_or, hA i hi j hj hne, hj32]
    simp
  · rw [if_neg h1]
    by_cases h0 : value = 0
    · rw [if_pos h0, bits32_sint32, h32, Nat.testBit_mod_two_pow, Nat.testBit_and,
        hB i hi j hj hne, hj32]
      simp
    · rw [if_neg h0]

/-- Two different pins below 128 differ in their port or in their bit. -/
theorem pin_port_or_bit : ∀ p, p < 128 → ∀ q, q < 128 → p ≠ q →
    (p >>> 3) &&& 0x0F ≠ (q >>> 3) &&& 0x0F ∨ p &&& 0x07 ≠ q &&& 0x07 := by
  intro p hp q hq hpq
  obtain ⟨_, _, e1⟩ := pin_split p hp
  obtain ⟨_, _, e2⟩ := pin_split q hq
  by_contra hcon
  rw [not_or, not_not, not_not] at hcon
  rw [hcon.1, hcon.2] at e1
  omega

/-- The invariant behind C22. -/
theorem portReach_invariant (ports pins : Nat) (s : ofArduino) (h : PortReach ports pins s) :
    pins ≤ 128 ∧ ∀ pin, pin < pins → (portBitOf s pin = true ↔ s._digitalPinValue pin = 1) := by
  induction h with
  | init raw channels h128 hports =>
    refine ⟨h128, ?_⟩
    intro pin hpin
    obtain ⟨_, _, e⟩ := pin_split pin (by omega)
    have hport : (pin >>> 3) &&& 0x0F < ports := by omega
    have hv : (construct raw ports pins channels).1._digitalPinValue pin = -1 := by
      simp only [construct]
      split
      · rfl
      · rfl
    have hp : (construct raw ports pins channels).1._digitalPortValue ((pin >>> 3) &&& 0x0F)
        = 0 := by
      simp only [construct]
      rw [if_pos hport]
    unfold portBitOf
    rw [hv, hp]
    constructor
    · intro hb
      have : bits32 0 = 0 := by decide
      rw [this, Nat.zero_testBit] at hb
      cases hb
    · intro hb
      exact absurd hb (by decide)
  | digitalWrite s q value force _ hq hv ih =>
    obtain ⟨h128, ih⟩ := ih
    refine ⟨h128, ?_⟩
    intro pin hpin
    by_cases hg : (s._digitalPinMode q = ARD_INPUT ∨ s._digitalPinMode q = ARD_INPUT_PULLUP
        ∨ s._digitalPinMode q = ARD_OUTPUT) ∧ (s._digitalPinValue q ≠ value ∨ force = true)
    · rw [sendDigital_of_guard s q value force hg.1 hg.2]
      by_cases hpq : pin = q
      · subst hpq
        unfold portBitOf
        simp only [setAt, if_true]
        rw [portValueAfter_testBit s pin value hv]
        simp
      · unfold portBitOf
        simp only [setAt, hpq, if_false]
        by_cases hport : (pin >>> 3) &&& 0x0F = (q >>> 3) &&& 0x0F
        · have hbit : pin &&& 0x07 ≠ q &&& 0x07 := by
            rcases pin_port_or_bit pin (by omega) q (by omega) hpq with h | h
            · exact absurd hport h
            · exact h
          have hlt : pin &&& 0x07 < 8 := (pin_split pin (by omega)).2.1
          rw [if_pos hport, portValueAfter_testBit_other s q value _ hlt hbit, ← hport]
          exact ih pin hpin
        · rw [if_neg hport]
          exact ih pin hpin
    · rw [sendDigital_of_not_guard s q value force hg]
      exact ih pin hpin
  | pwm s q value force _ hmode ih =>
    obtain ⟨h128, ih⟩ := ih
    refine ⟨h128, ?_⟩
    intro pin hpin
    have hst : portBitOf (sendPwm s q value force).1 pin = portBitOf s pin
        ∧ (sendPwm s q value force).1._digitalPinValue = s._digitalPinValue := by
      unfold sendPwm
      rw [if_neg (fun h => hmode h.1)]
      split <;> exact ⟨rfl, rfl⟩
    rw [hst.1, hst.2]
    exact ih pin hpin
  | servo s q value force _ ih =>
    obtain ⟨h128, ih⟩ := ih
    refine ⟨h128, ?_⟩
    intro pin hpin
    have hst : portBitOf (sendServo s q value force).1 pin = portBitOf s pin
        ∧ (sendServo s q value force).1._digitalPinValue = s._digitalPinValue := by
      unfold sendServo
      split <;> exact ⟨rfl, rfl⟩
    rw [hst.1, hst.2]
    exact ih pin hpin
  | pinMode s q mode _ ih =>
    obtain ⟨h128, ih⟩ := ih
    refine ⟨h128, ?_⟩
    intro pin hpin
    obtain ⟨e1, e2, _⟩ := sendDigitalPinMode_values s q mode
    unfold portBitOf
    rw [e1, e2]
    exact ih pin hpin
  | servoAttach s q lo hi angle _ ih => exact ih
  | servoDetach s q _ ih => exact ih

/-- C22 (counterexample): the port bit and the stored pin value disagree after
listed operations.  After construction, `sendDigitalPinMode(20, ARD_PWM)`,
`sendPwm(20, 1)` and `sendDigitalPinMode(20, ARD_OUTPUT)`, pin 20 is in output
mode with stored value 1 while bit 4 of port 2 is 0; after construction,
`sendDigital(20, 1)` and `sendDigital(20, 2)`, pin 20 is in output mode with
stored value 2 while bit 4 of port 2 is 1. -/
theorem C22_port_bit_counterexample :
    (pwmThenOutput._digitalPinMode 20 = ARD_OUTPUT
      ∧ pwmThenOutput._digitalPinValue 20 = 1
      ∧ portBitOf pwmThenOutput 20 = false)
    ∧ (writtenTwo._digitalPinMode 20 = ARD_OUTPUT
      ∧ writtenTwo._digitalPinValue 20 = 2
      ∧ portBitOf writtenTwo 20 = true) := by
  decide

/-- C22 (amended): in every state reachable from the constructor (pin table of
at most 128 entries whose ports lie in the port table) by `sendDigital` calls
with value 0 or 1 on pins of the table, `sendPwm` calls on pins that are not in
PWM mode, and `sendServo`, `sendDigitalPinMode`, `sendServoAttach` and
`sendServoDetach` calls, for every pin of the table bit `pin & 7` of its port's
aggregate value is 1 exactly when the pin's stored value is 1. -/
theorem C22_port_bit_matches_value (ports pins : Nat) (s : ofArduino)
    (h : PortReach ports pins s) (pin : Nat) (hpin : pin < pins) :
    portBitOf s pin = true ↔ s._digitalPinValue pin = 1 :=
  (portReach_invariant ports pins s h).2 pin hpin

/-- C22 (witness): the amended claim at the state after construction,
`sendDigital(20, 1)`, a mode change of pin 21 and `sendDigital(21, 0)`, read at
pin 20. -/
theorem C22_port_bit_matches_value_witness :
    PortReach 16 128
        (sendDigital (sendDigitalPinMode (sendDigital fresh 20 1 false).1 21 ARD_INPUT).1
          21 0 false).1
      ∧ (portBitOf (sendDigital (sendDigitalPinMode (sendDigital fresh 20 1 false).1 21
            ARD_INPUT).1 21 0 false).1 20 = true
          ↔ (sendDigital (sendDigitalPinMode (sendDigital fresh 20 1 false).1 21
            ARD_INPUT).1 21 0 false).1._digitalPinValue 20 = 1) :=
  have hr : PortReach 16 128
      (sendDigital (sendDigitalPinMode (sendDigital fresh 20 1 false).1 21 ARD_INPUT).1
        21 0 false).1 :=
    PortReach.digitalWrite _ 21 0 false
      (PortReach.pinMode _ 21 ARD_INPUT
        (PortReach.digitalWrite _ 20 1 false
          (PortReach.init zeroed 16 (by decide) (by decide)) (by decide) (Or.inr rfl)))
      (by decide) (Or.inl rfl)
  ⟨hr, C22_port_bit_matches_value 16 128 _ hr 20 (by decide)⟩

/-! ## C23 -/

/-- The state and the bytes of a mode change, field by field. -/
theorem sendDigitalPinMode_eq (s : ofArduino) (pin : Nat) (mode : Int) :
    sendDigitalPinMode s pin mode =
      if mode = ARD_INPUT ∨ mode = ARD_INPUT_PULLUP then
        ({ s with
            _digitalPinMode := setAt s._digitalPinMode pin mode
            _digitalPinReporting := setAt s._digitalPinReporting pin ARD_ON
            _digitalPortReporting := setAt s._digitalPortReporting (pin >>> 3) ARD_ON },
         sendByte FIRMATA_SET_PIN_MODE ++ sendByte pin ++ sendInt mode
           ++ reportDigitalFrame (pin >>> 3) ARD_ON)
      else if ∀ i, i < 8 →
          setAt s._digitalPinReporting pin ARD_OFF ((pin >>> 3) * 8 + i) ≠ ARD_ON then
        ({ s with
            _digitalPinMode := setAt s._digitalPinMode pin mode
            _digitalPinReporting := setAt s._digitalPinReporting pin ARD_OFF
            _digitalPortReporting := setAt s._digitalPortReporting (pin >>> 3) ARD_OFF },
         sendByte FIRMATA_SET_PIN_MODE ++ sendByte pin ++ sendInt mode
           ++ reportDigitalFrame (pin >>> 3) ARD_OFF)
      else
        ({ s with
            _digitalPinMode := setAt s._digitalPinMode pin mode
            _digitalPinReporting := setAt s._digitalPinReporting pin ARD_OFF },
         sendByte FIRMATA_SET_PIN_MODE ++ sendByte pin ++ sendInt mode ++ []) := by
  have hne : ¬ (ARD_OFF = ARD_ON) := by decide
  unfold sendDigitalPinMode sendDigitalPinReporting sendDigitalPortReporting reportDigitalFrame
  simp only []
  by_cases hin : mode = ARD_INPUT ∨ mode = ARD_INPUT_PULLUP
  · rw [if_pos hin, if_pos hin, if_pos trivial]
  · rw [if_neg hin, if_neg hin, if_neg hne, if_pos trivial]
    by_cases hall : ∀ i, i < 8 →
        setAt s._digitalPinReporting pin ARD_OFF ((pin >>> 3) * 8 + i) ≠ ARD_ON
    · have hsend : (List.range 8).all (fun i => decide
          (setAt s._digitalPinReporting pin ARD_OFF ((pin >>> 3) * 8 + i) ≠ ARD_ON)) = true := by
        rw [List.all_eq_true]
        intro i hi
        exact decide_eq_true (hall i (List.mem_range.mp hi))
      rw [if_pos hall, if_pos hsend]
    · have hsend : ¬ ((List.range 8).all (fun i => decide
          (setAt s._digitalPinReporting pin ARD_OFF ((pin >>> 3) * 8 + i) ≠ ARD_ON)) = true) := by
        rw [List.all_eq_true]
        intro hcon
        apply hall
        intro i hi
        exact of_decide_eq_true (hcon i (List.mem_range.mpr hi))
      rw [if_neg hall, if_neg hsend]

/-- The invariant behind C23. -/
theorem modeReach_invariant (ports pins : Nat) (s : ofArduino) (h : ModeReach ports pins s) :
    (∀ port, port < ports →
        (s._digitalPortReporting port = ARD_ON
          ↔ ∃ i, i < 8 ∧ s._digitalPinReporting (port * 8 + i) = ARD_ON))
      ∧ (∀ q, q < 8 * ports →
        (s._digitalPinReporting q = ARD_ON
          ↔ (s._digitalPinMode q = ARD_INPUT ∨ s._digitalPinMode q = ARD_INPUT_PULLUP))) := by
  have hne : ¬ (ARD_OFF = ARD_ON) := by decide
  induction h with
  | init raw channels hsize =>
    constructor
    · intro port hport
      simp only [construct]
      rw [if_pos hport]
      constructor
      · intro hcon
        exact absurd hcon hne
      · rintro ⟨i, hi, hcon⟩
        rw [if_pos (by omega)] at hcon
        exact absurd hcon hne
    · intro q hq
      simp only [construct]
      rw [if_pos (by omega : q < pins)]
      constructor
      · intro hcon
        exact absurd hcon hne
      · intro hcon
        exfalso
        by_cases hc : q < channels
        · rw [if_pos hc] at hcon
          rcases hcon with hcon | hcon <;> exact absurd hcon (by decide)
        · rw [if_neg hc, if_pos (by omega : q < pins)] at hcon
          rcases hcon with hcon | hcon <;> exact absurd hcon (by decide)
  | pinMode s pin mode _ hpin ih =>
    obtain ⟨ihA, ihB⟩ := ih
    have hsh : pin >>> 3 = pin / 8 := by rw [Nat.shiftRight_eq_div_pow]
    rw [sendDigitalPinMode_eq, hsh]
    by_cases hin : mode = ARD_INPUT ∨ mode = ARD_INPUT_PULLUP
    · rw [if_pos hin]
      constructor
      · intro port hport
        simp only [setAt]
        by_cases hp : port = pin / 8
        · rw [if_pos hp]
          refine ⟨fun _ => ⟨pin % 8, Nat.mod_lt _ (by decide), ?_⟩, fun _ => rfl⟩
          rw [if_pos (by omega)]
        · rw [if_neg hp]
          rw [ihA port hport]
          constructor
          · rintro ⟨i, hi, hon⟩
            refine ⟨i, hi, ?_⟩
            rw [if_neg (by omega)]
            exact hon
          · rintro ⟨i, hi, hon⟩
            refine ⟨i, hi, ?_⟩
            rw [if_neg (by omega)] at hon
            exact hon
      · intro q hq
        simp only [setAt]
        by_cases hqp : q = pin
        · rw [if_pos hqp, if_pos hqp]
          exact ⟨fun _ => hin, fun _ => rfl⟩
        · rw [if_neg hqp, if_neg hqp]
          exact ihB q hq
    · rw [if_neg hin]
      have hB : ∀ q, q < 8 * ports →
          (setAt s._digitalPinReporting pin ARD_OFF q = ARD_ON
            ↔ (setAt s._digitalPinMode pin mode q = ARD_INPUT
                ∨ setAt s._digitalPinMode pin mode q = ARD_INPUT_PULLUP)) := by
        intro q hq
        simp only [setAt]
        by_cases hqp : q = pin
        · rw [if_pos hqp, if_pos hqp]
          exact ⟨fun hcon => absurd hcon hne, fun hcon => absurd hcon hin⟩
        · rw [if_neg hqp, if_neg hqp]
          exact ihB q hq
      have hother : ∀ port, port ≠ pin / 8 → ∀ i, i < 8 →
          setAt s._digitalPinReporting pin ARD_OFF (port * 8 + i)
            = s._digitalPinReporting (port * 8 + i) := by
        intro port hp i hi
        simp only [setAt]
        rw [if_neg (by omega)]
      by_cases hall : ∀ i, i < 8 →
          setAt s._digitalPinReporting pin ARD_OFF (pin / 8 * 8 + i) ≠ ARD_ON
      · rw [if_pos hall]
        refine ⟨?_, hB⟩
        intro port hport
        show setAt s._digitalPortReporting (pin / 8) ARD_OFF port = ARD_ON
          ↔ ∃ i, i < 8 ∧ setAt s._digitalPinReporting pin ARD_OFF (port * 8 + i) = ARD_ON
        by_cases hp : port = pin / 8
        · subst hp
          simp only [setAt, if_true]
          constructor
          · intro hcon
            exact absurd hcon hne
          · rintro ⟨i, hi, hon⟩
            exact absurd hon (hall i hi)
        · rw [show setAt s._digitalPortReporting (pin / 8) ARD_OFF port
              = s._digitalPortReporting port from by simp only [setAt]; rw [if_neg hp]]
          rw [ihA port hport]
          constructor
          · rintro ⟨i, hi, hon⟩
            exact ⟨i, hi, by rw [hother port hp i hi]; exact hon⟩
          · rintro ⟨i, hi, hon⟩
            exact ⟨i, hi, by rw [hother port hp i hi] at hon; exact hon⟩
      · rw [if_neg hall]
        refine ⟨?_, hB⟩
        intro port hport
        show s._digitalPortReporting port = ARD_ON
          ↔ ∃ i, i < 8 ∧ setAt s._digitalPinReporting pin ARD_OFF (port * 8 + i) = ARD_ON
        rw [ihA port hport]
        by_cases hp : port = pin / 8
        · subst hp
          have hex : ∃ i, i < 8
              ∧ setAt s._digitalPinReporting pin ARD_OFF (pin / 8 * 8 + i) = ARD_ON := by
            by_contra hcon
            apply hall
            intro i hi hon
            exact hcon ⟨i, hi, hon⟩
          refine ⟨fun _ => hex, fun _ => ?_⟩
          obtain ⟨i, hi, hon⟩ := hex
          refine ⟨i, hi, ?_⟩
          simp only [setAt] at hon
          by_cases hq : pin / 8 * 8 + i = pin
          · rw [if_pos hq] at hon
            exact absurd hon hne
          · rw [if_neg hq] at hon
            exact hon
        · constructor
          · rintro ⟨i, hi, hon⟩
            exact ⟨i, hi, by rw [hother port hp i hi]; exact hon⟩
          · rintro ⟨i, hi, hon⟩
            exact ⟨i, hi, by rw [hother port hp i hi] at hon; exact hon⟩

/-- The frame that switches a port's reporting off differs from the one that
switches it on. -/
theorem reportDigitalFrame_on_ne_off (port : Nat) :
    reportDigitalFrame port ARD_ON ≠ reportDigitalFrame port ARD_OFF := by
  intro hcon
  unfold reportDigitalFrame at hcon
  exact absurd (List.append_cancel_left hcon) (by decide)

/-- C23: in every state reachable from the constructor by `sendDigitalPinMode`
calls on valid pins, a port's reporting flag is ON exactly when one of its 8
pins has its reporting flag ON, and a pin's reporting flag is ON exactly when
its mode, which is the last mode commanded for it, is input or input-pullup; a
mode change writes the `SET_PIN_MODE` frame followed by nothing, by the
port's reporting-on frame or by its reporting-off frame, and the off frame is
written only when no pin of the port has reporting ON afterwards. -/
theorem C23_port_reporting (ports pins : Nat) (s : ofArduino) (h : ModeReach ports pins s)
    (pin : Nat) (mode : Int) :
    (∀ port, port < ports →
        (s._digitalPortReporting port = ARD_ON
          ↔ ∃ i, i < 8 ∧ s._digitalPinReporting (port * 8 + i) = ARD_ON))
      ∧ (∀ q, q < 8 * ports →
        (s._digitalPinReporting q = ARD_ON
          ↔ (s._digitalPinMode q = ARD_INPUT ∨ s._digitalPinMode q = ARD_INPUT_PULLUP)))
      ∧ (sendDigitalPinMode s pin mode).1._digitalPinMode pin = mode
      ∧ ∃ tail, (sendDigitalPinMode s pin mode).2
            = sendByte FIRMATA_SET_PIN_MODE ++ sendByte pin ++ sendInt mode ++ tail
          ∧ (tail = [] ∨ tail = reportDigitalFrame (pin >>> 3) ARD_ON
              ∨ tail = reportDigitalFrame (pin >>> 3) ARD_OFF)
          ∧ (tail = reportDigitalFrame (pin >>> 3) ARD_OFF →
              ∀ i, i < 8 →
                (sendDigitalPinMode s pin mode).1._digitalPinReporting ((pin >>> 3) * 8 + i)
                  ≠ ARD_ON) := by
  obtain ⟨hA, hB⟩ := modeReach_invariant ports pins s h
  refine ⟨hA, hB, ?_, ?_⟩
  · rw [sendDigitalPinMode_eq]
    split
    · simp only [setAt, if_true]
    · split <;> simp only [setAt, if_true]
  · rw [sendDigitalPinMode_eq]
    by_cases hin : mode = ARD_INPUT ∨ mode = ARD_INPUT_PULLUP
    · rw [if_pos hin]
      refine ⟨_, rfl, Or.inr (Or.inl rfl), ?_⟩
      intro hcon
      exact absurd hcon (reportDigitalFrame_on_ne_off _)
    · rw [if_neg hin]
      by_cases hall : ∀ i, i < 8 →
          setAt s._digitalPinReporting pin ARD_OFF ((pin >>> 3) * 8 + i) ≠ ARD_ON
      · rw [if_pos hall]
        exact ⟨_, rfl, Or.inr (Or.inr rfl), fun _ => hall⟩
      · rw [if_neg hall]
        refine ⟨_, rfl, Or.inl rfl, ?_⟩
        intro hcon
        have hlen := congrArg List.length hcon
        simp [reportDigitalFrame, sendByte, sendInt] at hlen

/-- C23 (witness): after construction, pins 8 and 9 put in input mode and
pin 8 put back in output mode, port 1 still reports because pin 9 does. -/
theorem C23_port_reporting_witness :
    ModeReach 16 128
        (sendDigitalPinMode (sendDigitalPinMode (sendDigitalPinMode fresh 8 ARD_INPUT).1 9
          ARD_INPUT_PULLUP).1 8 ARD_OUTPUT).1
      ∧ ((sendDigitalPinMode (sendDigitalPinMode (sendDigitalPinMode fresh 8 ARD_INPUT).1 9
            ARD_INPUT_PULLUP).1 8 ARD_OUTPUT).1._digitalPortReporting 1 = ARD_ON
          ↔ ∃ i, i < 8 ∧
            (sendDigitalPinMode (sendDigitalPinMode (sendDigitalPinMode fresh 8 ARD_INPUT).1 9
              ARD_INPUT_PULLUP).1 8 ARD_OUTPUT).1._digitalPinReporting (1 * 8 + i) = ARD_ON)
      ∧ (sendDigitalPinMode (sendDigitalPinMode (sendDigitalPinMode fresh 8 ARD_INPUT).1 9
            ARD_INPUT_PULLUP).1 8 ARD_OUTPUT).1._digitalPortReporting 1 = ARD_ON :=
  have hr : ModeReach 16 128
      (sendDigitalPinMode (sendDigitalPinMode (sendDigitalPinMode fresh 8 ARD_INPUT).1 9
        ARD_INPUT_PULLUP).1 8 ARD_OUTPUT).1 :=
    ModeReach.pinMode _ 8 ARD_OUTPUT
      (ModeReach.pinMode _ 9 ARD_INPUT_PULLUP
        (ModeReach.pinMode _ 8 ARD_INPUT (ModeReach.init zeroed 16 (by decide)) (by decide))
        (by decide))
      (by decide)
  ⟨hr, (C23_port_reporting 16 128 _ hr 8 ARD_INPUT).1 1 (by decide), by decide⟩

/-! ## C26 -/

/-- The pair loop writes two bytes below 128 per value. -/
theorem sendValues_shape (vs : List Int) :
    (sendValues vs).length = 2 * vs.length ∧ ∀ b, b ∈ sendValues vs → b < 128 := by
  induction vs with
  | nil => exact ⟨rfl, fun b hb => by cases hb⟩
  | cons v rest ih =>
    simp only [sendValues, sendValueAsTwo7bitBytes_eq]
    constructor
    · simp only [List.length_append, List.length_cons, List.length_nil, ih.1]
      omega
    · intro b hb
      rw [List.mem_append] at hb
      rcases hb with hb | hb
      · simp only [List.mem_cons, List.mem_singleton, List.not_mem_nil, or_false] at hb
        rcases hb with hb | hb
        · rw [hb]; exact and_127_lt _
        · rw [hb]; exact and_127_lt _
      · exact ih.2 b hb

/-- The low byte of the 32-bit pattern of a character is its code. -/
theorem bits32_charToInt (signedChar : Bool) (c : Nat) :
    bits32 (charToInt signedChar c) % 256 = c % 256 := by
  unfold bits32 charToInt
  split <;> omega

/-- The string decoder undoes the pair loop of `sendString`. -/
theorem decodePairsLenient_sendValues (signedChar : Bool) (str : List Nat)
    (hchars : ∀ c, c ∈ str → c < 256) :
    decodePairsLenient (sendValues (str.map (charToInt signedChar))) = str := by
  induction str with
  | nil => rfl
  | cons c rest ih =>
    have hc : c < 256 := hchars c (List.mem_cons_self _ _)
    have hrest := ih (fun d hd => hchars d (List.mem_cons_of_mem _ hd))
    have hstep : ∀ lo hi tl, decodePairsLenient ([lo, hi] ++ tl)
        = ((lo + (hi <<< 7)) % 256) :: decodePairsLenient tl := fun _ _ _ => rfl
    rw [List.map_cons,
      show sendValues (charToInt signedChar c :: rest.map (charToInt signedChar))
        = sendValueAsTwo7bitBytes (charToInt signedChar c)
            ++ sendValues (rest.map (charToInt signedChar)) from rfl,
      sendValueAsTwo7bitBytes_eq, hstep, hrest]
    have h3 := bits32_charToInt signedChar c
    have h1 : bits32 (charToInt signedChar c) &&& 0x7F
        = bits32 (charToInt signedChar c) % 128 := Nat.and_pow_two_sub_one_eq_mod _ 7
    have h2 : (bits32 (charToInt signedChar c) >>> 7) &&& 127
        = (bits32 (charToInt signedChar c) >>> 7) % 128 := Nat.and_pow_two_sub_one_eq_mod _ 7
    rw [h1, h2, Nat.shiftLeft_eq, Nat.shiftRight_eq_div_pow]
    congr 1
    omega

/-- While a SysEx message is being collected, a byte other than `END_SYSEX` is
appended to the accumulation buffer. -/
theorem processData_sysex_collect (s : ofArduino) (b : Nat) (hw : s._waitForData < 0)
    (hb : b < 256) (hne : b ≠ FIRMATA_END_SYSEX) :
    processData s b = some ({ s with _sysExData := s._sysExData ++ [b] }, []) := by
  unfold processData
  simp only []
  rw [Nat.mod_eq_of_lt hb, if_neg (by omega), if_pos hw, if_neg hne]

/-- While a SysEx message is being collected, `END_SYSEX` decodes the buffer. -/
theorem processData_sysex_end (s : ofArduino) (hw : s._waitForData < 0) :
    processData s FIRMATA_END_SYSEX =
      match processSysExData { s with _waitForData := 0 } s._sysExData with
      | none => none
      | some (s2, ev) => some ({ s2 with _sysExData := [] }, ev) := by
  unfold processData
  simp only []
  rw [if_neg (by omega), if_pos hw, if_pos (by decide)]

/-- From the idle state `START_SYSEX` clears the buffer and starts collecting. -/
theorem processData_sysex_start (s : ofArduino) (hidle : s._waitForData = 0) :
    processData s FIRMATA_START_SYSEX =
      some ({ s with
              _sysExData := []
              _waitForData := -1
              _executeMultiByteCommand := FIRMATA_START_SYSEX }, []) := by
  unfold processData
  simp only []
  rw [if_neg (by omega), if_neg (by omega)]
  rfl

/-- Bytes other than `END_SYSEX` fed while a SysEx message is being collected
are appended to the accumulation buffer, and nothing else happens. -/
theorem feed_sysex_collect (payload : List Nat) (s : ofArduino) (hw : s._waitForData < 0)
    (hp : ∀ b, b ∈ payload → b < 256 ∧ b ≠ FIRMATA_END_SYSEX) :
    feed s payload = some ({ s with _sysExData := s._sysExData ++ payload }, []) := by
  induction payload generalizing s with
  | nil =>
    rw [List.append_nil]
    rfl
  | cons b rest ih =>
    obtain ⟨hb, hne⟩ := hp b (List.mem_cons_self _ _)
    have hrest := ih { s with _sysExData := s._sysExData ++ [b] } hw
      (fun d hd => hp d (List.mem_cons_of_mem _ hd))
    simp only [feed]
    rw [processData_sysex_collect s b hw hb hne]
    simp only []
    rw [hrest]
    simp only [List.append_assoc, List.singleton_append, List.nil_append]

/-- A whole SysEx message fed from the idle state: the payload is decoded by
`processSysExData` and the buffer is emptied. -/
theorem feed_sysex_message (s : ofArduino) (payload : List Nat) (hidle : s._waitForData = 0)
    (hp : ∀ b, b ∈ payload → b < 256 ∧ b ≠ FIRMATA_END_SYSEX) :
    feed s (FIRMATA_START_SYSEX :: (payload ++ [FIRMATA_END_SYSEX])) =
      match processSysExData
          { s with
            _sysExData := payload
            _waitForData := 0
            _executeMultiByteCommand := FIRMATA_START_SYSEX } payload with
      | none => none
      | some (s2, ev) => some ({ s2 with _sysExData := [] }, ev) := by
  have hcollect := feed_sysex_collect payload
    { s with
      _sysExData := []
      _waitForData := -1
      _executeMultiByteCommand := FIRMATA_START_SYSEX } (show (-1 : Int) < 0 by decide) hp
  have hend := processData_sysex_end
    { s with
      _sysExData := payload
      _waitForData := -1
      _executeMultiByteCommand := FIRMATA_START_SYSEX } (show (-1 : Int) < 0 by decide)
  simp only [List.nil_append] at hcollect
  simp only [feed]
  rw [processData_sysex_start s hidle]
  simp only []
  rw [feed_append, hcollect]
  simp only [feed]
  rw [hend]
  simp only []
  cases processSysExData
      { s with
        _sysExData := payload
        _waitForData := 0
        _executeMultiByteCommand := FIRMATA_START_SYSEX } payload with
  | none => rfl
  | some r => simp

/-- C26: for every string `str` of 8-bit characters (with `char` signed or
unsigned), `sendString(str)` writes `START_SYSEX`, the string sub-command, two
bytes below 128 per character and `END_SYSEX`; feeding those bytes through
`processData` from an idle state publishes exactly one string-received event
carrying `str` and returns the framer to idle with an empty accumulation
buffer, and, the string retention length being at least 1 as it is in every
state built by the constructor and the setters, `getString()` is `str`. -/
theorem C26_string_round_trip (s : ofArduino) (signedChar : Bool) (str : List Nat)
    (hchars : ∀ c, c ∈ str → c < 256) (hidle : s._waitForData = 0) :
    (∃ body, sendString signedChar str
          = FIRMATA_START_SYSEX :: FIRMATA_SYSEX_FIRMATA_STRING
              :: (body ++ [FIRMATA_END_SYSEX])
        ∧ body.length = 2 * str.length ∧ ∀ b, b ∈ body → b < 128)
      ∧ ∃ s', feed s (sendString signedChar str) = some (s', [Event.EStringReceived str])
          ∧ s'._waitForData = 0 ∧ s'._sysExData = []
          ∧ s'._stringHistory = pushFront s._stringHistory str s._stringHistoryLength
          ∧ (1 ≤ s._stringHistoryLength → getString s' = some str) := by
  obtain ⟨hlen, hlt⟩ := sendValues_shape (str.map (charToInt signedChar))
  have hshape : sendString signedChar str
      = FIRMATA_START_SYSEX :: ((FIRMATA_SYSEX_FIRMATA_STRING
          :: sendValues (str.map (charToInt signedChar))) ++ [FIRMATA_END_SYSEX]) := rfl
  have hp : ∀ b, b ∈ FIRMATA_SYSEX_FIRMATA_STRING :: sendValues (str.map (charToInt signedChar))
      → b < 256 ∧ b ≠ FIRMATA_END_SYSEX := by
    intro b hb
    rcases List.mem_cons.mp hb with hb | hb
    · rw [hb]
      decide
    · have h128 := hlt b hb
      have hend : FIRMATA_END_SYSEX = 247 := rfl
      rw [hend]
      omega
  constructor
  · refine ⟨sendValues (str.map (charToInt signedChar)), hshape, ?_, hlt⟩
    rw [hlen, List.length_map]
  · rw [hshape, feed_sysex_message s _ hidle hp]
    have hdec : processSysExData
        { s with
          _sysExData := FIRMATA_SYSEX_FIRMATA_STRING
            :: sendValues (str.map (charToInt signedChar))
          _waitForData := 0
          _executeMultiByteCommand := FIRMATA_START_SYSEX }
        (FIRMATA_SYSEX_FIRMATA_STRING :: sendValues (str.map (charToInt signedChar)))
        = some ({ s with
                  _sysExData := FIRMATA_SYSEX_FIRMATA_STRING
                    :: sendValues (str.map (charToInt signedChar))
                  _waitForData := 0
                  _executeMultiByteCommand := FIRMATA_START_SYSEX
                  _stringHistory := pushFront s._stringHistory str s._stringHistoryLength },
                [Event.EStringReceived str]) := by
      simp only [processSysExData]
      rw [if_neg (by decide), if_pos trivial, decodePairsLenient_sendValues signedChar str hchars]
    rw [hdec]
    refine ⟨_, rfl, rfl, rfl, rfl, ?_⟩
    intro h1
    show (pushFront s._stringHistory str s._stringHistoryLength).head? = some str
    rw [pushFront_eq _ _ _ h1]
    rfl

/-- C26 (witness): the three characters with codes 72, 105 and 233 sent with a
signed `char` and fed back to a freshly constructed engine. -/
theorem C26_string_round_trip_witness :
    sendString true [72, 105, 233] = [0xF0, 0x71, 72, 0, 105, 0, 105, 127, 0xF7]
      ∧ ∃ s', feed fresh (sendString true [72, 105, 233])
            = some (s', [Event.EStringReceived [72, 105, 233]])
          ∧ s'._waitForData = 0 ∧ s'._sysExData = []
          ∧ getString s' = some [72, 105, 233] :=
  ⟨by decide,
    match C26_string_round_trip fresh true [72, 105, 233] (by decide) rfl with
    | ⟨_, s', h1, h2, h3, _, h5⟩ => ⟨s', h1, h2, h3, h5 (by decide)⟩⟩

end ofArduino
